import Mathlib

/-!
Verification of the Reed-Solomon / QR-symbol core of the `qr-pro-max` crate.

Every definition below is a shallow embedding of the corresponding Rust item
(file and item named in each doc comment).  Machine integers are modelled as
`Nat` (bytes carry explicit `< 256` hypotheses where they matter), fallible
or panicking code returns `Option`, and the byte tables are transcribed
verbatim from the source.
-/

namespace QR

/-! ## GF(256) log/exp tables

Transcribed from `static EXP_TABLE` / `static LOG_TABLE` in `src/ecc.rs`
(the copies in `src/common/ec/galois.rs` are byte-identical). -/

def EXP_TABLE : List Nat := [
  1, 2, 4, 8, 16, 32, 64, 128, 29, 58, 116, 232, 205, 135, 19, 38,
  76, 152, 45, 90, 180, 117, 234, 201, 143, 3, 6, 12, 24, 48, 96, 192,
  157, 39, 78, 156, 37, 74, 148, 53, 106, 212, 181, 119, 238, 193, 159, 35,
  70, 140, 5, 10, 20, 40, 80, 160, 93, 186, 105, 210, 185, 111, 222, 161,
  95, 190, 97, 194, 153, 47, 94, 188, 101, 202, 137, 15, 30, 60, 120, 240,
  253, 231, 211, 187, 107, 214, 177, 127, 254, 225, 223, 163, 91, 182, 113, 226,
  217, 175, 67, 134, 17, 34, 68, 136, 13, 26, 52, 104, 208, 189, 103, 206,
  129, 31, 62, 124, 248, 237, 199, 147, 59, 118, 236, 197, 151, 51, 102, 204,
  133, 23, 46, 92, 184, 109, 218, 169, 79, 158, 33, 66, 132, 21, 42, 84,
  168, 77, 154, 41, 82, 164, 85, 170, 73, 146, 57, 114, 228, 213, 183, 115,
  230, 209, 191, 99, 198, 145, 63, 126, 252, 229, 215, 179, 123, 246, 241, 255,
  227, 219, 171, 75, 150, 49, 98, 196, 149, 55, 110, 220, 165, 87, 174, 65,
  130, 25, 50, 100, 200, 141, 7, 14, 28, 56, 112, 224, 221, 167, 83, 166,
  81, 162, 89, 178, 121, 242, 249, 239, 195, 155, 43, 86, 172, 69, 138, 9,
  18, 36, 72, 144, 61, 122, 244, 245, 247, 243, 251, 235, 203, 139, 11, 22,
  44, 88, 176, 125, 250, 233, 207, 131, 27, 54, 108, 216, 173, 71, 142, 1]

def LOG_TABLE : List Nat := [
  255, 0, 1, 25, 2, 50, 26, 198, 3, 223, 51, 238, 27, 104, 199, 75,
  4, 100, 224, 14, 52, 141, 239, 129, 28, 193, 105, 248, 200, 8, 76, 113,
  5, 138, 101, 47, 225, 36, 15, 33, 53, 147, 142, 218, 240, 18, 130, 69,
  29, 181, 194, 125, 106, 39, 249, 185, 201, 154, 9, 120, 77, 228, 114, 166,
  6, 191, 139, 98, 102, 221, 48, 253, 226, 152, 37, 179, 16, 145, 34, 136,
  54, 208, 148, 206, 143, 150, 219, 189, 241, 210, 19, 92, 131, 56, 70, 64,
  30, 66, 182, 163, 195, 72, 126, 110, 107, 58, 40, 84, 250, 133, 186, 61,
  202, 94, 155, 159, 10, 21, 121, 43, 78, 212, 229, 172, 115, 243, 167, 87,
  7, 112, 192, 247, 140, 128, 99, 13, 103, 74, 222, 237, 49, 197, 254, 24,
  227, 165, 153, 119, 38, 184, 180, 124, 17, 68, 146, 217, 35, 32, 137, 46,
  55, 63, 209, 91, 149, 188, 207, 205, 144, 135, 151, 178, 220, 252, 190, 97,
  242, 86, 211, 171, 20, 42, 93, 158, 132, 60, 57, 83, 71, 109, 65, 162,
  31, 45, 67, 216, 183, 123, 164, 118, 196, 23, 73, 236, 127, 12, 111, 246,
  108, 161, 59, 82, 41, 157, 85, 170, 251, 96, 134, 177, 187, 204, 62, 90,
  203, 89, 95, 176, 156, 169, 160, 81, 11, 245, 22, 235, 122, 117, 44, 215,
  79, 174, 213, 233, 230, 231, 173, 232, 116, 214, 244, 234, 168, 80, 88, 175]

/-- Generator polynomials from `static GENERATOR_POLYNOMIALS` in `src/ecc.rs`:
entry `n` holds the log-form coefficients (after the leading 1) of the
degree-`n` Reed-Solomon generator polynomial. -/
def GENERATOR_POLYNOMIALS : List (List Nat) := [
  [],
  [0],
  [25, 1],
  [198, 199, 3],
  [75, 249, 78, 6],
  [113, 164, 166, 119, 10],
  [166, 0, 134, 5, 176, 15],
  [87, 229, 146, 149, 238, 102, 21],
  [175, 238, 208, 249, 215, 252, 196, 28],
  [95, 246, 137, 231, 235, 149, 11, 123, 36],
  [251, 67, 46, 61, 118, 70, 64, 94, 32, 45],
  [220, 192, 91, 194, 172, 177, 209, 116, 227, 10, 55],
  [102, 43, 98, 121, 187, 113, 198, 143, 131, 87, 157, 66],
  [74, 152, 176, 100, 86, 100, 106, 104, 130, 218, 206, 140, 78],
  [199, 249, 155, 48, 190, 124, 218, 137, 216, 87, 207, 59, 22, 91],
  [8, 183, 61, 91, 202, 37, 51, 58, 58, 237, 140, 124, 5, 99, 105],
  [120, 104, 107, 109, 102, 161, 76, 3, 91, 191, 147, 169, 182, 194, 225, 120],
  [43, 139, 206, 78, 43, 239, 123, 206, 214, 147, 24, 99, 150, 39, 243, 163, 136],
  [215, 234, 158, 94, 184, 97, 118, 170, 79, 187, 152, 148, 252, 179, 5, 98, 96, 153],
  [67, 3, 105, 153, 52, 90, 83, 17, 150, 159, 44, 128, 153, 133, 252, 222, 138, 220, 171],
  [17, 60, 79, 50, 61, 163, 26, 187, 202, 180, 221, 225, 83, 239, 156, 164, 212, 212, 188, 190],
  [240, 233, 104, 247, 181, 140, 67, 98, 85, 200, 210, 115, 148, 137, 230, 36, 122, 254, 148, 175, 210],
  [210, 171, 247, 242, 93, 230, 14, 109, 221, 53, 200, 74, 8, 172, 98, 80, 219, 134, 160, 105, 165, 231],
  [171, 102, 146, 91, 49, 103, 65, 17, 193, 150, 14, 25, 183, 248, 94, 164, 224, 192, 1, 78, 56, 147, 253],
  [229, 121, 135, 48, 211, 117, 251, 126, 159, 180, 169, 152, 192, 226, 228, 218, 111, 0, 117, 232, 87, 96, 227, 21],
  [231, 181, 156, 39, 170, 26, 12, 59, 15, 148, 201, 54, 66, 237, 208, 99, 167, 144, 182, 95, 243, 129, 178, 252, 45],
  [173, 125, 158, 2, 103, 182, 118, 17, 145, 201, 111, 28, 165, 53, 161, 21, 245, 142, 13, 102, 48, 227, 153, 145, 218, 70],
  [79, 228, 8, 165, 227, 21, 180, 29, 9, 237, 70, 99, 45, 58, 138, 135, 73, 126, 172, 94, 216, 193, 157, 26, 17, 149, 96],
  [168, 223, 200, 104, 224, 234, 108, 180, 110, 190, 195, 147, 205, 27, 232, 201, 21, 43, 245, 87, 42, 195, 212, 119, 242, 37, 9, 123],
  [156, 45, 183, 29, 151, 219, 54, 96, 249, 24, 136, 5, 241, 175, 189, 28, 75, 234, 150, 148, 23, 9, 202, 162, 68, 250, 140, 24, 151],
  [41, 173, 145, 152, 216, 31, 179, 182, 50, 48, 110, 86, 239, 96, 222, 125, 42, 173, 226, 193, 224, 130, 156, 37, 251, 216, 238, 40, 192, 180],
  [20, 37, 252, 93, 63, 75, 225, 31, 115, 83, 113, 39, 44, 73, 122, 137, 118, 119, 144, 248, 248, 55, 1, 225, 105, 123, 183, 117, 187, 200, 210],
  [10, 6, 106, 190, 249, 167, 4, 67, 209, 138, 138, 32, 242, 123, 89, 27, 120, 185, 80, 156, 38, 69, 171, 60, 28, 222, 80, 52, 254, 185, 220, 241],
  [245, 231, 55, 24, 71, 78, 76, 81, 225, 212, 173, 37, 215, 46, 119, 229, 245, 167, 126, 72, 181, 94, 165, 210, 98, 125, 159, 184, 169, 232, 185, 231, 18],
  [111, 77, 146, 94, 26, 21, 108, 19, 105, 94, 113, 193, 86, 140, 163, 125, 58, 158, 229, 239, 218, 103, 56, 70, 114, 61, 183, 129, 167, 13, 98, 62, 129, 51],
  [7, 94, 143, 81, 247, 127, 202, 202, 194, 125, 146, 29, 138, 162, 153, 65, 105, 122, 116, 238, 26, 36, 216, 112, 125, 228, 15, 49, 8, 162, 30, 126, 111, 58, 85],
  [200, 183, 98, 16, 172, 31, 246, 234, 60, 152, 115, 0, 167, 152, 113, 248, 238, 107, 18, 63, 218, 37, 87, 210, 105, 177, 120, 74, 121, 196, 117, 251, 113, 233, 30, 120],
  [154, 75, 141, 180, 61, 165, 104, 232, 46, 227, 96, 178, 92, 135, 57, 162, 120, 194, 212, 174, 252, 183, 42, 35, 157, 111, 23, 133, 100, 8, 105, 37, 192, 189, 159, 19, 156],
  [159, 34, 38, 228, 230, 59, 243, 95, 49, 218, 176, 164, 20, 65, 45, 111, 39, 81, 49, 118, 113, 222, 193, 250, 242, 168, 217, 41, 164, 247, 177, 30, 238, 18, 120, 153, 60, 193],
  [81, 216, 174, 47, 200, 150, 59, 156, 89, 143, 89, 166, 183, 170, 152, 21, 165, 177, 113, 132, 234, 5, 154, 68, 124, 175, 196, 157, 249, 233, 83, 24, 153, 241, 126, 36, 116, 19, 231],
  [59, 116, 79, 161, 252, 98, 128, 205, 128, 161, 247, 57, 163, 56, 235, 106, 53, 26, 187, 174, 226, 104, 170, 7, 175, 35, 181, 114, 88, 41, 47, 163, 125, 134, 72, 20, 232, 53, 35, 15],
  [132, 167, 52, 139, 184, 223, 149, 92, 250, 18, 83, 33, 127, 109, 194, 7, 211, 242, 109, 66, 86, 169, 87, 96, 187, 159, 114, 172, 118, 208, 183, 200, 82, 179, 38, 39, 34, 242, 142, 147, 55],
  [250, 103, 221, 230, 25, 18, 137, 231, 0, 3, 58, 242, 221, 191, 110, 84, 230, 8, 188, 106, 96, 147, 15, 131, 139, 34, 101, 223, 39, 101, 213, 199, 237, 254, 201, 123, 171, 162, 194, 117, 50, 96],
  [96, 67, 3, 245, 217, 215, 33, 65, 240, 109, 144, 63, 21, 131, 38, 101, 153, 128, 55, 31, 237, 3, 94, 160, 20, 87, 77, 56, 191, 123, 207, 75, 82, 0, 122, 132, 101, 145, 215, 15, 121, 192, 138],
  [190, 7, 61, 121, 71, 246, 69, 55, 168, 188, 89, 243, 191, 25, 72, 123, 9, 145, 14, 247, 1, 238, 44, 78, 143, 62, 224, 126, 118, 114, 68, 163, 52, 194, 217, 147, 204, 169, 37, 130, 113, 102, 73, 181],
  [6, 172, 72, 250, 18, 171, 171, 162, 229, 187, 239, 4, 187, 11, 37, 228, 102, 72, 102, 22, 33, 73, 95, 99, 132, 1, 15, 89, 4, 112, 130, 95, 211, 235, 227, 58, 35, 88, 132, 23, 44, 165, 54, 187, 225],
  [112, 94, 88, 112, 253, 224, 202, 115, 187, 99, 89, 5, 54, 113, 129, 44, 58, 16, 135, 216, 169, 211, 36, 1, 4, 96, 60, 241, 73, 104, 234, 8, 249, 245, 119, 174, 52, 25, 157, 224, 43, 202, 223, 19, 82, 15],
  [76, 164, 229, 92, 79, 168, 219, 110, 104, 21, 220, 74, 19, 199, 195, 100, 93, 191, 43, 213, 72, 56, 138, 161, 125, 187, 119, 250, 189, 137, 190, 76, 126, 247, 93, 30, 132, 6, 58, 213, 208, 165, 224, 152, 133, 91, 61],
  [228, 25, 196, 130, 211, 146, 60, 24, 251, 90, 39, 102, 240, 61, 178, 63, 46, 123, 115, 18, 221, 111, 135, 160, 182, 205, 107, 206, 95, 150, 120, 184, 91, 21, 247, 156, 140, 238, 191, 11, 94, 227, 84, 50, 163, 39, 34, 108],
  [172, 121, 1, 41, 193, 222, 237, 64, 109, 181, 52, 120, 212, 226, 239, 245, 208, 20, 246, 34, 225, 204, 134, 101, 125, 206, 69, 138, 250, 0, 77, 58, 143, 185, 220, 254, 210, 190, 112, 88, 91, 57, 90, 109, 5, 13, 181, 25, 156],
  [232, 125, 157, 161, 164, 9, 118, 46, 209, 99, 203, 193, 35, 3, 209, 111, 195, 242, 203, 225, 46, 13, 32, 160, 126, 209, 130, 160, 242, 215, 242, 75, 77, 42, 189, 32, 113, 65, 124, 69, 228, 114, 235, 175, 124, 170, 215, 232, 133, 205],
  [213, 166, 142, 43, 10, 216, 141, 163, 172, 180, 102, 70, 89, 62, 222, 62, 42, 210, 151, 163, 218, 70, 77, 39, 166, 191, 114, 202, 245, 188, 183, 221, 75, 212, 27, 237, 127, 204, 235, 62, 190, 232, 18, 46, 171, 15, 98, 247, 66, 163, 0],
  [116, 50, 86, 186, 50, 220, 251, 89, 192, 46, 86, 127, 124, 19, 184, 233, 151, 215, 22, 14, 59, 145, 37, 242, 203, 134, 254, 89, 190, 94, 59, 65, 124, 113, 100, 233, 235, 121, 22, 76, 86, 97, 39, 242, 200, 220, 101, 33, 239, 254, 116, 51],
  [122, 214, 231, 136, 199, 11, 6, 205, 124, 72, 213, 117, 187, 60, 147, 201, 73, 75, 33, 146, 171, 247, 118, 208, 157, 177, 203, 235, 83, 45, 226, 202, 229, 168, 7, 57, 237, 235, 200, 124, 106, 254, 165, 14, 147, 0, 57, 42, 31, 178, 213, 173, 103],
  [183, 26, 201, 87, 210, 221, 113, 21, 46, 65, 45, 50, 238, 184, 249, 225, 102, 58, 209, 218, 109, 165, 26, 95, 184, 192, 52, 245, 35, 254, 238, 175, 172, 79, 123, 25, 122, 43, 120, 108, 215, 80, 128, 201, 235, 8, 153, 59, 101, 31, 198, 76, 31, 156],
  [38, 197, 123, 167, 16, 87, 178, 238, 227, 97, 148, 247, 26, 90, 228, 182, 236, 197, 47, 249, 36, 213, 54, 113, 181, 74, 177, 204, 155, 61, 47, 42, 0, 132, 144, 251, 200, 38, 38, 138, 54, 44, 64, 19, 22, 206, 16, 10, 228, 211, 161, 171, 44, 194, 210],
  [106, 120, 107, 157, 164, 216, 112, 116, 2, 91, 248, 163, 36, 201, 202, 229, 6, 144, 254, 155, 135, 208, 170, 209, 12, 139, 127, 142, 182, 249, 177, 174, 190, 28, 10, 85, 239, 184, 101, 124, 152, 206, 96, 23, 163, 61, 27, 196, 247, 151, 154, 202, 207, 20, 61, 10],
  [58, 140, 237, 93, 106, 61, 193, 2, 87, 73, 194, 215, 159, 163, 10, 155, 5, 121, 153, 59, 248, 4, 117, 22, 60, 177, 144, 44, 72, 228, 62, 1, 19, 170, 113, 158, 25, 175, 199, 139, 90, 1, 210, 7, 119, 154, 89, 159, 130, 122, 46, 147, 190, 135, 94, 68, 66],
  [82, 116, 26, 247, 66, 27, 62, 107, 252, 182, 200, 185, 235, 55, 251, 242, 210, 144, 154, 237, 176, 141, 192, 248, 152, 249, 206, 85, 253, 142, 65, 165, 125, 23, 24, 30, 122, 240, 214, 6, 129, 218, 29, 145, 127, 134, 206, 245, 117, 29, 41, 63, 159, 142, 233, 125, 148, 123],
  [57, 115, 232, 11, 195, 217, 3, 206, 77, 67, 29, 166, 180, 106, 118, 203, 17, 69, 152, 213, 74, 44, 49, 43, 98, 61, 253, 122, 14, 43, 209, 143, 9, 104, 107, 171, 224, 57, 254, 251, 226, 232, 221, 194, 240, 117, 161, 82, 178, 246, 178, 33, 50, 86, 215, 239, 180, 180, 181],
  [107, 140, 26, 12, 9, 141, 243, 197, 226, 197, 219, 45, 211, 101, 219, 120, 28, 181, 127, 6, 100, 247, 2, 205, 198, 57, 115, 219, 101, 109, 160, 82, 37, 38, 238, 49, 160, 209, 121, 86, 11, 124, 30, 181, 84, 25, 194, 87, 65, 102, 190, 220, 70, 27, 209, 16, 89, 7, 33, 240],
  [161, 244, 105, 115, 64, 9, 221, 236, 16, 145, 148, 34, 144, 186, 13, 20, 254, 246, 38, 35, 202, 72, 4, 212, 159, 211, 165, 135, 252, 250, 25, 87, 30, 120, 226, 234, 92, 199, 72, 7, 155, 218, 231, 44, 125, 178, 156, 174, 124, 43, 100, 31, 56, 101, 204, 64, 175, 225, 169, 146, 45],
  [65, 202, 113, 98, 71, 223, 248, 118, 214, 94, 0, 122, 37, 23, 2, 228, 58, 121, 7, 105, 135, 78, 243, 118, 70, 76, 223, 89, 72, 50, 70, 111, 194, 17, 212, 126, 181, 35, 221, 117, 235, 11, 229, 149, 147, 123, 213, 40, 115, 6, 200, 100, 26, 246, 182, 218, 127, 215, 36, 186, 110, 106],
  [30, 71, 36, 71, 19, 195, 172, 110, 61, 2, 169, 194, 90, 136, 59, 182, 231, 145, 102, 39, 170, 231, 214, 67, 196, 207, 53, 112, 246, 90, 90, 121, 183, 146, 74, 77, 38, 89, 22, 231, 55, 56, 242, 112, 217, 110, 123, 62, 201, 217, 128, 165, 60, 181, 37, 161, 246, 132, 246, 18, 115, 136, 168],
  [45, 51, 175, 9, 7, 158, 159, 49, 68, 119, 92, 123, 177, 204, 187, 254, 200, 78, 141, 149, 119, 26, 127, 53, 160, 93, 199, 212, 29, 24, 145, 156, 208, 150, 218, 209, 4, 216, 91, 47, 184, 146, 47, 140, 195, 195, 125, 242, 238, 63, 99, 108, 140, 230, 242, 31, 204, 11, 178, 243, 217, 156, 213, 231],
  [137, 158, 247, 240, 37, 238, 214, 128, 99, 218, 46, 138, 198, 128, 92, 219, 109, 139, 166, 25, 66, 67, 14, 58, 238, 149, 177, 195, 221, 154, 171, 48, 80, 12, 59, 190, 228, 19, 55, 208, 92, 112, 229, 37, 60, 10, 47, 81, 0, 192, 37, 171, 175, 147, 128, 73, 166, 61, 149, 12, 24, 95, 70, 113, 40],
  [5, 118, 222, 180, 136, 136, 162, 51, 46, 117, 13, 215, 81, 17, 139, 247, 197, 171, 95, 173, 65, 137, 178, 68, 111, 95, 101, 41, 72, 214, 169, 197, 95, 7, 44, 154, 77, 111, 236, 40, 121, 143, 63, 87, 80, 253, 240, 126, 217, 77, 34, 232, 106, 50, 168, 82, 76, 146, 67, 106, 171, 25, 132, 93, 45, 105],
  [191, 172, 113, 86, 7, 166, 246, 185, 155, 250, 98, 113, 89, 86, 214, 225, 156, 190, 58, 33, 144, 67, 179, 163, 52, 154, 233, 151, 104, 251, 160, 126, 175, 208, 225, 70, 227, 146, 4, 152, 139, 103, 25, 107, 61, 204, 159, 250, 193, 225, 105, 160, 98, 167, 2, 53, 16, 242, 83, 210, 196, 103, 248, 86, 211, 41, 171],
  [247, 159, 223, 33, 224, 93, 77, 70, 90, 160, 32, 254, 43, 150, 84, 101, 190, 205, 133, 52, 60, 202, 165, 220, 203, 151, 93, 84, 15, 84, 253, 173, 160, 89, 227, 52, 199, 97, 95, 231, 52, 177, 41, 125, 137, 241, 166, 225, 118, 2, 54, 32, 82, 215, 175, 198, 43, 238, 235, 27, 101, 184, 127, 3, 5, 8, 163, 238],
  [105, 73, 68, 1, 29, 168, 117, 14, 88, 208, 55, 46, 42, 217, 6, 84, 179, 97, 6, 240, 192, 231, 158, 64, 118, 160, 203, 57, 61, 108, 199, 124, 65, 187, 221, 167, 39, 182, 159, 180, 244, 203, 228, 254, 13, 175, 61, 90, 206, 40, 199, 94, 67, 57, 81, 229, 46, 123, 89, 37, 31, 202, 66, 250, 35, 170, 243, 88, 51]
]

/-- Packed little-endian copy of `EXP_TABLE` (byte `i` at bits `8*i..8*i+8`),
used only to make bulk kernel evaluation cheap; agreement with the list
table is proved below. -/
def expPacked : Nat :=
  196399186132762991095636190500253616596015235491845904390934131204566729811279907533350396911849308369980407930211792886676177716114413596927226281320667849074153250292142078322078523454783769371330644527748332569775799736597138689209414361655909189797704348576571341618578513091914276733823536811983159184670241101389106770742111972544046611613419071373128839461947995247144387545601792401549928493166230602197002776588410010719461928803626766131916564469880306225642490070614532302365327386183711788405988368587450126860104521812733624228754006314931070421678855833139036212041460909518558972187919380887764206081

/-- Packed little-endian copy of `LOG_TABLE`. -/
def logPacked : Nat :=
  22135253156888987530748098150270024343632497605293634117281264061560962248099620766229961468867162294233796152347975563017024165690400661622462404646302566225833645086064538892198543335321514950294300187779610338557442029018619797274438901674641748676613670242915365385819254959901651105240253464034662486586186382979728982817772067067513442677601938078891989292316012868233806586592927239821351197800766822366321181463280924672822998103315976779850880337712374790938628529953751181886374687897611504386983350015558142994211516619836411558782076806704747441947939324473761869443721989389604670425385080942269787341055

/-- Table lookup `EXP_TABLE[x mod 255]`; every exponent index the source
builds is reduced below 255 before the lookup, so the reduction is made
explicit here. -/
def expT (x : Nat) : Nat := EXP_TABLE.getD (x % 255) 0

/-- Table lookup `LOG_TABLE[a]`. -/
def logT (a : Nat) : Nat := LOG_TABLE.getD a 0

/-- Addition in GF(256): `impl Add for G` in `src/common/ec/galois.rs` is
bytewise XOR. -/
def gadd (a b : Nat) : Nat := a ^^^ b

/-- The source's reduction idiom `if log_sum >= 255 { log_sum -= 255 }`. -/
def condSub255 (s : Nat) : Nat := if 255 ≤ s then s - 255 else s

/-- Multiplication in GF(256): `impl Mul for G` in
`src/common/ec/galois.rs`.  Zero if either operand is zero, otherwise
`EXP_TABLE[log_l + log_r]` with a single conditional subtraction of 255. -/
def gmul (a b : Nat) : Nat :=
  if a = 0 ∨ b = 0 then 0
  else EXP_TABLE.getD (condSub255 (logT a + logT b)) 0

/-- Division in GF(256): `impl Div for G` in `src/common/ec/galois.rs`.
The `assert!(rhs.0 != 0)` panic is modelled as `none`. -/
def gdiv (a b : Nat) : Option Nat :=
  if b = 0 then none
  else if a = 0 then some 0
  else
    some (EXP_TABLE.getD
      (if logT a < logT b then 255 + logT a - logT b else logT a - logT b) 0)

/-- Proof-side doubling step: multiplication by `α` in GF(256), reduced
modulo the primitive polynomial `0x11D` (`285`). -/
def xt (b : Nat) : Nat := if 128 ≤ b then (2 * b) ^^^ 285 else 2 * b

/-- `k`-fold iterate of `xt`: proof-side multiplication by `α^k`. -/
def xtIter : Nat → Nat → Nat
  | 0, x => x
  | k + 1, x => xt (xtIter k x)

/-! ## Finite table facts, checked by kernel evaluation

The packed-table forms keep each lookup a constant number of GMP
operations, so the exhaustive checks below evaluate quickly; agreement
between the packed and the list tables is itself one of the checks. -/

/-- Byte `m` of the packed exp table. -/
def expP (m : Nat) : Nat := (expPacked >>> (8 * m)) &&& 255

/-- Byte `m` of the packed log table. -/
def logP (m : Nat) : Nat := (logPacked >>> (8 * m)) &&& 255

/-- One slot of the table-agreement check. -/
def agreeCheck (m : Nat) : Bool :=
  (EXP_TABLE.getD m 0 == expP m) && (LOG_TABLE.getD m 0 == logP m)

/-- One slot of the exp/log inversion check. -/
def elCheck (m : Nat) : Bool :=
  (logP (expP m) == m) && (0 != expP m) && (expP (logP (m + 1)) == m + 1)
    && decide (logP (m + 1) < 255)

/-- One slot of the multiplication-by-`α` check: the table product of `2`
with `x` agrees with the doubling step `xt`. -/
def mul2Check (x : Nat) : Bool :=
  (if x = 0 then 0 else expP (condSub255 (logP 2 + logP x))) == xt x

set_option maxRecDepth 40000 in
theorem tableAgree : ((List.range 256).all fun m => agreeCheck m) = true := by
  decide

set_option maxRecDepth 40000 in
theorem expLogFacts : ((List.range 255).all fun m => elCheck m) = true := by
  decide

set_option maxRecDepth 40000 in
theorem xtFacts : ((List.range 256).all fun m => decide (xt m < 256)) = true := by
  decide

set_option maxRecDepth 40000 in
theorem mul2Facts : ((List.range 256).all fun x => mul2Check x) = true := by
  decide

/-- Helper to read off pointwise consequences of a bounded boolean check. -/
theorem all_range_true {n : Nat} {p : Nat → Bool} (h : ((List.range n).all p) = true) :
    ∀ m, m < n → p m = true := fun m hm =>
  List.all_eq_true.mp h m (List.mem_range.mpr hm)

theorem exp_agree (m : Nat) (h : m < 256) : EXP_TABLE.getD m 0 = expP m := by
  have hx := all_range_true tableAgree m h
  simp only [agreeCheck, Bool.and_eq_true, beq_iff_eq] at hx
  exact hx.1

theorem log_agree (m : Nat) (h : m < 256) : LOG_TABLE.getD m 0 = logP m := by
  have hx := all_range_true tableAgree m h
  simp only [agreeCheck, Bool.and_eq_true, beq_iff_eq] at hx
  exact hx.2

theorem expLog_props (m : Nat) (h : m < 255) :
    logP (expP m) = m ∧ expP m ≠ 0 ∧ expP (logP (m + 1)) = m + 1 ∧ logP (m + 1) < 255 := by
  have hx := all_range_true expLogFacts m h
  simp only [elCheck, Bool.and_eq_true, beq_iff_eq, bne_iff_ne, ne_eq,
    decide_eq_true_eq] at hx
  omega

theorem expT_eq_expP (x : Nat) : expT x = expP (x % 255) := by
  unfold expT
  exact exp_agree (x % 255) (by omega)

theorem logT_eq_logP (a : Nat) (h : a < 256) : logT a = logP a := log_agree a h

theorem expP_le (m : Nat) : expP m ≤ 255 := Nat.and_le_right

theorem logP_le (m : Nat) : logP m ≤ 255 := Nat.and_le_right

theorem expT_lt (x : Nat) : expT x < 256 := by
  rw [expT_eq_expP]
  exact Nat.lt_succ_of_le (expP_le _)

theorem expT_pos (x : Nat) : 0 < expT x := by
  have h := (expLog_props (x % 255) (by omega)).2.1
  rw [expT_eq_expP]
  omega

theorem expT_ne_zero (x : Nat) : expT x ≠ 0 := Nat.pos_iff_ne_zero.mp (expT_pos x)

set_option maxRecDepth 2000 in
theorem LOG_length : LOG_TABLE.length = 256 := rfl

theorem condSub255_lt (s : Nat) (h : s ≤ 510) : condSub255 s < 256 := by
  unfold condSub255
  split <;> omega

theorem condSub255_eq_mod (s : Nat) (h : s < 510) : condSub255 s = s % 255 := by
  unfold condSub255
  split <;> omega

theorem logT_le (a : Nat) : logT a ≤ 255 := by
  by_cases h : a < 256
  · rw [logT_eq_logP a h]
    exact logP_le a
  · unfold logT
    rw [List.getD_eq_default _ _ (by rw [LOG_length]; omega)]
    omega

theorem logT_expT (m : Nat) : logT (expT m) = m % 255 := by
  have h := (expLog_props (m % 255) (by omega)).1
  rw [logT_eq_logP _ (expT_lt m), expT_eq_expP]
  exact h

theorem expT_logT (a : Nat) (h0 : a ≠ 0) (h : a < 256) : expT (logT a) = a := by
  obtain ⟨m, rfl⟩ : ∃ m, a = m + 1 := ⟨a - 1, by omega⟩
  have hf := expLog_props m (by omega)
  rw [logT_eq_logP _ h, expT_eq_expP, Nat.mod_eq_of_lt hf.2.2.2]
  exact hf.2.2.1

theorem logT_lt (a : Nat) (h0 : a ≠ 0) (h : a < 256) : logT a < 255 := by
  obtain ⟨m, rfl⟩ : ∃ m, a = m + 1 := ⟨a - 1, by omega⟩
  rw [logT_eq_logP _ h]
  exact (expLog_props m (by omega)).2.2.2

theorem expT_mod (x : Nat) : expT (x % 255) = expT x := by
  unfold expT
  congr 1
  omega

theorem xt_lt (b : Nat) (h : b < 256) : xt b < 256 := by
  have hx := all_range_true xtFacts b h
  simpa using hx

theorem xor_lt_256 {a b : Nat} (ha : a < 256) (hb : b < 256) : a ^^^ b < 256 := by
  have : a ^^^ b < 2 ^ 8 := Nat.xor_lt_two_pow ha hb
  simpa using this

theorem two_mul_xor (b c : Nat) : 2 * (b ^^^ c) = 2 * b ^^^ 2 * c := by
  have h : ∀ x : Nat, 2 * x = x <<< 1 := fun x => by
    rw [Nat.shiftLeft_eq]
    ring
  rw [h, h, h]
  apply Nat.eq_of_testBit_eq
  intro i
  rw [Nat.testBit_xor, Nat.testBit_shiftLeft, Nat.testBit_shiftLeft,
    Nat.testBit_shiftLeft, Nat.testBit_xor]
  cases hd : decide (1 ≤ i) <;> rfl

theorem le128_iff_testBit (x : Nat) (hx : x < 256) : 128 ≤ x ↔ x.testBit 7 = true := by
  rw [Nat.testBit_to_div_mod]
  have h7 : (2 : Nat) ^ 7 = 128 := by norm_num
  rw [h7, decide_eq_true_eq]
  omega

theorem testBit7_false (x : Nat) (hx : x < 256) (h : ¬ 128 ≤ x) : x.testBit 7 = false := by
  cases hbit : x.testBit 7
  · rfl
  · exact absurd ((le128_iff_testBit x hx).mpr hbit) h

theorem xt_add (b c : Nat) (hb : b < 256) (hc : c < 256) : xt (b ^^^ c) = xt b ^^^ xt c := by
  have hbc : b ^^^ c < 256 := xor_lt_256 hb hc
  unfold xt
  by_cases h1 : 128 ≤ b <;> by_cases h2 : 128 ≤ c
  · have hb7 := (le128_iff_testBit b hb).mp h1
    have hc7 := (le128_iff_testBit c hc).mp h2
    have hx7 : (b ^^^ c).testBit 7 = false := by
      rw [Nat.testBit_xor, hb7, hc7]
      rfl
    have hnx : ¬ 128 ≤ b ^^^ c := fun hge => by
      rw [(le128_iff_testBit _ hbc).mp hge] at hx7
      exact Bool.noConfusion hx7
    rw [if_neg hnx, if_pos h1, if_pos h2, two_mul_xor, Nat.xor_assoc,
      Nat.xor_comm 285 (2 * c ^^^ 285), Nat.xor_assoc, Nat.xor_self,
      Nat.xor_zero]
  · have hb7 := (le128_iff_testBit b hb).mp h1
    have hc7 := testBit7_false c hc h2
    have hx7 : (b ^^^ c).testBit 7 = true := by
      rw [Nat.testBit_xor, hb7, hc7]
      rfl
    have hyes : 128 ≤ b ^^^ c := (le128_iff_testBit _ hbc).mpr hx7
    rw [if_pos hyes, if_pos h1, if_neg h2, two_mul_xor, Nat.xor_assoc,
      Nat.xor_comm (2 * c) 285, ← Nat.xor_assoc]
  · have hb7 := testBit7_false b hb h1
    have hc7 := (le128_iff_testBit c hc).mp h2
    have hx7 : (b ^^^ c).testBit 7 = true := by
      rw [Nat.testBit_xor, hb7, hc7]
      rfl
    have hyes : 128 ≤ b ^^^ c := (le128_iff_testBit _ hbc).mpr hx7
    rw [if_pos hyes, if_neg h1, if_pos h2, two_mul_xor, Nat.xor_assoc]
  · have hb7 := testBit7_false b hb h1
    have hc7 := testBit7_false c hc h2
    have hx7 : (b ^^^ c).testBit 7 = false := by
      rw [Nat.testBit_xor, hb7, hc7]
      rfl
    have hnx : ¬ 128 ≤ b ^^^ c := fun hge => by
      rw [(le128_iff_testBit _ hbc).mp hge] at hx7
      exact Bool.noConfusion hx7
    rw [if_neg hnx, if_neg h1, if_neg h2, two_mul_xor]

/-! ## Derived algebra of `gmul` -/

theorem gmul_zero_left (b : Nat) : gmul 0 b = 0 := by simp [gmul]

theorem gmul_zero_right (a : Nat) : gmul a 0 = 0 := by simp [gmul]

theorem gmul_comm (a b : Nat) : gmul a b = gmul b a := by
  unfold gmul
  by_cases hz : a = 0 ∨ b = 0
  · rw [if_pos hz, if_pos (Or.symm hz)]
  · rw [if_neg hz, if_neg (fun h => hz (Or.symm h)), Nat.add_comm]

theorem gmul_def_nz (a b : Nat) (ha0 : a ≠ 0) (hb0 : b ≠ 0) (ha : a < 256) (hb : b < 256) :
    gmul a b = expT (logT a + logT b) := by
  unfold gmul
  rw [if_neg (by tauto)]
  have hla := logT_lt a ha0 ha
  have hlb := logT_lt b hb0 hb
  unfold expT
  rw [condSub255_eq_mod _ (by omega)]

theorem gmul_lt (a b : Nat) : gmul a b < 256 := by
  unfold gmul
  by_cases hz : a = 0 ∨ b = 0
  · simp [hz]
  · rw [if_neg hz]
    have h1 := logT_le a
    have h2 := logT_le b
    rw [exp_agree _ (condSub255_lt _ (by omega))]
    exact Nat.lt_succ_of_le (expP_le _)

theorem gmul_ne_zero (a b : Nat) (ha0 : a ≠ 0) (hb0 : b ≠ 0) (ha : a < 256) (hb : b < 256) :
    gmul a b ≠ 0 := by
  rw [gmul_def_nz a b ha0 hb0 ha hb]
  exact expT_ne_zero _

theorem gmul_expT_expT (x y : Nat) : gmul (expT x) (expT y) = expT (x + y) := by
  rw [gmul_def_nz _ _ (expT_ne_zero x) (expT_ne_zero y) (expT_lt x) (expT_lt y),
    logT_expT, logT_expT]
  unfold expT
  congr 1
  omega

theorem logT_one : logT 1 = 0 := rfl

theorem gmul_assoc (a b c : Nat) (ha : a < 256) (hb : b < 256) (hc : c < 256) :
    gmul (gmul a b) c = gmul a (gmul b c) := by
  by_cases ha0 : a = 0
  · simp [ha0, gmul_zero_left]
  by_cases hb0 : b = 0
  · simp [hb0, gmul_zero_left, gmul_zero_right]
  by_cases hc0 : c = 0
  · simp [hc0, gmul_zero_right]
  rw [gmul_def_nz a b ha0 hb0 ha hb,
    gmul_def_nz _ c (expT_ne_zero _) hc0 (expT_lt _) hc, logT_expT,
    gmul_def_nz b c hb0 hc0 hb hc,
    gmul_def_nz a _ ha0 (expT_ne_zero _) ha (expT_lt _), logT_expT]
  unfold expT
  congr 1
  omega

theorem gmul_one (a : Nat) (ha : a < 256) : gmul a 1 = a := by
  by_cases ha0 : a = 0
  · simp [ha0, gmul_zero_left]
  · rw [gmul_def_nz a 1 ha0 one_ne_zero ha (by omega), logT_one, Nat.add_zero]
    exact expT_logT a ha0 ha

theorem gmul_two (x : Nat) (hx : x < 256) : gmul 2 x = xt x := by
  have h := all_range_true mul2Facts x hx
  simp only [mul2Check, beq_iff_eq] at h
  unfold gmul
  by_cases h0 : x = 0
  · rw [h0, if_pos (Or.inr rfl)]
    rfl
  · rw [if_neg (by push_neg; exact ⟨by omega, h0⟩)]
    rw [if_neg h0] at h
    rw [logT_eq_logP 2 (by omega), logT_eq_logP x hx]
    have h1 := logP_le 2
    have h2 := logP_le x
    rw [exp_agree _ (condSub255_lt _ (by omega))]
    exact h

theorem xtIter_lt (k x : Nat) (hx : x < 256) : xtIter k x < 256 := by
  induction k with
  | zero => exact hx
  | succ k ih => exact xt_lt _ ih

theorem xtIter_add (k b c : Nat) (hb : b < 256) (hc : c < 256) :
    xtIter k (b ^^^ c) = xtIter k b ^^^ xtIter k c := by
  induction k with
  | zero => rfl
  | succ k ih =>
    show xt (xtIter k (b ^^^ c)) = xt (xtIter k b) ^^^ xt (xtIter k c)
    rw [ih, xt_add _ _ (xtIter_lt k b hb) (xtIter_lt k c hc)]

theorem gmul_expT_iter (k x : Nat) (hx : x < 256) : gmul (expT k) x = xtIter k x := by
  induction k with
  | zero =>
    have h1 : expT 0 = 1 := rfl
    rw [h1, gmul_comm, gmul_one x hx]
    rfl
  | succ k ih =>
    have he : expT (k + 1) = gmul (expT 1) (expT k) := by
      rw [gmul_expT_expT]
      congr 1
      omega
    have h2 : expT 1 = 2 := rfl
    rw [he, gmul_assoc _ _ _ (expT_lt 1) (expT_lt k) hx, ih, h2,
      gmul_two _ (xtIter_lt k x hx)]
    rfl

theorem gmul_add_right (a b c : Nat) (ha : a < 256) (hb : b < 256) (hc : c < 256) :
    gmul a (b ^^^ c) = gmul a b ^^^ gmul a c := by
  by_cases ha0 : a = 0
  · simp [ha0, gmul_zero_left]
  · rw [← expT_logT a ha0 ha, gmul_expT_iter _ _ (xor_lt_256 hb hc),
      gmul_expT_iter _ _ hb, gmul_expT_iter _ _ hc]
    exact xtIter_add _ _ _ hb hc

theorem gmul_add_left (a b c : Nat) (ha : a < 256) (hb : b < 256) (hc : c < 256) :
    gmul (a ^^^ b) c = gmul a c ^^^ gmul b c := by
  rw [gmul_comm _ c, gmul_comm a c, gmul_comm b c]
  exact gmul_add_right c a b hc ha hb

/-! ## Scalar contributions `c * α^k` -/

/-- The `if *c == 0 { continue } else EXP[(k + LOG[c]) % 255]` contribution
idiom used by both the syndrome loop and the division loop in
`src/ecc.rs`. -/
def cexp (k c : Nat) : Nat := if c = 0 then 0 else expT (k + logT c)

theorem cexp_zero (k : Nat) : cexp k 0 = 0 := rfl

theorem cexp_lt (k c : Nat) : cexp k c < 256 := by
  unfold cexp
  split
  · omega
  · exact expT_lt _

theorem cexp_eq_gmul (k c : Nat) (hc : c < 256) : cexp k c = gmul (expT k) c := by
  unfold cexp
  by_cases h0 : c = 0
  · simp [h0, gmul_zero_right]
  · rw [if_neg h0, gmul_def_nz _ _ (expT_ne_zero k) h0 (expT_lt k) hc, logT_expT]
    unfold expT
    congr 1
    omega

theorem cexp_add (k b c : Nat) (hb : b < 256) (hc : c < 256) :
    cexp k (b ^^^ c) = cexp k b ^^^ cexp k c := by
  rw [cexp_eq_gmul k _ (xor_lt_256 hb hc), cexp_eq_gmul k b hb, cexp_eq_gmul k c hc]
  exact gmul_add_right (expT k) b c (expT_lt k) hb hc

theorem cexp_shift (m k c : Nat) (hc : c < 256) :
    cexp (m + k) c = gmul (expT m) (cexp k c) := by
  unfold cexp
  by_cases h0 : c = 0
  · simp [h0, gmul_zero_right]
  · rw [if_neg h0, if_neg h0, gmul_expT_expT]
    congr 1
    omega

theorem cexp_mod (k c : Nat) : cexp (k % 255) c = cexp k c := by
  unfold cexp
  split
  · rfl
  · rw [← expT_mod (k % 255 + logT c), ← expT_mod (k + logT c)]
    congr 1
    omega

/-! ## Claim C6: field laws of `G` -/

theorem EXP_zero : EXP_TABLE.getD 0 0 = 1 := rfl

theorem gdiv_self (a : Nat) (ha0 : a ≠ 0) : gdiv a a = some 1 := by
  unfold gdiv
  rw [if_neg ha0, if_neg ha0, if_neg (lt_irrefl _), Nat.sub_self]
  rfl

theorem gdiv_zero (a : Nat) : gdiv a 0 = none := by
  unfold gdiv
  rw [if_pos rfl]

/-- C6: for all bytes `a`, `b`, `c` of GF(256) as implemented by `G` in
`src/common/ec/galois.rs`: `a+a = 0`; multiplication (zero if either operand
is zero, else `EXP[(LOG[a]+LOG[b]) mod 255]`) is associative; `a*1 = a`;
`a/a = 1` for `a ≠ 0`; and division by zero fails. -/
theorem galois_laws_C6 (a b c : Nat) (ha : a < 256) (hb : b < 256) (hc : c < 256) :
    gadd a a = 0
    ∧ gmul (gmul a b) c = gmul a (gmul b c)
    ∧ gmul a 1 = a
    ∧ (a ≠ 0 → gdiv a a = some 1)
    ∧ gdiv a 0 = none :=
  ⟨Nat.xor_self a, gmul_assoc a b c ha hb hc, gmul_one a ha,
    gdiv_self a, gdiv_zero a⟩

/-- C6 witness: the laws at the concrete bytes 3, 5, 7. -/
theorem galois_laws_C6_witness :
    gadd 3 3 = 0
    ∧ gmul (gmul 3 5) 7 = gmul 3 (gmul 5 7)
    ∧ gmul 3 1 = 3
    ∧ (3 ≠ 0 → gdiv 3 3 = some 1)
    ∧ gdiv 3 0 = none :=
  galois_laws_C6 3 5 7 (by decide) (by decide) (by decide)

/-! ## Version / ECLevel metadata

`Version` and `ECLevel` live in the crate's `metadata` module, which is not
part of the sources at hand; the shapes follow `src/types.rs` (an in-tree
older copy) and the spec. -/

/-- Version: `Normal(1..=40)` supported, `Micro(1..=4)` reserved. -/
inductive Version where
  | Micro (v : Nat)
  | Normal (v : Nat)
deriving DecidableEq

/-- Error-correction level, also its index into per-version tables. -/
inductive ECLevel where
  | L
  | M
  | Q
  | H
deriving DecidableEq

/-- Index of an `ECLevel` into the metadata tables. -/
def eclIndex : ECLevel → Nat
  | ECLevel.L => 0
  | ECLevel.M => 1
  | ECLevel.Q => 2
  | ECLevel.H => 3

/-- Modelled from the spec: the standard per-(version, level) block layout
`(block1_size, block1_count, block2_size, block2_count, ecc_per_block)`
(ISO/IEC 18004 Annex D), which the spec fixes as an input constant; the
crate's `metadata` module holding it is not among the sources.  The data
sizes agree with `VERSION_BIT_CAPACITY` in `src/types.rs` (8 bits per
codeword), and the totals with the standard codeword counts. -/
def BLOCK_TABLE : List (List (Nat × Nat × Nat × Nat × Nat)) := [
  [(19, 1, 0, 0, 7), (16, 1, 0, 0, 10), (13, 1, 0, 0, 13), (9, 1, 0, 0, 17)],
  [(34, 1, 0, 0, 10), (28, 1, 0, 0, 16), (22, 1, 0, 0, 22), (16, 1, 0, 0, 28)],
  [(55, 1, 0, 0, 15), (44, 1, 0, 0, 26), (17, 2, 0, 0, 18), (13, 2, 0, 0, 22)],
  [(80, 1, 0, 0, 20), (32, 2, 0, 0, 18), (24, 2, 0, 0, 26), (9, 4, 0, 0, 16)],
  [(108, 1, 0, 0, 26), (43, 2, 0, 0, 24), (15, 2, 16, 2, 18), (11, 2, 12, 2, 22)],
  [(68, 2, 0, 0, 18), (27, 4, 0, 0, 16), (19, 4, 0, 0, 24), (15, 4, 0, 0, 28)],
  [(78, 2, 0, 0, 20), (31, 4, 0, 0, 18), (14, 2, 15, 4, 18), (13, 4, 14, 1, 26)],
  [(97, 2, 0, 0, 24), (38, 2, 39, 2, 22), (18, 4, 19, 2, 22), (14, 4, 15, 2, 26)],
  [(116, 2, 0, 0, 30), (36, 3, 37, 2, 22), (16, 4, 17, 4, 20), (12, 4, 13, 4, 24)],
  [(68, 2, 69, 2, 18), (43, 4, 44, 1, 26), (19, 6, 20, 2, 24), (15, 6, 16, 2, 28)],
  [(81, 4, 0, 0, 20), (50, 1, 51, 4, 30), (22, 4, 23, 4, 28), (12, 3, 13, 8, 24)],
  [(92, 2, 93, 2, 24), (36, 6, 37, 2, 22), (20, 4, 21, 6, 26), (14, 7, 15, 4, 28)],
  [(107, 4, 0, 0, 26), (37, 8, 38, 1, 22), (20, 8, 21, 4, 24), (11, 12, 12, 4, 22)],
  [(115, 3, 116, 1, 30), (40, 4, 41, 5, 24), (16, 11, 17, 5, 20), (12, 11, 13, 5, 24)],
  [(87, 5, 88, 1, 22), (41, 5, 42, 5, 24), (24, 5, 25, 7, 30), (12, 11, 13, 7, 24)],
  [(98, 5, 99, 1, 24), (45, 7, 46, 3, 28), (19, 15, 20, 2, 24), (15, 3, 16, 13, 30)],
  [(107, 1, 108, 5, 28), (46, 10, 47, 1, 28), (22, 1, 23, 15, 28), (14, 2, 15, 17, 28)],
  [(120, 5, 121, 1, 30), (43, 9, 44, 4, 26), (22, 17, 23, 1, 28), (14, 2, 15, 19, 28)],
  [(113, 3, 114, 4, 28), (44, 3, 45, 11, 26), (21, 17, 22, 4, 26), (13, 9, 14, 16, 26)],
  [(107, 3, 108, 5, 28), (41, 3, 42, 13, 26), (24, 15, 25, 5, 30), (15, 15, 16, 10, 28)],
  [(116, 4, 117, 4, 28), (42, 17, 0, 0, 26), (22, 17, 23, 6, 28), (16, 19, 17, 6, 30)],
  [(111, 2, 112, 7, 28), (46, 17, 0, 0, 28), (24, 7, 25, 16, 30), (13, 34, 0, 0, 24)],
  [(121, 4, 122, 5, 30), (47, 4, 48, 14, 28), (24, 11, 25, 14, 30), (15, 16, 16, 14, 30)],
  [(117, 6, 118, 4, 30), (45, 6, 46, 14, 28), (24, 11, 25, 16, 30), (16, 30, 17, 2, 30)],
  [(106, 8, 107, 4, 26), (47, 8, 48, 13, 28), (24, 7, 25, 22, 30), (15, 22, 16, 13, 30)],
  [(114, 10, 115, 2, 28), (46, 19, 47, 4, 28), (22, 28, 23, 6, 28), (16, 33, 17, 4, 30)],
  [(122, 8, 123, 4, 30), (45, 22, 46, 3, 28), (23, 8, 24, 26, 30), (15, 12, 16, 28, 30)],
  [(117, 3, 118, 10, 30), (45, 3, 46, 23, 28), (24, 4, 25, 31, 30), (15, 11, 16, 31, 30)],
  [(116, 7, 117, 7, 30), (45, 21, 46, 7, 28), (23, 1, 24, 37, 30), (15, 19, 16, 26, 30)],
  [(115, 5, 116, 10, 30), (47, 19, 48, 10, 28), (24, 15, 25, 25, 30), (15, 23, 16, 25, 30)],
  [(115, 13, 116, 3, 30), (46, 2, 47, 29, 28), (24, 42, 25, 1, 30), (15, 23, 16, 28, 30)],
  [(115, 17, 0, 0, 30), (46, 10, 47, 23, 28), (24, 10, 25, 35, 30), (15, 19, 16, 35, 30)],
  [(115, 17, 116, 1, 30), (46, 14, 47, 21, 28), (24, 29, 25, 19, 30), (15, 11, 16, 46, 30)],
  [(115, 13, 116, 6, 30), (46, 14, 47, 23, 28), (24, 44, 25, 7, 30), (16, 59, 17, 1, 30)],
  [(121, 12, 122, 7, 30), (47, 12, 48, 26, 28), (24, 39, 25, 14, 30), (15, 22, 16, 41, 30)],
  [(121, 6, 122, 14, 30), (47, 6, 48, 34, 28), (24, 46, 25, 10, 30), (15, 2, 16, 64, 30)],
  [(122, 17, 123, 4, 30), (46, 29, 47, 14, 28), (24, 49, 25, 10, 30), (15, 24, 16, 46, 30)],
  [(122, 4, 123, 18, 30), (46, 13, 47, 32, 28), (24, 48, 25, 14, 30), (15, 42, 16, 32, 30)],
  [(117, 20, 118, 4, 30), (47, 40, 48, 7, 28), (24, 43, 25, 22, 30), (15, 10, 16, 67, 30)],
  [(118, 19, 119, 6, 30), (47, 18, 48, 31, 28), (24, 34, 25, 34, 30), (15, 20, 16, 61, 30)]
]

/-- Modelled from the spec: `Version::data_codewords_per_block`.  Micro
layouts are absent from the spec; they are given the empty layout and no
claim below touches them. -/
def dataCodewordsPerBlock (ver : Version) (l : ECLevel) : Nat × Nat × Nat × Nat :=
  match ver with
  | Version.Normal v =>
    let e := (BLOCK_TABLE.getD (v - 1) []).getD (eclIndex l) (0, 0, 0, 0, 0)
    (e.1, e.2.1, e.2.2.1, e.2.2.2.1)
  | Version.Micro _ => (0, 0, 0, 0)

/-- Modelled from the spec: `Version::ecc_per_block`. -/
def eccCodewordsPerBlock (ver : Version) (l : ECLevel) : Nat :=
  match ver with
  | Version.Normal v => ((BLOCK_TABLE.getD (v - 1) []).getD (eclIndex l) (0, 0, 0, 0, 0)).2.2.2.2
  | Version.Micro _ => 0

/-- Total data codewords of a version at a level, the length `blockify`
asserts its input to have. -/
def totalDataCodewords (ver : Version) (l : ECLevel) : Nat :=
  (dataCodewordsPerBlock ver l).1 * (dataCodewordsPerBlock ver l).2.1
    + (dataCodewordsPerBlock ver l).2.2.1 * (dataCodewordsPerBlock ver l).2.2.2

/-! ## ECC engine (src/ecc.rs) -/

/-- Rust `slice::chunks` with explicit fuel (the list length bounds the
number of chunks once the size is positive).  Rust panics on chunk size 0;
the sizes fed below are proved positive. -/
def chunksF {α : Type} : Nat → Nat → List α → List (List α)
  | 0, _, _ => []
  | _, _, [] => []
  | fuel + 1, k, l => l.take k :: chunksF fuel k (l.drop k)

/-- Rust `slice::chunks`. -/
def chunks {α : Type} (k : Nat) (l : List α) : List (List α) := chunksF l.length k l

/-- `blockify` from `src/ecc.rs`: split the data into `count1` chunks of
`size1` followed by (when `size2 > 0`) `count2` chunks of `size2`. -/
def blockify (data : List Nat) (ver : Version) (l : ECLevel) : List (List Nat) :=
  chunks (dataCodewordsPerBlock ver l).1
      (data.take ((dataCodewordsPerBlock ver l).1 * (dataCodewordsPerBlock ver l).2.1))
    ++ if 0 < (dataCodewordsPerBlock ver l).2.2.1 then
      chunks (dataCodewordsPerBlock ver l).2.2.1
        (data.drop ((dataCodewordsPerBlock ver l).1 * (dataCodewordsPerBlock ver l).2.1))
    else []

/-- In-place XOR of `vs` into the first `|vs|` entries of `us`: the
`res[i+1..].iter_mut().zip(gen_poly)` idiom of `ecc_per_block`; entries of
`us` beyond `|vs|` are kept. -/
def xorInto : List Nat → List Nat → List Nat
  | [], _ => []
  | u :: us, [] => u :: us
  | u :: us, v :: vs => (u ^^^ v) :: xorInto us vs

/-- One step of the polynomial long division in `ecc_per_block`
(`src/ecc.rs`): if the lead coefficient at `i` is nonzero, XOR the
log-shifted generator coefficients into positions `i+1 ..`. -/
def divStep (gen : List Nat) (res : List Nat) (i : Nat) : List Nat :=
  if res.getD i 0 = 0 then res
  else
    res.take (i + 1) ++
      xorInto (res.drop (i + 1))
        (gen.map fun v => EXP_TABLE.getD (condSub255 (v + logT (res.getD i 0))) 0)

/-- `ecc_per_block` from `src/ecc.rs`: the remainder bytes of dividing the
zero-extended block by the generator polynomial of degree `eccCount`. -/
def eccPerBlock (block : List Nat) (eccCount : Nat) : List Nat :=
  let gen := GENERATOR_POLYNOMIALS.getD eccCount []
  ((List.range block.length).foldl (divStep gen)
    (block ++ List.replicate eccCount 0)).drop block.length

/-- `ecc` from `src/ecc.rs`: blockify, then one ECC block per data block. -/
def eccFn (data : List Nat) (ver : Version) (l : ECLevel) :
    List (List Nat) × List (List Nat) :=
  let dataBlocks := blockify data ver l
  (dataBlocks, dataBlocks.map fun b => eccPerBlock b (eccCodewordsPerBlock ver l))

/-- `error_correction_capacity` from `src/ecc.rs`. -/
def errorCorrectionCapacity (ver : Version) (l : ECLevel) : Nat :=
  let p : Nat :=
    match ver, l with
    | Version.Micro 2, ECLevel.L => 3
    | Version.Normal 1, ECLevel.L => 3
    | Version.Micro _, ECLevel.L => 2
    | Version.Normal 2, ECLevel.L => 2
    | Version.Micro 2, ECLevel.M => 2
    | Version.Normal 1, ECLevel.M => 2
    | Version.Normal 1, _ => 1
    | Version.Normal 3, ECLevel.L => 1
    | _, _ => 0
  (((dataCodewordsPerBlock ver l).2.1 + (dataCodewordsPerBlock ver l).2.2.2)
    * eccCodewordsPerBlock ver l - p) / 2

/-- One syndrome `S_i` of `syndromes` in `src/ecc.rs`: XOR over the block of
`EXP[(i*j + LOG[c]) % 255]`, skipping zero coefficients. -/
def syndrome (i : Nat) (blk : List Nat) : Nat :=
  blk.enum.foldl (fun e p => if p.2 = 0 then e else e ^^^ expT (i * p.1 + logT p.2)) 0

/-- `syndromes` from `src/ecc.rs`: a 64-slot buffer of which the first
`min eccCount 64` entries are filled; `Ok` iff all 64 are zero. -/
def syndromesOk (blk : List Nat) (eccCount : Nat) : Bool :=
  (List.range 64).all fun i => if i < eccCount then syndrome i blk == 0 else true

/-- `rectify_block` from `src/ecc.rs`: checks the syndromes of
`ecc.reverse ++ data.reverse` and `unwrap`s the result, so a detected error
is a panic, modelled as `none`. -/
def rectifyBlock (data ecc : List Nat) : Option (List Nat) :=
  if syndromesOk (ecc.reverse ++ data.reverse) ecc.length then some data else none

/-- `rectify` from `src/ecc.rs`: rectifies blocks pairwise and concatenates
the data parts. -/
def rectify (dataBlocks eccBlocks : List (List Nat)) : Option (List Nat) :=
  ((dataBlocks.zip eccBlocks).mapM fun p => rectifyBlock p.1 p.2).map List.flatten

/-! ## Claim C8: reference remainder vectors -/

/-- C8: `ecc_per_block` reproduces the two reference vectors of the spec
(and of `test_poly_mod_1` / `test_poly_mod_2` in `src/ecc.rs`): the 16-byte
message with 10 ECC codewords and the 13-byte message with 13. -/
theorem ecc_vectors_C8 :
    eccPerBlock [32, 91, 11, 120, 209, 114, 220, 77, 67, 64, 236, 17, 236, 17, 236, 17] 10
      = [196, 35, 39, 119, 235, 215, 231, 226, 93, 23]
    ∧ eccPerBlock [32, 91, 11, 120, 209, 114, 220, 77, 67, 64, 236, 17, 236] 13
      = [168, 72, 22, 82, 217, 54, 156, 0, 46, 15, 180, 122, 16] := by
  constructor
  · decide
  · decide

/-! ## Claim C7: `rectify_info` -/

/-- 32-round popcount, `u32::count_ones`. -/
def popAux : Nat → Nat → Nat
  | 0, _ => 0
  | k + 1, n => n % 2 + popAux k (n / 2)

/-- `count_ones` of a `u32` value. -/
def popcount (n : Nat) : Nat := popAux 32 n

/-- Rust `Iterator::min_by_key` on a list: the first minimum wins. -/
def minByKey {α : Type} (key : α → Nat) : List α → Option α
  | [] => none
  | x :: xs => some (xs.foldl (fun best y => if key y < key best then y else best) x)

/-- `rectify_info` from `src/ecc.rs`: nearest table candidate by Hamming
distance, accepted when the distance is within `err_capacity`; the `unwrap`
on an empty table and the `Err(InvalidInfo)` outcome are both `none`. -/
def rectifyInfo (info : Nat) (validNumbers : List Nat) (errCapacity : Nat) : Option Nat :=
  match minByKey (fun n => popcount (info ^^^ n)) validNumbers with
  | none => none
  | some res => if popcount (info ^^^ res) ≤ errCapacity then some res else none

/-- `FORMAT_INFOS_QR` from `src/types.rs`. -/
def FORMAT_INFOS_QR : List Nat :=
  [0x5412, 0x5125, 0x5e7c, 0x5b4b, 0x45f9, 0x40ce, 0x4f97, 0x4aa0,
   0x77c4, 0x72f3, 0x7daa, 0x789d, 0x662f, 0x6318, 0x6c41, 0x6976,
   0x1689, 0x13be, 0x1ce7, 0x19d0, 0x0762, 0x0255, 0x0d0c, 0x083b,
   0x355f, 0x3068, 0x3f31, 0x3a06, 0x24b4, 0x2183, 0x2eda, 0x2bed]

theorem minByKey_some {α : Type} (key : α → Nat) (x : α) (xs : List α) :
    ∃ r, minByKey key (x :: xs) = some r ∧ (r = x ∨ r ∈ xs)
      ∧ key r ≤ key x ∧ ∀ y ∈ xs, key r ≤ key y := by
  induction xs generalizing x with
  | nil => exact ⟨x, rfl, Or.inl rfl, le_refl _, by simp⟩
  | cons y ys ih =>
    by_cases h : key y < key x
    · obtain ⟨r, hr, hmem, hle, hall⟩ := ih y
      refine ⟨r, ?_, ?_, by omega, ?_⟩
      · simpa [minByKey, h] using hr
      · rcases hmem with h1 | h1
        · exact Or.inr (by simp [h1])
        · exact Or.inr (by simp [h1])
      · intro z hz
        rcases List.mem_cons.mp hz with h1 | h1
        · subst h1
          exact hle
        · exact hall z h1
    · obtain ⟨r, hr, hmem, hle, hall⟩ := ih x
      refine ⟨r, ?_, ?_, hle, ?_⟩
      · simpa [minByKey, h] using hr
      · rcases hmem with h1 | h1
        · exact Or.inl h1
        · exact Or.inr (by simp [h1])
      · intro z hz
        rcases List.mem_cons.mp hz with h1 | h1
        · subst h1
          omega
        · exact hall z h1

/-- The returned minimiser, its membership and minimality, for any
nonempty table. -/
theorem minByKey_spec {α : Type} (key : α → Nat) (l : List α) (hne : l ≠ []) :
    ∃ r, minByKey key l = some r ∧ r ∈ l ∧ ∀ y ∈ l, key r ≤ key y := by
  match l with
  | [] => exact absurd rfl hne
  | x :: xs =>
    obtain ⟨r, hr, hmem, hle, hall⟩ := minByKey_some key x xs
    refine ⟨r, hr, ?_, ?_⟩
    · rcases hmem with h | h
      · simp [h]
      · simp [h]
    · intro y hy
      rcases List.mem_cons.mp hy with h | h
      · subst h
        exact hle
      · exact hall y h

theorem popAux_eq_zero (k n : Nat) (hk : n < 2 ^ k) (h : popAux k n = 0) : n = 0 := by
  induction k generalizing n with
  | zero => omega
  | succ k ih =>
    unfold popAux at h
    have h2 : n / 2 = 0 := ih (n / 2) (by omega) (by omega)
    omega

set_option maxRecDepth 40000 in
/-- C7: `rectify_info` returns a Hamming-nearest table candidate whenever
the minimal distance is within `err_capacity` and fails otherwise; it is the
identity on table members; and it corrects `0x5413` to `0x5412` against
`FORMAT_INFOS_QR` with capacity 3. -/
theorem rectify_info_C7 (info cap : Nat) (table : List Nat) (hne : table ≠ [])
    (hinfo : info < 2 ^ 32) (hbound : ∀ n ∈ table, n < 2 ^ 32) :
    ((∃ n ∈ table, popcount (info ^^^ n) ≤ cap) →
      ∃ r ∈ table, rectifyInfo info table cap = some r
        ∧ popcount (info ^^^ r) ≤ cap
        ∧ ∀ m ∈ table, popcount (info ^^^ r) ≤ popcount (info ^^^ m))
    ∧ ((∀ n ∈ table, cap < popcount (info ^^^ n)) → rectifyInfo info table cap = none)
    ∧ (info ∈ table → rectifyInfo info table cap = some info)
    ∧ rectifyInfo 0x5413 FORMAT_INFOS_QR 3 = some 0x5412 := by
  obtain ⟨r, hr, hmem, hall⟩ := minByKey_spec (fun n => popcount (info ^^^ n)) table hne
  refine ⟨?_, ?_, ?_, by decide⟩
  · rintro ⟨n, hn, hcap⟩
    have hle : popcount (info ^^^ r) ≤ cap := le_trans (hall n hn) hcap
    refine ⟨r, hmem, ?_, hle, hall⟩
    unfold rectifyInfo
    rw [hr]
    exact if_pos hle
  · intro hgt
    have := hgt r hmem
    unfold rectifyInfo
    rw [hr]
    exact if_neg (by omega)
  · intro hin
    have h0 : popcount (info ^^^ info) = 0 := by
      rw [Nat.xor_self]
      rfl
    have hr0 : popcount (info ^^^ r) = 0 := by
      have := hall info hin
      omega
    have : info ^^^ r = 0 :=
      popAux_eq_zero 32 _ (by simpa using Nat.xor_lt_two_pow hinfo (hbound r hmem)) hr0
    have : r = info := by
      have := Nat.xor_eq_zero.mp this
      omega
    subst this
    unfold rectifyInfo
    rw [hr]
    exact if_pos (by omega)

set_option maxRecDepth 40000 in
/-- C7 witness: instantiated at `info = 0x5412`, the format table and
capacity 3, with every hypothesis discharged by evaluation. -/
theorem rectify_info_C7_witness :
    ((∃ n ∈ FORMAT_INFOS_QR, popcount (0x5412 ^^^ n) ≤ 3) →
      ∃ r ∈ FORMAT_INFOS_QR, rectifyInfo 0x5412 FORMAT_INFOS_QR 3 = some r
        ∧ popcount (0x5412 ^^^ r) ≤ 3
        ∧ ∀ m ∈ FORMAT_INFOS_QR, popcount (0x5412 ^^^ r) ≤ popcount (0x5412 ^^^ m))
    ∧ ((∀ n ∈ FORMAT_INFOS_QR, 3 < popcount (0x5412 ^^^ n)) →
      rectifyInfo 0x5412 FORMAT_INFOS_QR 3 = none)
    ∧ (0x5412 ∈ FORMAT_INFOS_QR → rectifyInfo 0x5412 FORMAT_INFOS_QR 3 = some 0x5412)
    ∧ rectifyInfo 0x5413 FORMAT_INFOS_QR 3 = some 0x5412 :=
  rectify_info_C7 0x5412 3 FORMAT_INFOS_QR (by decide) (by decide) (by decide)

/-! ## Claim C1: the generator polynomials vanish at the first `n` powers

`genQ i gen` is the value at `α^i` of the monic generator polynomial whose
log-form tail coefficients are `gen`, minus its leading term: the table fact
below states `G_n(α^i) = α^(i*n) + genQ i G_n = 0` for `i < n`. -/

/-- Tail value `Σ_v α^(i*(n-1-v) + gen_v)` of a log-form generator row,
highest-degree coefficient first. -/
def genQ (i : Nat) : List Nat → Nat
  | [] => 0
  | g :: rest => expT (i * rest.length + g) ^^^ genQ i rest

/-- Packed-table mirror of `genQ` for kernel evaluation. -/
def genQP (i : Nat) : List Nat → Nat
  | [] => 0
  | g :: rest => expP ((i * rest.length + g) % 255) ^^^ genQP i rest

theorem genQ_eq_genQP (i : Nat) (l : List Nat) : genQ i l = genQP i l := by
  induction l with
  | nil => rfl
  | cons g rest ih =>
    unfold genQ genQP
    rw [ih, expT_eq_expP]

set_option maxRecDepth 100000 in
set_option maxHeartbeats 4000000 in
theorem genFacts : ((List.range 70).all fun n =>
    ((GENERATOR_POLYNOMIALS.getD n []).length == n)
      && ((GENERATOR_POLYNOMIALS.getD n []).all fun g => decide (g < 255))
      && ((List.range n).all fun i =>
            genQP i (GENERATOR_POLYNOMIALS.getD n []) == expP ((i * n) % 255))) = true := by
  decide

theorem gen_length (n : Nat) (hn : n < 70) : (GENERATOR_POLYNOMIALS.getD n []).length = n := by
  have h := all_range_true genFacts n hn
  simp only [Bool.and_eq_true, beq_iff_eq] at h
  exact h.1.1

theorem gen_bound (n : Nat) (hn : n < 70) :
    ∀ g ∈ GENERATOR_POLYNOMIALS.getD n [], g < 255 := by
  have h := all_range_true genFacts n hn
  simp only [Bool.and_eq_true, beq_iff_eq, List.all_eq_true, decide_eq_true_eq] at h
  exact h.1.2

theorem gen_eval (n i : Nat) (hn : n < 70) (hi : i < n) :
    genQ i (GENERATOR_POLYNOMIALS.getD n []) = expT (i * n) := by
  have h := all_range_true genFacts n hn
  simp only [Bool.and_eq_true, beq_iff_eq] at h
  have h2 := all_range_true h.2 i hi
  simp only [beq_iff_eq] at h2
  rw [genQ_eq_genQP, h2, expT_eq_expP]

/-! ## Polynomial values at `α^i`

`polyVal i v` is the value at `α^i` of the polynomial whose byte
coefficients are listed highest degree first, the reference semantics for
both the division loop and the syndrome loop of `src/ecc.rs`. -/

/-- Value at `α^i` of a coefficient list, highest degree first. -/
def polyVal (i : Nat) : List Nat → Nat
  | [] => 0
  | c :: rest => cexp (i * rest.length) c ^^^ polyVal i rest

theorem polyVal_lt (i : Nat) (l : List Nat) : polyVal i l < 256 := by
  induction l with
  | nil => exact Nat.zero_lt_succ _
  | cons c rest ih => exact xor_lt_256 (cexp_lt _ _) ih

theorem xor_left_comm (a b c : Nat) : a ^^^ (b ^^^ c) = b ^^^ (a ^^^ c) := by
  rw [← Nat.xor_assoc, Nat.xor_comm a b, Nat.xor_assoc]

theorem cexp_expT (k z : Nat) : cexp k (expT z) = expT (k + z) := by
  unfold cexp
  rw [if_neg (expT_ne_zero z), logT_expT]
  unfold expT
  congr 1
  omega

theorem expT_add_logT (A lead : Nat) (h0 : lead ≠ 0) (hl : lead < 256) :
    expT (A + logT lead) = gmul (expT A) lead := by
  rw [gmul_def_nz _ _ (expT_ne_zero A) h0 (expT_lt A) hl, logT_expT]
  unfold expT
  congr 1
  omega

theorem polyVal_append (i : Nat) (a b : List Nat) (ha : ∀ x ∈ a, x < 256) :
    polyVal i (a ++ b) = gmul (expT (i * b.length)) (polyVal i a) ^^^ polyVal i b := by
  induction a with
  | nil => simp [polyVal, gmul_zero_right]
  | cons c a' ih =>
    have hc : c < 256 := ha c (List.mem_cons_self c a')
    have ha' : ∀ x ∈ a', x < 256 := fun x hx => ha x (List.mem_cons_of_mem c hx)
    show cexp (i * (a' ++ b).length) c ^^^ polyVal i (a' ++ b) = _
    rw [ih ha', List.length_append]
    have h1 : i * (a'.length + b.length) = i * b.length + i * a'.length := by
      rw [← Nat.mul_add]
      congr 1
      omega
    rw [h1, cexp_shift _ _ _ hc,
      show polyVal i (c :: a') = cexp (i * a'.length) c ^^^ polyVal i a' from rfl,
      gmul_add_right _ _ _ (expT_lt _) (cexp_lt _ _) (polyVal_lt _ _), Nat.xor_assoc]

theorem polyVal_replicate_zero (i n : Nat) : polyVal i (List.replicate n 0) = 0 := by
  induction n with
  | zero => rfl
  | succ n ih =>
    show cexp _ 0 ^^^ polyVal i (List.replicate n 0) = 0
    rw [cexp_zero, ih]
    rfl

theorem xorInto_nil_right (us : List Nat) : xorInto us [] = us := by
  cases us <;> rfl

theorem xorInto_length {us vs : List Nat} : (xorInto us vs).length = us.length := by
  induction us generalizing vs with
  | nil =>
    cases vs <;> rfl
  | cons u us ih =>
    cases vs with
    | nil => rfl
    | cons v vs =>
      show (xorInto us vs).length + 1 = us.length + 1
      rw [ih]

theorem xorInto_bytes {us vs : List Nat} (hus : ∀ x ∈ us, x < 256)
    (hvs : ∀ x ∈ vs, x < 256) : ∀ x ∈ xorInto us vs, x < 256 := by
  induction us generalizing vs with
  | nil =>
    intro x hx
    cases vs <;> simp [xorInto] at hx
  | cons u us ih =>
    cases vs with
    | nil =>
      rw [xorInto_nil_right]
      exact hus
    | cons v vs =>
      intro x hx
      rcases List.mem_cons.mp hx with h | h
      · subst h
        exact xor_lt_256 (hus u (List.mem_cons_self u us)) (hvs v (List.mem_cons_self v vs))
      · exact ih (fun y hy => hus y (List.mem_cons_of_mem u hy))
          (fun y hy => hvs y (List.mem_cons_of_mem v hy)) x h

theorem polyVal_xorInto (i : Nat) : ∀ (vs us : List Nat), (∀ x ∈ us, x < 256) →
    (∀ x ∈ vs, x < 256) → vs.length ≤ us.length →
    polyVal i (xorInto us vs)
      = polyVal i us ^^^ gmul (expT (i * (us.length - vs.length))) (polyVal i vs) := by
  intro vs
  induction vs with
  | nil =>
    intro us hus hvs hlen
    rw [xorInto_nil_right]
    show polyVal i us = polyVal i us ^^^ gmul _ (polyVal i [])
    rw [show polyVal i [] = 0 from rfl, gmul_zero_right, Nat.xor_zero]
  | cons v vs ih =>
    intro us hus hvs hlen
    cases us with
    | nil => simp at hlen
    | cons u us =>
      have hu : u < 256 := hus u (List.mem_cons_self u us)
      have hv : v < 256 := hvs v (List.mem_cons_self v vs)
      have hus' : ∀ x ∈ us, x < 256 := fun x hx => hus x (List.mem_cons_of_mem u hx)
      have hvs' : ∀ x ∈ vs, x < 256 := fun x hx => hvs x (List.mem_cons_of_mem v hx)
      have hlen' : vs.length ≤ us.length := by
        simpa using hlen
      show cexp (i * (xorInto us vs).length) (u ^^^ v) ^^^ polyVal i (xorInto us vs) = _
      rw [xorInto_length, ih us hus' hvs' hlen', cexp_add _ _ _ hu hv]
      have hsub : (u :: us).length - (v :: vs).length = us.length - vs.length := by
        simp
      rw [hsub]
      show _ = cexp (i * us.length) u ^^^ polyVal i us
          ^^^ gmul (expT (i * (us.length - vs.length))) (cexp (i * vs.length) v ^^^ polyVal i vs)
      rw [gmul_add_right _ _ _ (expT_lt _) (cexp_lt _ _) (polyVal_lt _ _)]
      have hshift : gmul (expT (i * (us.length - vs.length))) (cexp (i * vs.length) v)
          = cexp (i * us.length) v := by
        rw [← cexp_shift _ _ _ hv, ← Nat.mul_add]
        congr 2
        omega
      rw [hshift]
      rw [Nat.xor_assoc, Nat.xor_assoc]
      congr 1
      rw [xor_left_comm]

theorem genQ_lt (i : Nat) (l : List Nat) : genQ i l < 256 := by
  induction l with
  | nil => exact Nat.zero_lt_succ _
  | cons g rest ih => exact xor_lt_256 (expT_lt _) ih

theorem polyVal_map_gen (i : Nat) (gen : List Nat) (lead : Nat) (h0 : lead ≠ 0)
    (hl : lead < 256) :
    polyVal i (gen.map fun v => expT (v + logT lead)) = gmul (genQ i gen) lead := by
  induction gen with
  | nil =>
    show (0 : Nat) = gmul 0 lead
    rw [gmul_zero_left]
  | cons g rest ih =>
    show cexp (i * (rest.map _).length) (expT (g + logT lead))
        ^^^ polyVal i (rest.map _) = _
    rw [List.length_map, cexp_expT, ih,
      show i * rest.length + (g + logT lead) = i * rest.length + g + logT lead by omega,
      expT_add_logT _ _ h0 hl,
      show genQ i (g :: rest) = expT (i * rest.length + g) ^^^ genQ i rest from rfl,
      gmul_add_left _ _ _ (expT_lt _) (genQ_lt _ _) hl]

theorem getD_take (l : List Nat) (n p : Nat) (h : p < n) :
    (l.take n).getD p 0 = l.getD p 0 := by
  rw [List.getD_eq_getElem?_getD, List.getD_eq_getElem?_getD, List.getElem?_take]
  rw [if_pos h]

theorem bytes_of_append_left {a b : List Nat} (h : ∀ x ∈ a ++ b, x < 256) :
    ∀ x ∈ a, x < 256 := fun x hx => h x (List.mem_append_left b hx)

theorem bytes_take {l : List Nat} (n : Nat) (h : ∀ x ∈ l, x < 256) :
    ∀ x ∈ l.take n, x < 256 := fun x hx => h x (List.take_subset n l hx)

theorem bytes_drop {l : List Nat} (n : Nat) (h : ∀ x ∈ l, x < 256) :
    ∀ x ∈ l.drop n, x < 256 := fun x hx => h x (List.drop_subset n l hx)

theorem getD_lt {l : List Nat} (p : Nat) (h : ∀ x ∈ l, x < 256) (hp : p < l.length) :
    l.getD p 0 < 256 := by
  rw [List.getD_eq_getElem l 0 hp]
  exact h _ (List.getElem_mem hp)

theorem divStep_length (gen res : List Nat) (i : Nat) :
    (divStep gen res i).length = res.length := by
  unfold divStep
  split
  · rfl
  · rw [List.length_append, List.length_take, xorInto_length, List.length_drop]
    omega

theorem divStep_bytes (gen res : List Nat) (i : Nat) (hgen : ∀ g ∈ gen, g < 255)
    (hres : ∀ x ∈ res, x < 256) : ∀ x ∈ divStep gen res i, x < 256 := by
  unfold divStep
  split
  · exact hres
  · intro x hx
    rcases List.mem_append.mp hx with h | h
    · exact bytes_take _ hres x h
    · refine xorInto_bytes (bytes_drop _ hres) ?_ x h
      intro y hy
      obtain ⟨v, hv, rfl⟩ := List.mem_map.mp hy
      have h1 := hgen v hv
      have h2 := logT_le (res.getD i 0)
      rw [exp_agree _ (condSub255_lt _ (by omega))]
      exact Nat.lt_succ_of_le (expP_le _)

theorem divStep_take (gen res : List Nat) (i : Nat) :
    (divStep gen res i).take (i + 1) = res.take (i + 1) := by
  unfold divStep
  split
  · rfl
  · rw [List.take_append_eq_append_take, List.take_take, Nat.min_self]
    rw [List.length_take]
    by_cases h : i + 1 ≤ res.length
    · rw [Nat.min_eq_left h, Nat.sub_self, List.take_zero, List.append_nil]
    · rw [List.drop_eq_nil_of_le (by omega)]
      show res.take (i + 1) ++ List.take _ (xorInto [] _) = _
      rw [show xorInto [] (gen.map fun v =>
        EXP_TABLE.getD (condSub255 (v + logT (res.getD i 0))) 0) = [] from rfl]
      rw [List.take_nil, List.append_nil]

theorem divStep_polyVal (i n t : Nat) (res : List Nat) (hn : n < 70) (hi : i < n)
    (hres : ∀ x ∈ res, x < 256) (ht : t + 1 + n ≤ res.length) :
    polyVal i (divStep (GENERATOR_POLYNOMIALS.getD n []) res t)
      = polyVal i res ^^^ cexp (i * (res.length - 1 - t)) (res.getD t 0) := by
  unfold divStep
  split
  · rename_i h0
    rw [h0, cexp_zero, Nat.xor_zero]
  · rename_i h0
    have hlead : res.getD t 0 < 256 := getD_lt t hres (by omega)
    have hgen := gen_bound n hn
    have hglen := gen_length n hn
    have hmap : (GENERATOR_POLYNOMIALS.getD n []).map
          (fun v => EXP_TABLE.getD (condSub255 (v + logT (res.getD t 0))) 0)
        = (GENERATOR_POLYNOMIALS.getD n []).map
          (fun v => expT (v + logT (res.getD t 0))) := by
      refine List.map_congr_left ?_
      intro v hv
      have h1 := hgen v hv
      have h2 := logT_lt _ h0 hlead
      rw [condSub255_eq_mod _ (by omega)]
      rfl
    rw [hmap]
    have hdl : (res.drop (t + 1)).length = res.length - t - 1 := by
      rw [List.length_drop]
      omega
    have hml : ((GENERATOR_POLYNOMIALS.getD n []).map
        (fun v => expT (v + logT (res.getD t 0)))).length = n := by
      rw [List.length_map, hglen]
    have hbmap : ∀ x ∈ (GENERATOR_POLYNOMIALS.getD n []).map
        (fun v => expT (v + logT (res.getD t 0))), x < 256 := by
      intro x hx
      obtain ⟨v, hv, rfl⟩ := List.mem_map.mp hx
      exact expT_lt _
    rw [polyVal_append i _ _ (bytes_take _ hres), xorInto_length, hdl,
      polyVal_xorInto i _ _ (bytes_drop _ hres) hbmap (by omega), hml, hdl,
      polyVal_map_gen i _ _ h0 hlead, gen_eval n i hn hi]
    have hres_split : polyVal i res
        = gmul (expT (i * (res.length - t - 1))) (polyVal i (res.take (t + 1)))
          ^^^ polyVal i (res.drop (t + 1)) := by
      conv_lhs => rw [← List.take_append_drop (t + 1) res]
      rw [polyVal_append i _ _ (bytes_take _ hres), hdl]
    rw [hres_split]
    rw [← gmul_assoc _ _ _ (expT_lt _) (expT_lt _) hlead, gmul_expT_expT,
      ← Nat.mul_add,
      show res.length - t - 1 - n + n = res.length - t - 1 by omega,
      ← cexp_eq_gmul _ _ hlead,
      show res.length - t - 1 = res.length - 1 - t by omega]
    rw [Nat.xor_assoc]

/-- The division loop of `ecc_per_block` after `m` of the `block.len()`
steps. -/
def divLoop (gen res0 : List Nat) (m : Nat) : List Nat :=
  (List.range m).foldl (divStep gen) res0

theorem divLoop_succ (gen res0 : List Nat) (m : Nat) :
    divLoop gen res0 (m + 1) = divStep gen (divLoop gen res0 m) m := by
  unfold divLoop
  rw [List.range_succ, List.foldl_append]
  rfl

theorem eccPerBlock_eq_divLoop (block : List Nat) (n : Nat) :
    eccPerBlock block n
      = (divLoop (GENERATOR_POLYNOMIALS.getD n [])
          (block ++ List.replicate n 0) block.length).drop block.length := rfl

theorem xor_aea (a e : Nat) : a ^^^ e ^^^ a = e := by
  rw [Nat.xor_comm a e, Nat.xor_assoc, Nat.xor_self, Nat.xor_zero]

theorem xor_cancel_mid (p c d : Nat) : (p ^^^ c) ^^^ (d ^^^ c) = p ^^^ d := by
  rw [Nat.xor_assoc, xor_left_comm, xor_left_comm c p, xor_left_comm c d,
    Nat.xor_self, Nat.xor_zero]

theorem divLoop_inv (i n : Nat) (block : List Nat) (hn : n < 70) (hi : i < n)
    (hb : ∀ x ∈ block, x < 256) :
    ∀ m, m ≤ block.length →
      (divLoop (GENERATOR_POLYNOMIALS.getD n []) (block ++ List.replicate n 0) m).length
          = block.length + n
      ∧ (∀ x ∈ divLoop (GENERATOR_POLYNOMIALS.getD n []) (block ++ List.replicate n 0) m,
          x < 256)
      ∧ polyVal i (divLoop (GENERATOR_POLYNOMIALS.getD n []) (block ++ List.replicate n 0) m)
          ^^^ polyVal i
            ((divLoop (GENERATOR_POLYNOMIALS.getD n [])
                (block ++ List.replicate n 0) m).take m
              ++ List.replicate (block.length + n - m) 0)
        = polyVal i (block ++ List.replicate n 0) := by
  intro m
  induction m with
  | zero =>
    intro _
    refine ⟨by simp [divLoop], ?_, ?_⟩
    · intro x hx
      rcases List.mem_append.mp hx with h | h
      · exact hb x h
      · rw [List.eq_of_mem_replicate h]
        omega
    · show polyVal i (block ++ List.replicate n 0)
          ^^^ polyVal i (([] : List Nat) ++ List.replicate (block.length + n - 0) 0) = _
      rw [List.nil_append, polyVal_replicate_zero, Nat.xor_zero]
  | succ m ih =>
    intro hm
    obtain ⟨hlen, hbytes, hinv⟩ := ih (by omega)
    set F := divLoop (GENERATOR_POLYNOMIALS.getD n []) (block ++ List.replicate n 0) m with hF
    have hstep := divStep_polyVal i n m F hn hi hbytes (by omega)
    have hlen' := divStep_length (GENERATOR_POLYNOMIALS.getD n []) F m
    refine ⟨?_, ?_, ?_⟩
    · rw [divLoop_succ, ← hF, hlen', hlen]
    · rw [divLoop_succ, ← hF]
      exact divStep_bytes _ F m (gen_bound n hn) hbytes
    · rw [divLoop_succ, ← hF]
      have hmF : m < F.length := by omega
      have hgetm : F[m]? = some (F.getD m 0) := by
        rw [List.getElem?_eq_getElem hmF, List.getD_eq_getElem F 0 hmF]
      have htake : (divStep (GENERATOR_POLYNOMIALS.getD n []) F m).take (m + 1)
          = F.take m ++ [F.getD m 0] := by
        rw [divStep_take, List.take_succ, hgetm]
        rfl
      rw [hstep, htake]
      have hbtake : ∀ x ∈ F.take m ++ [F.getD m 0], x < 256 := by
        intro x hx
        rcases List.mem_append.mp hx with h | h
        · exact bytes_take _ hbytes x h
        · rw [List.mem_singleton.mp h]
          exact getD_lt m hbytes hmF
      rw [polyVal_append i _ _ hbtake, polyVal_replicate_zero, Nat.xor_zero,
        List.length_replicate]
      rw [polyVal_append i _ _ (bytes_take _ hbytes)]
      rw [show polyVal i [F.getD m 0] = cexp (i * 0) (F.getD m 0) ^^^ 0 from rfl]
      rw [Nat.xor_zero, List.length_singleton]
      rw [gmul_add_right _ _ _ (expT_lt _) (gmul_lt _ _) (cexp_lt _ _)]
      rw [← gmul_assoc _ _ _ (expT_lt _) (expT_lt _) (polyVal_lt _ _), gmul_expT_expT]
      rw [← cexp_shift _ _ _ (getD_lt m hbytes hmF)]
      rw [show i * (block.length + n - (m + 1)) + i * 1 = i * (block.length + n - m) by
        rw [← Nat.mul_add]
        congr 1
        omega]
      rw [show i * (block.length + n - (m + 1)) + (i * 0)
          = i * (block.length + n - 1 - m) by
        rw [Nat.mul_zero, Nat.add_zero]
        congr 1
        omega]
      rw [show F.length - 1 - m = block.length + n - 1 - m by omega]
      rw [xor_cancel_mid]
      rw [← hinv]
      congr 2
      rw [polyVal_append i _ _ (bytes_take _ hbytes), polyVal_replicate_zero,
        Nat.xor_zero, List.length_replicate]

theorem divLoop_length (gen res0 : List Nat) : ∀ m, (divLoop gen res0 m).length = res0.length := by
  intro m
  induction m with
  | zero => rfl
  | succ m ih => rw [divLoop_succ, divStep_length, ih]

theorem eccPerBlock_length (block : List Nat) (n : Nat) : (eccPerBlock block n).length = n := by
  rw [eccPerBlock_eq_divLoop, List.length_drop, divLoop_length, List.length_append,
    List.length_replicate]
  omega

theorem eccPerBlock_bytes (block : List Nat) (n : Nat) (hn : n < 70)
    (hb : ∀ x ∈ block, x < 256) : ∀ x ∈ eccPerBlock block n, x < 256 := by
  by_cases h0 : 0 < n
  · have h := (divLoop_inv 0 n block hn h0 hb block.length (le_refl _)).2.1
    rw [eccPerBlock_eq_divLoop]
    exact fun x hx => h x (List.drop_subset _ _ hx)
  · intro x hx
    have := eccPerBlock_length block n
    interval_cases n
    · simp [List.length_eq_zero] at this
      rw [this] at hx
      simp at hx

/-- Core algebraic fact behind C1: the codeword `block ++ ecc_per_block`
evaluates to zero at `α^i` for every `i` below the generator degree. -/
theorem codeword_polyVal_zero (block : List Nat) (n i : Nat) (hn : n < 70) (hi : i < n)
    (hb : ∀ x ∈ block, x < 256) :
    polyVal i (block ++ eccPerBlock block n) = 0 := by
  obtain ⟨hlen, hbytes, hinv⟩ :=
    divLoop_inv i n block hn hi hb block.length (le_refl _)
  set F := divLoop (GENERATOR_POLYNOMIALS.getD n [])
    (block ++ List.replicate n 0) block.length with hF
  have hdrop : (F.drop block.length).length = n := by
    rw [List.length_drop, hlen]
    omega
  have hsplit : polyVal i F
      = gmul (expT (i * n)) (polyVal i (F.take block.length))
        ^^^ polyVal i (F.drop block.length) := by
    conv_lhs => rw [← List.take_append_drop block.length F]
    rw [polyVal_append i _ _ (bytes_take _ hbytes), hdrop]
  have htk : polyVal i (F.take block.length ++ List.replicate (block.length + n - block.length) 0)
      = gmul (expT (i * n)) (polyVal i (F.take block.length)) := by
    rw [polyVal_append i _ _ (bytes_take _ hbytes), polyVal_replicate_zero, Nat.xor_zero,
      List.length_replicate]
    congr 3
    omega
  have hres0 : polyVal i (block ++ List.replicate n 0)
      = gmul (expT (i * n)) (polyVal i block) := by
    rw [polyVal_append i _ _ hb, polyVal_replicate_zero, Nat.xor_zero,
      List.length_replicate]
  rw [hsplit, htk, hres0] at hinv
  rw [xor_aea] at hinv
  have hecc : polyVal i (F.drop block.length) = gmul (expT (i * n)) (polyVal i block) :=
    hinv
  rw [eccPerBlock_eq_divLoop, ← hF, polyVal_append i _ _ hb, hdrop, hecc, Nat.xor_self]

/-! ## From syndromes to polynomial values -/

/-- Running syndrome sum with explicit position counter, the reference form
of the `enumerate` fold in `syndromes`. -/
def synAux (i j : Nat) : List Nat → Nat
  | [] => 0
  | c :: rest => cexp (i * j) c ^^^ synAux i (j + 1) rest

theorem synAux_lt (i j : Nat) (w : List Nat) : synAux i j w < 256 := by
  induction w generalizing j with
  | nil => exact Nat.zero_lt_succ _
  | cons c rest ih => exact xor_lt_256 (cexp_lt _ _) (ih _)

theorem syndrome_foldl (i : Nat) (w : List Nat) : ∀ (j e : Nat),
    (List.enumFrom j w).foldl
      (fun e p => if p.2 = 0 then e else e ^^^ expT (i * p.1 + logT p.2)) e
      = e ^^^ synAux i j w := by
  induction w with
  | nil =>
    intro j e
    show e = e ^^^ 0
    rw [Nat.xor_zero]
  | cons c rest ih =>
    intro j e
    rw [show List.enumFrom j (c :: rest) = (j, c) :: List.enumFrom (j + 1) rest from rfl,
      List.foldl_cons, ih (j + 1),
      show synAux i j (c :: rest) = cexp (i * j) c ^^^ synAux i (j + 1) rest from rfl]
    by_cases h0 : c = 0
    · rw [if_pos h0, h0, cexp_zero, Nat.zero_xor]
    · rw [if_neg h0, ← Nat.xor_assoc]
      congr 1
      rw [show cexp (i * j) c = expT (i * j + logT c) from by
        unfold cexp
        rw [if_neg h0]]

theorem syndrome_eq_synAux (i : Nat) (w : List Nat) : syndrome i w = synAux i 0 w := by
  unfold syndrome
  show (List.enumFrom 0 w).foldl _ 0 = _
  rw [syndrome_foldl, Nat.zero_xor]

theorem synAux_shift (i m : Nat) (w : List Nat) (hw : ∀ x ∈ w, x < 256) : ∀ j,
    synAux i (m + j) w = gmul (expT (i * m)) (synAux i j w) := by
  induction w with
  | nil =>
    intro j
    show (0 : Nat) = gmul _ 0
    rw [gmul_zero_right]
  | cons c rest ih =>
    intro j
    have hc : c < 256 := hw c (List.mem_cons_self c rest)
    have hrest : ∀ x ∈ rest, x < 256 := fun x hx => hw x (List.mem_cons_of_mem c hx)
    show cexp (i * (m + j)) c ^^^ synAux i (m + j + 1) rest = _
    rw [show m + j + 1 = m + (j + 1) by omega, ih hrest (j + 1),
      show i * (m + j) = i * m + i * j from by rw [Nat.mul_add],
      cexp_shift _ _ _ hc]
    show _ = gmul (expT (i * m)) (cexp (i * j) c ^^^ synAux i (j + 1) rest)
    rw [gmul_add_right _ _ _ (expT_lt _) (cexp_lt _ _) (synAux_lt _ _ _)]

theorem cexp_zero_exp (c : Nat) (hc : c < 256) : cexp 0 c = c := by
  unfold cexp
  by_cases h0 : c = 0
  · rw [if_pos h0, h0]
  · rw [if_neg h0, Nat.zero_add]
    exact expT_logT c h0 hc

theorem synAux_reverse (i : Nat) (w : List Nat) (hw : ∀ x ∈ w, x < 256) :
    synAux i 0 w = polyVal i w.reverse := by
  induction w with
  | nil => rfl
  | cons c rest ih =>
    have hc : c < 256 := hw c (List.mem_cons_self c rest)
    have hrest : ∀ x ∈ rest, x < 256 := fun x hx => hw x (List.mem_cons_of_mem c hx)
    have hbrev : ∀ x ∈ rest.reverse, x < 256 := fun x hx =>
      hrest x (List.mem_reverse.mp hx)
    rw [List.reverse_cons]
    show cexp (i * 0) c ^^^ synAux i 1 rest = polyVal i (rest.reverse ++ [c])
    have hsh : synAux i 1 rest = gmul (expT (i * 1)) (synAux i 0 rest) := by
      simpa using synAux_shift i 1 rest hrest 0
    rw [polyVal_append i _ _ hbrev,
      show polyVal i [c] = cexp (i * 0) c ^^^ 0 from rfl, Nat.xor_zero,
      List.length_singleton, hsh, ih hrest, Nat.xor_comm]

/-- The syndromes the rectifier computes over `ecc.reverse ++ data.reverse`
are the codeword values at `α^i`. -/
theorem syndrome_codeword (i : Nat) (data ecc : List Nat)
    (hd : ∀ x ∈ data, x < 256) (he : ∀ x ∈ ecc, x < 256) :
    syndrome i (ecc.reverse ++ data.reverse) = polyVal i (data ++ ecc) := by
  have hb : ∀ x ∈ ecc.reverse ++ data.reverse, x < 256 := by
    intro x hx
    rcases List.mem_append.mp hx with h | h
    · exact he x (List.mem_reverse.mp h)
    · exact hd x (List.mem_reverse.mp h)
  rw [syndrome_eq_synAux, synAux_reverse i _ hb, List.reverse_append,
    List.reverse_reverse, List.reverse_reverse]

theorem rectifyBlock_clean (block : List Nat) (n : Nat) (hn : n ≤ 69)
    (hb : ∀ x ∈ block, x < 256) :
    rectifyBlock block (eccPerBlock block n) = some block := by
  unfold rectifyBlock
  rw [if_pos]
  unfold syndromesOk
  rw [List.all_eq_true]
  intro x hx
  rw [eccPerBlock_length]
  split
  · rename_i hlt
    rw [syndrome_codeword x block _ hb (eccPerBlock_bytes block n (by omega) hb),
      codeword_polyVal_zero block n x (by omega) hlt hb]
    rfl
  · rfl

/-! ## Claim C1: assembling `ecc` and `rectify` -/

set_option maxRecDepth 40000 in
theorem blockTableFacts : ((List.range 40).all fun v => (List.range 4).all fun li =>
    decide (0 < ((BLOCK_TABLE.getD v []).getD li (0, 0, 0, 0, 0)).1)
      && decide (((BLOCK_TABLE.getD v []).getD li (0, 0, 0, 0, 0)).2.2.2.2 ≤ 69)) = true := by
  decide

theorem eclIndex_lt (l : ECLevel) : eclIndex l < 4 := by
  cases l <;> decide

theorem table_facts (v : Nat) (l : ECLevel) (h1 : 1 ≤ v) (h2 : v ≤ 40) :
    0 < (dataCodewordsPerBlock (Version.Normal v) l).1
      ∧ eccCodewordsPerBlock (Version.Normal v) l ≤ 69 := by
  have h := all_range_true blockTableFacts (v - 1) (by omega)
  have h3 := all_range_true h (eclIndex l) (eclIndex_lt l)
  simp only [Bool.and_eq_true, decide_eq_true_eq] at h3
  exact h3

theorem chunksF_flatten {α : Type} : ∀ (fuel k : Nat) (l : List α), l.length ≤ fuel →
    0 < k → (chunksF fuel k l).flatten = l := by
  intro fuel
  induction fuel with
  | zero =>
    intro k l h hk
    have h0 : l = [] := List.length_eq_zero.mp (by omega)
    subst h0
    rfl
  | succ fuel ih =>
    intro k l h hk
    cases l with
    | nil => rfl
    | cons x xs =>
      show ((x :: xs).take k :: chunksF fuel k ((x :: xs).drop k)).flatten = x :: xs
      rw [List.flatten_cons, ih k _ (by
        rw [List.length_drop]
        simp only [List.length_cons] at h ⊢
        omega) hk, List.take_append_drop]

theorem chunks_flatten {α : Type} (k : Nat) (l : List α) (hk : 0 < k) :
    (chunks k l).flatten = l :=
  chunksF_flatten l.length k l (le_refl _) hk

theorem chunksF_subset {α : Type} : ∀ (fuel k : Nat) (l b : List α), b ∈ chunksF fuel k l →
    ∀ x ∈ b, x ∈ l := by
  intro fuel
  induction fuel with
  | zero =>
    intro k l b hb
    simp [chunksF] at hb
  | succ fuel ih =>
    intro k l b hb x hx
    cases l with
    | nil => simp [chunksF] at hb
    | cons y ys =>
      rcases List.mem_cons.mp hb with h | h
      · subst h
        exact List.take_subset _ _ hx
      · exact List.drop_subset _ _ (ih k _ b h x hx)

theorem chunks_subset {α : Type} (k : Nat) (l b : List α) (hb : b ∈ chunks k l) :
    ∀ x ∈ b, x ∈ l :=
  chunksF_subset l.length k l b hb

theorem blockify_flatten (data : List Nat) (v : Nat) (l : ECLevel) (h1 : 1 ≤ v)
    (h2 : v ≤ 40) (hlen : data.length = totalDataCodewords (Version.Normal v) l) :
    (blockify data (Version.Normal v) l).flatten = data := by
  have hs1 := (table_facts v l h1 h2).1
  unfold blockify
  rw [List.flatten_append, chunks_flatten _ _ hs1]
  by_cases hs2 : 0 < (dataCodewordsPerBlock (Version.Normal v) l).2.2.1
  · rw [if_pos hs2, chunks_flatten _ _ hs2, List.take_append_drop]
  · rw [if_neg hs2]
    unfold totalDataCodewords at hlen
    have hs0 : (dataCodewordsPerBlock (Version.Normal v) l).2.2.1 = 0 := by omega
    rw [hs0, Nat.zero_mul] at hlen
    rw [List.flatten_nil, List.append_nil, List.take_of_length_le (by omega)]

theorem blockify_bytes (data : List Nat) (ver : Version) (l : ECLevel)
    (hb : ∀ x ∈ data, x < 256) :
    ∀ b ∈ blockify data ver l, ∀ x ∈ b, x < 256 := by
  intro b hb' x hx
  unfold blockify at hb'
  rcases List.mem_append.mp hb' with h | h
  · exact hb x (List.take_subset _ _ (chunks_subset _ _ b h x hx))
  · split at h
    · exact hb x (List.drop_subset _ _ (chunks_subset _ _ b h x hx))
    · simp at h

theorem mapM_rectify_clean (n : Nat) (hn : n ≤ 69) :
    ∀ dbs : List (List Nat), (∀ b ∈ dbs, ∀ x ∈ b, x < 256) →
    ((dbs.zip (dbs.map fun b => eccPerBlock b n)).mapM fun p => rectifyBlock p.1 p.2)
      = some dbs := by
  intro dbs
  induction dbs with
  | nil =>
    intro _
    rfl
  | cons d ds ih =>
    intro hb
    rw [show (d :: ds).zip ((d :: ds).map fun b => eccPerBlock b n)
        = (d, eccPerBlock d n) :: ds.zip (ds.map fun b => eccPerBlock b n) from rfl,
      List.mapM_cons]
    rw [show rectifyBlock (d, eccPerBlock d n).1 (d, eccPerBlock d n).2
        = some d from rectifyBlock_clean d n hn (hb d (List.mem_cons_self d ds)),
      ih (fun b hmem x hx => hb b (List.mem_cons_of_mem d hmem) x hx)]
    rfl

theorem rectify_clean (dbs : List (List Nat)) (n : Nat) (hn : n ≤ 69)
    (hb : ∀ b ∈ dbs, ∀ x ∈ b, x < 256) :
    rectify dbs (dbs.map fun b => eccPerBlock b n) = some dbs.flatten := by
  unfold rectify
  rw [mapM_rectify_clean n hn dbs hb]
  rfl

set_option maxRecDepth 40000 in
/-- C1, amended.  First half (as claimed): for every Normal version, level
and byte vector of exactly the version's data codeword count, computing the
ECC blocks with `ecc` and rectifying the unmodified data and ECC blocks
returns exactly the original data bytes.  Second half (amended): the
rectifier never alters a block - `rectify_block` either fails (it `unwrap`s
the syndrome check, a panic) or returns its input unchanged - so altered
bytes are never corrected, only detected. -/
theorem rs_encode_rectify_C1 (v : Nat) (l : ECLevel) (data : List Nat)
    (hv1 : 1 ≤ v) (hv2 : v ≤ 40) (hbytes : ∀ x ∈ data, x < 256)
    (hlen : data.length = totalDataCodewords (Version.Normal v) l) :
    rectify (eccFn data (Version.Normal v) l).1 (eccFn data (Version.Normal v) l).2
      = some data
    ∧ (∀ d e : List Nat, rectifyBlock d e = none ∨ rectifyBlock d e = some d) := by
  constructor
  · show rectify (blockify data (Version.Normal v) l)
      ((blockify data (Version.Normal v) l).map fun b =>
        eccPerBlock b (eccCodewordsPerBlock (Version.Normal v) l)) = some data
    rw [rectify_clean _ _ (table_facts v l hv1 hv2).2
      (blockify_bytes data _ l hbytes)]
    rw [blockify_flatten data v l hv1 hv2 hlen]
  · intro d e
    unfold rectifyBlock
    split
    · exact Or.inr rfl
    · exact Or.inl rfl

set_option maxRecDepth 40000 in
/-- C1 witness: version 1 at level M with the 16-byte reference message. -/
theorem rs_encode_rectify_C1_witness :
    rectify
        (eccFn [32, 91, 11, 120, 209, 114, 220, 77, 67, 64, 236, 17, 236, 17, 236, 17]
          (Version.Normal 1) ECLevel.M).1
        (eccFn [32, 91, 11, 120, 209, 114, 220, 77, 67, 64, 236, 17, 236, 17, 236, 17]
          (Version.Normal 1) ECLevel.M).2
      = some [32, 91, 11, 120, 209, 114, 220, 77, 67, 64, 236, 17, 236, 17, 236, 17]
    ∧ (∀ d e : List Nat, rectifyBlock d e = none ∨ rectifyBlock d e = some d) :=
  rs_encode_rectify_C1 1 ECLevel.M _ (by decide) (by decide) (by decide) (by decide)

set_option maxRecDepth 100000 in
set_option maxHeartbeats 4000000 in
/-- C1 counterexample: at version 1-M the claim's correction bound is
`⌊(ecc_len − p)/2⌋ = 4`, yet altering one single byte of the block (32
became 33 in the first position) already makes `rectify` fail instead of
returning the original data bytes. -/
theorem rs_correction_C1_counterexample :
    errorCorrectionCapacity (Version.Normal 1) ECLevel.M = 4
    ∧ rectify [[33, 91, 11, 120, 209, 114, 220, 77, 67, 64, 236, 17, 236, 17, 236, 17]]
        [eccPerBlock [32, 91, 11, 120, 209, 114, 220, 77, 67, 64, 236, 17, 236, 17, 236, 17]
          10]
      = none := by
  constructor
  · decide
  · decide

end QR

namespace QR2

inductive Version where
  | Micro (v : Nat)
  | Normal (v : Nat)
deriving DecidableEq

def Version.width : Version → Nat
  | Version.Micro v => v * 2 + 9
  | Version.Normal v => v * 4 + 17

/-- `EncRegionIter` from `src/common/utils/iter.rs` (the identical
`DataModIter` lives in `src/render.rs`): the zig-zag cursor over the
encoding region. -/
structure EncRegionIter where
  r : Int
  c : Int
  width : Int
  vertTimingCol : Int
deriving DecidableEq

/-- `EncRegionIter::new`. -/
def EncRegionIter.new (ver : Version) : EncRegionIter :=
  { r := (ver.width : Int) - 1, c := (ver.width : Int) - 1, width := (ver.width : Int),
    vertTimingCol := match ver with | Version.Micro _ => 0 | Version.Normal _ => 6 }

/-- `Iterator::next` for `EncRegionIter`: yield the current cell and advance
the zig-zag cursor (the source's `adjusted_col` and `col_type` bindings are
inlined); `None` once the column has gone negative. -/
def EncRegionIter.next (s : EncRegionIter) : Option ((Int × Int) × EncRegionIter) :=
  if s.c < 0 then none
  else
    some ((s.r, s.c),
      if (s.width - (if s.c ≤ s.vertTimingCol then s.c + 1 else s.c)) % 4 = 2 ∧ s.r > 0 then
        { s with r := s.r - 1, c := s.c + 1 }
      else if (s.width - (if s.c ≤ s.vertTimingCol then s.c + 1 else s.c)) % 4 = 0
          ∧ s.r < s.width - 1 then
        { s with r := s.r + 1, c := s.c + 1 }
      else if ((s.width - (if s.c ≤ s.vertTimingCol then s.c + 1 else s.c)) % 4 = 0
            ∨ (s.width - (if s.c ≤ s.vertTimingCol then s.c + 1 else s.c)) % 4 = 2)
          ∧ s.c = s.vertTimingCol + 1 then
        { s with c := s.c - 2 }
      else { s with c := s.c - 1 })

/-- Trace of the first `fuel` yielded cells. -/
def encTraceAux : Nat → EncRegionIter → List (Int × Int)
  | 0, _ => []
  | fuel + 1, s =>
    match s.next with
    | none => []
    | some (p, s') => p :: encTraceAux fuel s'

/-- Iterator state after at most `fuel` yields. -/
def encEndAux : Nat → EncRegionIter → EncRegionIter
  | 0, s => s
  | fuel + 1, s =>
    match s.next with
    | none => s
    | some (_, s') => encEndAux fuel s'

/-- The full trace of the encoding-region iterator of a version. -/
def encTrace (ver : Version) : List (Int × Int) :=
  encTraceAux (ver.width * (ver.width - 1)) (EncRegionIter.new ver)

/-- The iterator state after the full traversal. -/
def encEnd (ver : Version) : EncRegionIter :=
  encEndAux (ver.width * (ver.width - 1)) (EncRegionIter.new ver)

/-- `Yields s l s'`: starting from `s` the iterator yields exactly the
cells of `l` and is then in state `s'`. -/
inductive Yields : EncRegionIter → List (Int × Int) → EncRegionIter → Prop where
  | nil (s : EncRegionIter) : Yields s [] s
  | cons {s s1 s2 : EncRegionIter} {p : Int × Int} {l : List (Int × Int)} :
      s.next = some (p, s1) → Yields s1 l s2 → Yields s (p :: l) s2

theorem Yields.append {s1 s2 s3 : EncRegionIter} {l1 l2 : List (Int × Int)}
    (h1 : Yields s1 l1 s2) (h2 : Yields s2 l2 s3) : Yields s1 (l1 ++ l2) s3 := by
  induction h1 with
  | nil => exact h2
  | cons hn _ ih => exact Yields.cons hn (ih h2)

theorem encTraceAux_succ (f : Nat) (s : EncRegionIter) :
    encTraceAux (f + 1) s =
      match s.next with
      | none => []
      | some (p, s') => p :: encTraceAux f s' := rfl

theorem encEndAux_succ (f : Nat) (s : EncRegionIter) :
    encEndAux (f + 1) s =
      match s.next with
      | none => s
      | some (_, s') => encEndAux f s' := rfl

theorem Yields.traceAux {s sE : EncRegionIter} {l : List (Int × Int)}
    (h : Yields s l sE) (hE : sE.next = none) :
    ∀ fuel, l.length ≤ fuel → encTraceAux fuel s = l ∧ encEndAux fuel s = sE := by
  induction h with
  | nil =>
    intro fuel _
    cases fuel with
    | zero => exact ⟨rfl, rfl⟩
    | succ f =>
      rw [encTraceAux_succ, encEndAux_succ, hE]
      exact ⟨rfl, rfl⟩
  | @cons s0 s1 s2 p l0 hn hy ih =>
    intro fuel hfuel
    cases fuel with
    | zero => simp at hfuel
    | succ f =>
      obtain ⟨ht, he⟩ := ih hE f (by simpa using hfuel)
      rw [encTraceAux_succ, encEndAux_succ, hn]
      exact ⟨by show p :: encTraceAux f s1 = p :: l0; rw [ht],
        by show encEndAux f s1 = s2; rw [he]⟩

/-! ## Stepping lemmas for a Normal symbol (vertical timing column 6) -/

/-- Shorthand for a cursor over a width-`w` Normal symbol. -/
def iSt (w r c : Int) : EncRegionIter := ⟨r, c, w, 6⟩

/-- The `col_type` of column `c`: `(w - adjusted_col) % 4`. -/
def ctype (w c : Int) : Int := (w - (if c ≤ 6 then c + 1 else c)) % 4

theorem next_dash (w r c : Int) (h0 : 0 ≤ c) (h2 : ctype w c ≠ 2) (h4 : ctype w c ≠ 0) :
    (iSt w r c).next = some ((r, c), iSt w r (c - 1)) := by
  unfold EncRegionIter.next iSt
  unfold ctype at h2 h4
  rw [if_neg (by omega : ¬ c < 0), if_neg (by simp only []; omega),
    if_neg (by simp only []; omega), if_neg (by simp only []; omega)]

theorem next_up (w r c : Int) (h0 : 0 ≤ c) (h2 : ctype w c = 2) (hr : 0 < r) :
    (iSt w r c).next = some ((r, c), iSt w (r - 1) (c + 1)) := by
  unfold EncRegionIter.next iSt
  unfold ctype at h2
  rw [if_neg (by omega : ¬ c < 0), if_pos (by simp only []; omega)]

theorem next_down (w r c : Int) (h0 : 0 ≤ c) (h2 : ctype w c = 0) (hr : r < w - 1) :
    (iSt w r c).next = some ((r, c), iSt w (r + 1) (c + 1)) := by
  unfold EncRegionIter.next iSt
  unfold ctype at h2
  rw [if_neg (by omega : ¬ c < 0), if_neg (by simp only []; omega),
    if_pos (by simp only []; omega)]

theorem next_skip (w r c : Int) (h0 : 0 ≤ c) (h2 : ctype w c = 2 ∨ ctype w c = 0)
    (hc : c = 7) (hru : ¬ (ctype w c = 2 ∧ 0 < r)) (hrd : ¬ (ctype w c = 0 ∧ r < w - 1)) :
    (iSt w r c).next = some ((r, c), iSt w r (c - 2)) := by
  unfold EncRegionIter.next iSt
  unfold ctype at h2 hru hrd
  rw [if_neg (by omega : ¬ c < 0), if_neg (by simp only []; omega),
    if_neg (by simp only []; omega), if_pos (by simp only []; omega)]

theorem next_left (w r c : Int) (h0 : 0 ≤ c) (hc : c ≠ 7)
    (hru : ¬ (ctype w c = 2 ∧ 0 < r)) (hrd : ¬ (ctype w c = 0 ∧ r < w - 1)) :
    (iSt w r c).next = some ((r, c), iSt w r (c - 1)) := by
  unfold EncRegionIter.next iSt
  unfold ctype at hru hrd
  rw [if_neg (by omega : ¬ c < 0), if_neg (by simp only []; omega),
    if_neg (by simp only []; omega), if_neg (by simp only []; omega)]


/-! ## Column-pair strips -/

/-- Cells of an upward column pair: rows `r, r-1, ..., r-m`, at each row first
column `cH` then `cH - 1`. -/
def stripU (cH : Int) (r : Int) : Nat → List (Int × Int)
  | 0 => [(r, cH), (r, cH - 1)]
  | m + 1 => (r, cH) :: (r, cH - 1) :: stripU cH (r - 1) m

/-- Cells of a downward column pair: rows `r, r+1, ..., r+m`, at each row first
column `cH` then `cH - 1`. -/
def stripD (cH : Int) (r : Int) : Nat → List (Int × Int)
  | 0 => [(r, cH), (r, cH - 1)]
  | m + 1 => (r, cH) :: (r, cH - 1) :: stripD cH (r + 1) m

theorem yields_stripU (w cH : Int) (hA2 : ctype w cH ≠ 2) (hA0 : ctype w cH ≠ 0)
    (hB : ctype w (cH - 1) = 2) (hc : 1 ≤ cH) :
    ∀ (m : Nat) (r : Int), r = m →
      Yields (iSt w r cH) (stripU cH r m)
        (iSt w 0 (if cH - 1 = 7 then cH - 3 else cH - 2)) := by
  intro m
  induction m with
  | zero =>
    intro r hr
    subst hr
    refine Yields.cons (next_dash w 0 cH (by omega) hA2 hA0) ?_
    by_cases h7 : cH - 1 = 7
    · rw [if_pos h7]
      have hstep := next_skip w 0 (cH - 1) (by omega) (Or.inl hB) h7 (by omega) (by omega)
      rw [show cH - 1 - 2 = cH - 3 by ring] at hstep
      exact Yields.cons hstep (Yields.nil _)
    · rw [if_neg h7]
      have hstep := next_left w 0 (cH - 1) (by omega) h7 (by omega) (by omega)
      rw [show cH - 1 - 1 = cH - 2 by ring] at hstep
      exact Yields.cons hstep (Yields.nil _)
  | succ m ih =>
    intro r hr
    refine Yields.cons (next_dash w r cH (by omega) hA2 hA0) ?_
    refine Yields.cons (next_up w r (cH - 1) (by omega) hB (by omega)) ?_
    rw [show cH - 1 + 1 = cH by ring]
    exact ih (r - 1) (by omega)

theorem yields_stripD (w cH : Int) (hA2 : ctype w cH ≠ 2) (hA0 : ctype w cH ≠ 0)
    (hB : ctype w (cH - 1) = 0) (hc : 1 ≤ cH) (h7 : cH - 1 ≠ 7) :
    ∀ (m : Nat) (r : Int), r + m = w - 1 →
      Yields (iSt w r cH) (stripD cH r m) (iSt w (w - 1) (cH - 2)) := by
  intro m
  induction m with
  | zero =>
    intro r hr
    have hr' : r = w - 1 := by omega
    subst hr'
    refine Yields.cons (next_dash w (w - 1) cH (by omega) hA2 hA0) ?_
    have hstep := next_left w (w - 1) (cH - 1) (by omega) h7 (by omega) (by omega)
    rw [show cH - 1 - 1 = cH - 2 by ring] at hstep
    exact Yields.cons hstep (Yields.nil _)
  | succ m ih =>
    intro r hr
    refine Yields.cons (next_dash w r cH (by omega) hA2 hA0) ?_
    refine Yields.cons (next_down w r (cH - 1) (by omega) hB (by omega)) ?_
    rw [show cH - 1 + 1 = cH by ring]
    exact ih (r + 1) (by omega)


/-! ## The full zig-zag traversal -/

/-- High column of the `s`-th column-pair strip (strips advance right to left,
jumping over the vertical timing column 6). -/
def cHs (w : Int) (s : Nat) : Int :=
  if (s : Int) ≤ (w - 9) / 2 then w - 1 - 2 * s else w - 2 - 2 * s

theorem cHs_val (w : Int) (hw4 : w % 4 = 1) (j : Nat) :
    (2 * (j : Int) ≤ w - 9 ∧ cHs w j = w - 1 - 2 * (j : Int)) ∨
      (w - 9 < 2 * (j : Int) ∧ cHs w j = w - 2 - 2 * (j : Int)) := by
  unfold cHs
  by_cases h : (j : Int) ≤ (w - 9) / 2
  · left
    rw [if_pos h]
    omega
  · right
    rw [if_neg h]
    omega

theorem ctype_cHs (w : Int) (hw4 : w % 4 = 1) (j : Nat) :
    ctype w (cHs w j) = (1 + 2 * (j : Int)) % 4 ∧
      ctype w (cHs w j - 1) = (2 + 2 * (j : Int)) % 4 := by
  rcases cHs_val w hw4 j with ⟨hs, hv⟩ | ⟨hs, hv⟩ <;> simp only [ctype] <;> rw [hv]
  · rw [if_neg (by omega), if_neg (by omega)]
    exact ⟨by omega, by omega⟩
  · rw [if_pos (by omega), if_pos (by omega)]
    exact ⟨by omega, by omega⟩

theorem cHs_step (w : Int) (hw4 : w % 4 = 1) (j : Nat) (hj : 2 * (j : Int) ≤ w - 3) :
    (if cHs w j - 1 = 7 then cHs w j - 3 else cHs w j - 2) = cHs w (j + 1) := by
  rcases cHs_val w hw4 j with ⟨hs, hv⟩ | ⟨hs, hv⟩ <;>
    rcases cHs_val w hw4 (j + 1) with ⟨hs', hv'⟩ | ⟨hs', hv'⟩ <;>
    push_cast at hs' hv' <;>
    by_cases h7 : cHs w j - 1 = 7 <;>
    [rw [if_pos h7]; rw [if_neg h7]; rw [if_pos h7]; rw [if_neg h7];
     rw [if_pos h7]; rw [if_neg h7]; rw [if_pos h7]; rw [if_neg h7]] <;>
    omega

/-- The iterator state at which the `j`-th strip starts: row `w-1` for an
upward (even) strip, row `0` for a downward (odd) strip. -/
def stateAt (w : Int) (j : Nat) : EncRegionIter :=
  if j % 2 = 0 then iSt w (w - 1) (cHs w j) else iSt w 0 (cHs w j)

/-- Cells of the `j`-th strip in visiting order. -/
def stripTrace (w : Int) (j : Nat) : List (Int × Int) :=
  if j % 2 = 0 then stripU (cHs w j) (w - 1) (w - 1).toNat
  else stripD (cHs w j) 0 (w - 1).toNat

/-- All cells of the traversal: the strips concatenated in order. -/
def snake (w : Int) : List (Int × Int) :=
  (List.range ((w - 1) / 2).toNat).flatMap (stripTrace w)

theorem yields_strip (w : Int) (hw4 : w % 4 = 1) (hw : 9 ≤ w) (j : Nat)
    (hj : 2 * (j : Int) ≤ w - 3) :
    Yields (stateAt w j) (stripTrace w j) (stateAt w (j + 1)) := by
  obtain ⟨hct, hct'⟩ := ctype_cHs w hw4 j
  have h1 : 1 ≤ cHs w j := by
    rcases cHs_val w hw4 j with ⟨hs, hv⟩ | ⟨hs, hv⟩ <;> omega
  by_cases hpar : j % 2 = 0
  · unfold stateAt stripTrace
    rw [if_pos hpar, if_pos hpar, if_neg (by omega : ¬ (j + 1) % 2 = 0)]
    have hy := yields_stripU w (cHs w j) (by rw [hct]; omega) (by rw [hct]; omega)
      (by rw [hct']; omega) h1 (w - 1).toNat (w - 1) (by omega)
    rw [cHs_step w hw4 j hj] at hy
    exact hy
  · unfold stateAt stripTrace
    rw [if_neg hpar, if_neg hpar, if_pos (by omega : (j + 1) % 2 = 0)]
    have h7 : cHs w j - 1 ≠ 7 := by
      intro hcontra
      have hcomp : ctype w (cHs w j - 1) = (w - 7) % 4 := by
        rw [hcontra]
        unfold ctype
        rw [if_neg (by omega)]
      rw [hct'] at hcomp
      omega
    have hy := yields_stripD w (cHs w j) (by rw [hct]; omega) (by rw [hct]; omega)
      (by rw [hct']; omega) h1 h7 (w - 1).toNat 0 (by omega)
    have hstep := cHs_step w hw4 j hj
    rw [if_neg h7] at hstep
    rw [hstep] at hy
    exact hy

theorem yields_snake_aux (w : Int) (hw4 : w % 4 = 1) (hw : 9 ≤ w) :
    ∀ (n j : Nat), (j : Int) + n = (w - 1) / 2 →
      Yields (stateAt w j) ((List.range' j n).flatMap (stripTrace w))
        (iSt w (w - 1) (-1)) := by
  intro n
  induction n with
  | zero =>
    intro j hj
    have hjev : j % 2 = 0 := by omega
    have hc : cHs w j = -1 := by
      rcases cHs_val w hw4 j with ⟨hs, hv⟩ | ⟨hs, hv⟩ <;> omega
    show Yields (stateAt w j) [] _
    unfold stateAt
    rw [if_pos hjev, hc]
    exact Yields.nil _
  | succ n ih =>
    intro j hj
    rw [show List.range' j (n + 1) = j :: List.range' (j + 1) n from rfl,
      List.flatMap_cons]
    exact Yields.append (yields_strip w hw4 hw j (by omega)) (ih (j + 1) (by push_cast; omega))

theorem yields_snake (w : Int) (hw4 : w % 4 = 1) (hw : 9 ≤ w) :
    Yields (iSt w (w - 1) (w - 1)) (snake w) (iSt w (w - 1) (-1)) := by
  have hv : cHs w 0 = w - 1 := by
    rcases cHs_val w hw4 0 with ⟨hs, hvv⟩ | ⟨hs, hvv⟩ <;> push_cast at hs hvv <;> omega
  have h0 : stateAt w 0 = iSt w (w - 1) (w - 1) := by
    unfold stateAt
    rw [if_pos rfl, hv]
  rw [← h0]
  have hmain := yields_snake_aux w hw4 hw ((w - 1) / 2).toNat 0 (by push_cast; omega)
  unfold snake
  rw [List.range_eq_range']
  exact hmain


/-! ## Properties of the traversal -/

theorem mem_stripU (c : Int) :
    ∀ (m : Nat) (r : Int) (p : Int × Int),
      p ∈ stripU c r m ↔ (p.2 = c ∨ p.2 = c - 1) ∧ r - m ≤ p.1 ∧ p.1 ≤ r := by
  intro m
  induction m with
  | zero =>
    intro r p
    simp only [stripU, List.mem_cons, List.not_mem_nil, or_false]
    constructor
    · rintro (h | h) <;> subst h <;> refine ⟨?_, by simp, by simp⟩
      · exact Or.inl rfl
      · exact Or.inr rfl
    · rintro ⟨hc | hc, h1, h2⟩
      · exact Or.inl (Prod.ext_iff.mpr ⟨by omega, hc⟩)
      · exact Or.inr (Prod.ext_iff.mpr ⟨by omega, hc⟩)
  | succ m ih =>
    intro r p
    simp only [stripU, List.mem_cons, ih (r - 1) p]
    constructor
    · rintro (h | h | ⟨hc, h1, h2⟩)
      · subst h; constructor; · left; rfl
        constructor <;> push_cast <;> omega
      · subst h; constructor; · right; rfl
        constructor <;> push_cast <;> omega
      · exact ⟨hc, by push_cast at h1 ⊢; omega, by omega⟩
    · rintro ⟨hc, h1, h2⟩
      by_cases hr : p.1 ≤ r - 1
      · right; right
        exact ⟨hc, by push_cast at h1 ⊢; omega, hr⟩
      · rcases hc with hc | hc
        · left; rw [Prod.ext_iff]; exact ⟨by omega, hc⟩
        · right; left; rw [Prod.ext_iff]; exact ⟨by omega, hc⟩

theorem mem_stripD (c : Int) :
    ∀ (m : Nat) (r : Int) (p : Int × Int),
      p ∈ stripD c r m ↔ (p.2 = c ∨ p.2 = c - 1) ∧ r ≤ p.1 ∧ p.1 ≤ r + m := by
  intro m
  induction m with
  | zero =>
    intro r p
    simp only [stripD, List.mem_cons, List.not_mem_nil, or_false]
    constructor
    · rintro (h | h) <;> subst h <;> refine ⟨?_, by simp, by simp⟩
      · exact Or.inl rfl
      · exact Or.inr rfl
    · rintro ⟨hc | hc, h1, h2⟩
      · exact Or.inl (Prod.ext_iff.mpr ⟨by omega, hc⟩)
      · exact Or.inr (Prod.ext_iff.mpr ⟨by omega, hc⟩)
  | succ m ih =>
    intro r p
    simp only [stripD, List.mem_cons, ih (r + 1) p]
    constructor
    · rintro (h | h | ⟨hc, h1, h2⟩)
      · subst h; refine ⟨Or.inl rfl, by omega, by push_cast; omega⟩
      · subst h; refine ⟨Or.inr rfl, by omega, by push_cast; omega⟩
      · exact ⟨hc, by omega, by push_cast at h2 ⊢; omega⟩
    · rintro ⟨hc, h1, h2⟩
      by_cases hr : r + 1 ≤ p.1
      · right; right
        exact ⟨hc, hr, by push_cast at h2 ⊢; omega⟩
      · rcases hc with hc | hc
        · left; rw [Prod.ext_iff]; exact ⟨by omega, hc⟩
        · right; left; rw [Prod.ext_iff]; exact ⟨by omega, hc⟩

theorem nodup_stripU (c : Int) (hc : c ≠ c - 1) :
    ∀ (m : Nat) (r : Int), (stripU c r m).Nodup := by
  intro m
  induction m with
  | zero =>
    intro r
    simp only [stripU, List.nodup_cons, List.mem_singleton, List.not_mem_nil,
      List.nodup_nil, and_true, not_false_iff]
    intro h
    exact hc (congrArg Prod.snd h)
  | succ m ih =>
    intro r
    simp only [stripU, List.nodup_cons]
    refine ⟨?_, ?_, ih (r - 1)⟩
    · intro h
      rcases List.mem_cons.mp h with h | h
      · exact hc (congrArg Prod.snd h)
      · have := (mem_stripU c m (r - 1) (r, c)).mp h
        omega
    · intro h
      have := (mem_stripU c m (r - 1) (r, c - 1)).mp h
      omega

theorem nodup_stripD (c : Int) (hc : c ≠ c - 1) :
    ∀ (m : Nat) (r : Int), (stripD c r m).Nodup := by
  intro m
  induction m with
  | zero =>
    intro r
    simp only [stripD, List.nodup_cons, List.mem_singleton, List.not_mem_nil,
      List.nodup_nil, and_true, not_false_iff]
    intro h
    exact hc (congrArg Prod.snd h)
  | succ m ih =>
    intro r
    simp only [stripD, List.nodup_cons]
    refine ⟨?_, ?_, ih (r + 1)⟩
    · intro h
      rcases List.mem_cons.mp h with h | h
      · exact hc (congrArg Prod.snd h)
      · have := (mem_stripD c m (r + 1) (r, c)).mp h
        omega
    · intro h
      have := (mem_stripD c m (r + 1) (r, c - 1)).mp h
      omega

theorem length_stripU (c : Int) :
    ∀ (m : Nat) (r : Int), (stripU c r m).length = 2 * m + 2 := by
  intro m
  induction m with
  | zero => intro r; rfl
  | succ m ih =>
    intro r
    show (stripU c r m.succ).length = _
    simp only [stripU, List.length_cons, ih (r - 1)]
    omega

theorem length_stripD (c : Int) :
    ∀ (m : Nat) (r : Int), (stripD c r m).length = 2 * m + 2 := by
  intro m
  induction m with
  | zero => intro r; rfl
  | succ m ih =>
    intro r
    show (stripD c r m.succ).length = _
    simp only [stripD, List.length_cons, ih (r + 1)]
    omega

theorem mem_stripTrace (w : Int) (hw : 9 ≤ w) (j : Nat) (p : Int × Int) :
    p ∈ stripTrace w j ↔
      (p.2 = cHs w j ∨ p.2 = cHs w j - 1) ∧ 0 ≤ p.1 ∧ p.1 ≤ w - 1 := by
  unfold stripTrace
  by_cases hpar : j % 2 = 0
  · rw [if_pos hpar, mem_stripU]
    constructor <;> rintro ⟨hc, h1, h2⟩ <;> exact ⟨hc, by omega, by omega⟩
  · rw [if_neg hpar, mem_stripD]
    constructor <;> rintro ⟨hc, h1, h2⟩ <;> exact ⟨hc, by omega, by omega⟩

theorem nodup_stripTrace (w : Int) (j : Nat) : (stripTrace w j).Nodup := by
  unfold stripTrace
  by_cases hpar : j % 2 = 0
  · rw [if_pos hpar]
    exact nodup_stripU _ (by omega) _ _
  · rw [if_neg hpar]
    exact nodup_stripD _ (by omega) _ _

theorem length_stripTrace (w : Int) (j : Nat) :
    (stripTrace w j).length = 2 * (w - 1).toNat + 2 := by
  unfold stripTrace
  by_cases hpar : j % 2 = 0
  · rw [if_pos hpar, length_stripU]
  · rw [if_neg hpar, length_stripD]

theorem cHs_strict_anti (w : Int) (hw4 : w % 4 = 1) (j j' : Nat) (hjj : j < j') :
    cHs w j' ≤ cHs w j - 2 := by
  rcases cHs_val w hw4 j with ⟨hs, hv⟩ | ⟨hs, hv⟩ <;>
    rcases cHs_val w hw4 j' with ⟨hs', hv'⟩ | ⟨hs', hv'⟩ <;> omega

theorem nodup_snake_aux (w : Int) (hw4 : w % 4 = 1) (hw : 9 ≤ w) :
    ∀ (n j : Nat), ((List.range' j n).flatMap (stripTrace w)).Nodup := by
  intro n
  induction n with
  | zero => intro j; exact List.nodup_nil
  | succ n ih =>
    intro j
    rw [show List.range' j (n + 1) = j :: List.range' (j + 1) n from rfl,
      List.flatMap_cons]
    refine List.Nodup.append (nodup_stripTrace w j) (ih (j + 1)) ?_
    intro p hp hp'
    obtain ⟨j', hj', hpj'⟩ := List.mem_flatMap.mp hp'
    have hjlt : j < j' := by
      have := List.mem_range'_1.mp hj'
      omega
    have h1 := ((mem_stripTrace w hw j p).mp hp).1
    have h2 := ((mem_stripTrace w hw j' p).mp hpj').1
    have := cHs_strict_anti w hw4 j j' hjlt
    omega

theorem nodup_snake (w : Int) (hw4 : w % 4 = 1) (hw : 9 ≤ w) : (snake w).Nodup := by
  unfold snake
  rw [List.range_eq_range']
  exact nodup_snake_aux w hw4 hw _ 0

theorem length_snake_aux (w : Int) :
    ∀ (n j : Nat), ((List.range' j n).flatMap (stripTrace w)).length
      = n * (2 * (w - 1).toNat + 2) := by
  intro n
  induction n with
  | zero => intro j; simp
  | succ n ih =>
    intro j
    rw [show List.range' j (n + 1) = j :: List.range' (j + 1) n from rfl,
      List.flatMap_cons, List.length_append, length_stripTrace, ih (j + 1)]
    ring

theorem length_snake (w : Int) :
    (snake w).length = ((w - 1) / 2).toNat * (2 * (w - 1).toNat + 2) := by
  unfold snake
  rw [List.range_eq_range']
  exact length_snake_aux w _ 0

theorem mem_snake (w : Int) (hw4 : w % 4 = 1) (hw : 9 ≤ w) (p : Int × Int) :
    p ∈ snake w ↔ 0 ≤ p.1 ∧ p.1 < w ∧ 0 ≤ p.2 ∧ p.2 < w ∧ p.2 ≠ 6 := by
  unfold snake
  rw [List.mem_flatMap]
  constructor
  · rintro ⟨j, hj, hp⟩
    have hjK : (j : Int) ≤ (w - 3) / 2 := by
      have := List.mem_range.mp hj
      omega
    obtain ⟨hc, h1, h2⟩ := (mem_stripTrace w hw j p).mp hp
    rcases cHs_val w hw4 j with ⟨hs, hv⟩ | ⟨hs, hv⟩ <;>
      refine ⟨h1, by omega, by omega, by omega, by omega⟩
  · rintro ⟨h1, h2, h3, h4, h6⟩
    by_cases hside : 7 ≤ p.2
    · refine ⟨((w - 1 - p.2) / 2).toNat, ?_, ?_⟩
      · rw [List.mem_range]
        omega
      · rw [mem_stripTrace w hw]
        refine ⟨?_, h1, by omega⟩
        rcases cHs_val w hw4 ((w - 1 - p.2) / 2).toNat with ⟨hs, hv⟩ | ⟨hs, hv⟩ <;> omega
    · refine ⟨((w - 2 - p.2) / 2).toNat, ?_, ?_⟩
      · rw [List.mem_range]
        omega
      · rw [mem_stripTrace w hw]
        refine ⟨?_, h1, by omega⟩
        rcases cHs_val w hw4 ((w - 2 - p.2) / 2).toNat with ⟨hs, hv⟩ | ⟨hs, hv⟩ <;> omega


theorem snake_length_eq (W : Nat) (hW : 9 ≤ W) (hodd : W % 2 = 1) :
    (snake (W : Int)).length = W * (W - 1) := by
  rw [length_snake]
  have h1 : (((W : Int) - 1) / 2).toNat = (W - 1) / 2 := by omega
  have h2 : ((W : Int) - 1).toNat = W - 1 := by omega
  rw [h1, h2, show 2 * (W - 1) + 2 = 2 * W by omega,
    show (W - 1) / 2 * (2 * W) = 2 * ((W - 1) / 2) * W by ring,
    show 2 * ((W - 1) / 2) = W - 1 by omega, Nat.mul_comm]

/-- **C4.** For every Normal version `1..=40` with width `w`, the encoding
region iterator started at `(w-1, w-1)` yields exactly the cells of the
`w × w` grid outside the vertical timing column 6 — every such cell exactly
once, `w * (w - 1)` cells in total — and it terminates with the column
cursor negative (`next` returns `None`). -/
theorem enc_region_iter_C4 (v : Nat) (h1 : 1 ≤ v) (h40 : v ≤ 40) :
    (∀ p : Int × Int, p ∈ encTrace (Version.Normal v) ↔
      (0 ≤ p.1 ∧ p.1 < ((Version.Normal v).width : Int) ∧
       0 ≤ p.2 ∧ p.2 < ((Version.Normal v).width : Int) ∧ p.2 ≠ 6)) ∧
    (encTrace (Version.Normal v)).Nodup ∧
    (encTrace (Version.Normal v)).length
      = (Version.Normal v).width * ((Version.Normal v).width - 1) ∧
    (encEnd (Version.Normal v)).c < 0 ∧
    (encEnd (Version.Normal v)).next = none := by
  have hWv : (Version.Normal v).width = v * 4 + 17 := rfl
  have hw4 : ((Version.Normal v).width : Int) % 4 = 1 := by omega
  have hw9 : 9 ≤ ((Version.Normal v).width : Int) := by omega
  have hy := yields_snake ((Version.Normal v).width : Int) hw4 hw9
  have hnone : (iSt ((Version.Normal v).width : Int)
      (((Version.Normal v).width : Int) - 1) (-1)).next = none := by
    unfold iSt EncRegionIter.next
    exact if_pos (by norm_num)
  have hlen := snake_length_eq (Version.Normal v).width (by omega) (by omega)
  obtain ⟨ht, he⟩ := hy.traceAux hnone
    ((Version.Normal v).width * ((Version.Normal v).width - 1)) (le_of_eq hlen)
  have hstart : EncRegionIter.new (Version.Normal v)
      = iSt ((Version.Normal v).width : Int)
        (((Version.Normal v).width : Int) - 1)
        (((Version.Normal v).width : Int) - 1) := rfl
  unfold encTrace encEnd
  rw [hstart, ht, he]
  refine ⟨fun p => mem_snake _ hw4 hw9 p, nodup_snake _ hw4 hw9, hlen, ?_, hnone⟩
  show (-1 : Int) < 0
  omega

theorem enc_region_iter_C4_witness :
    (1 ≤ 1 ∧ (1 : Nat) ≤ 40) ∧ (encTrace (Version.Normal 1)).Nodup :=
  ⟨⟨le_refl 1, by omega⟩, (enc_region_iter_C4 1 (le_refl 1) (by omega)).2.1⟩

end QR2

namespace QR5

/-! ## Colors and modules (`src/types.rs`, `src/render.rs`) -/

/-- `Color` from `src/types.rs`. -/
inductive Color where
  | Light
  | Dark
  | Hue (h : Nat)
deriving DecidableEq

/-- `Not for Color` (`!h` on a `u32` hue). -/
def Color.not : Color → Color
  | Color.Light => Color.Dark
  | Color.Dark => Color.Light
  | Color.Hue h => Color.Hue ((2 ^ 32 - 1) - h)

/-- `Module` from `src/render.rs`. -/
inductive Module where
  | Empty
  | Func (c : Color)
  | Version (c : Color)
  | Format (c : Color)
  | Palette (c : Color)
  | Data (c : Color)
deriving DecidableEq

/-- `Deref for Module`: an `Empty` module reads as `Dark`. -/
def Module.deref : Module → Color
  | Module.Empty => Color.Dark
  | Module.Func c => c
  | Module.Version c => c
  | Module.Format c => c
  | Module.Palette c => c
  | Module.Data c => c

/-! ## Mask predicates (`mask_functions` in `src/common/mask.rs`)

The eight mask functions take `i16` coordinates; every caller passes
`0 <= r, c < width`, so they are embedded over `Nat`. -/

/-- `MaskPattern::mask_functions`: mask predicate of pattern `m` at `(r, c)`. -/
def maskFun (m r c : Nat) : Bool :=
  match m with
  | 0 => (r + c) &&& 1 == 0
  | 1 => r &&& 1 == 0
  | 2 => c % 3 == 0
  | 3 => (r + c) % 3 == 0
  | 4 => ((r >>> 1) + (c / 3)) &&& 1 == 0
  | 5 => ((r * c) &&& 1) + ((r * c) % 3) == 0
  | 6 => (((r * c) &&& 1) + ((r * c) % 3)) &&& 1 == 0
  | _ => (((r + c) &&& 1) + ((r * c) % 3)) &&& 1 == 0

/-! ## The QR matrix (`src/render.rs`, grid of `Module`) -/

inductive Version where
  | Micro (v : Nat)
  | Normal (v : Nat)
deriving DecidableEq

def Version.width : Version → Nat
  | Version.Micro v => v * 2 + 9
  | Version.Normal v => v * 4 + 17

inductive ECLevel where
  | L
  | M
  | Q
  | H
deriving DecidableEq

/-- The QR matrix under construction: version, width, EC level and the
row-major module grid (`src/render.rs`, `struct QR`). -/
structure QRM where
  version : Version
  width : Nat
  ecLevel : ECLevel
  grid : List Module
deriving DecidableEq

/-- `QR::coord_to_index`: negative coordinates wrap from the right/bottom
edge (callers keep `-w <= r, c < w`). -/
def coordToIndex (w : Nat) (r c : Int) : Nat :=
  ((if r < 0 then r + w else r) * w + (if c < 0 then c + w else c)).toNat

/-- `QR::get` (row-major lookup; in-bounds callers only). -/
def QRM.get (qr : QRM) (r c : Int) : Module :=
  qr.grid.getD (coordToIndex qr.width r c) Module.Empty

/-- `QR::set`. -/
def QRM.set (qr : QRM) (r c : Int) (m : Module) : QRM :=
  { qr with grid := qr.grid.set (coordToIndex qr.width r c) m }

/-- Color of the module at `(r, c)` (the `*qr.get(r, c)` deref reads). -/
def QRM.colorAt (qr : QRM) (r c : Nat) : Color :=
  (qr.get r c).deref

/-! ## Adjacency penalty (`compute_adjacent_penalty` in `src/common/mask.rs`)

The scanner state for one line is `(last color, current run length)`; the
column scanners live in the `cols` vector, one per column. -/

/-- One scanner step: `if last != clr { last = clr; consec = 0 } consec += 1`. -/
def scanStep (st : Color × Nat) (clr : Color) : Color × Nat :=
  if st.1 ≠ clr then (clr, 1) else (st.1, st.2 + 1)

/-- Penalty contributed by one scanner step:
`if consec >= 5 { pen += consec - 2 }`. -/
def stepPen (st : Color × Nat) (clr : Color) : Nat :=
  if 5 ≤ (scanStep st clr).2 then (scanStep st clr).2 - 2 else 0

/-- Inner loop of `compute_adjacent_penalty` over the columns of row `r`:
state is `(pen, row scanner, column scanners)`. -/
def adjCells (g : Nat → Nat → Color) (r : Nat) :
    List Nat → Nat × (Color × Nat) × List (Color × Nat)
      → Nat × (Color × Nat) × List (Color × Nat)
  | [], st => st
  | c :: cs, (pen, rst, cols) =>
    adjCells g r cs
      (pen + stepPen rst (g r c) + stepPen (cols.getD c (Color.Dark, 0)) (g r c),
       scanStep rst (g r c),
       cols.set c (scanStep (cols.getD c (Color.Dark, 0)) (g r c)))

/-- Outer loop of `compute_adjacent_penalty` over the rows. -/
def adjRows (g : Nat → Nat → Color) (w : Nat) :
    List Nat → Nat × List (Color × Nat) → Nat × List (Color × Nat)
  | [], st => st
  | r :: rs, (pen, cols) =>
    adjRows g w rs
      ((adjCells g r (List.range w) (pen, (Color.Dark, 0), cols)).1,
       (adjCells g r (List.range w) (pen, (Color.Dark, 0), cols)).2.2)

/-- `compute_adjacent_penalty` over a `w × w` color grid. -/
def computeAdjacentPenalty (w : Nat) (g : Nat → Nat → Color) : Nat :=
  (adjRows g w (List.range w) (0, List.replicate w (Color.Dark, 0))).1

/-! ## Other penalty components (`src/common/mask.rs`) -/

/-- `compute_block_penalty`: 3 per 2x2 block of one color. -/
def computeBlockPenalty (w : Nat) (g : Nat → Nat → Color) : Nat :=
  ((List.range (w - 1)).map (fun r =>
    ((List.range (w - 1)).map (fun c =>
      if g r c = g (r + 1) c ∧ g r c = g r (c + 1) ∧ g r c = g (r + 1) (c + 1)
      then 3 else 0)).sum)).sum

/-- The 1:1:3:1:1 finder pattern of `compute_finder_pattern_penalty`. -/
def finderPattern : List Color :=
  [Color.Dark, Color.Light, Color.Dark, Color.Dark, Color.Dark, Color.Light, Color.Dark]

/-- Quiet-zone probe `match_qz`: `x >= 0 && x < w && get(x) == Dark`. -/
def matchQz (w : Nat) (line : Nat → Color) (x : Int) : Bool :=
  0 ≤ x ∧ x < (w : Int) ∧ line x.toNat = Color.Dark

/-- `compute_finder_pattern_penalty` along one line: 40 per window matching
the finder pattern with a dark module in either quiet zone. -/
def finderLinePen (w : Nat) (line : Nat → Color) : Nat :=
  ((List.range (w - 6)).map (fun j =>
    if (List.range 7).map (fun k => line (j + k)) = finderPattern then
      if ((List.range 4).map (fun k => (j : Int) - 4 + k)
            ++ (List.range 4).map (fun k => (j : Int) + 7 + k)).any (matchQz w line)
      then 40 else 0
    else 0)).sum

/-- `compute_finder_pattern_penalty` for the horizontal (`is_hor = true`) or
vertical orientation. -/
def computeFinderPatternPenalty (w : Nat) (g : Nat → Nat → Color) (isHor : Bool) : Nat :=
  ((List.range w).map (fun i =>
    finderLinePen w (fun x => if isHor then g i x else g x i))).sum

/-- `QR::count_dark_modules`. -/
def QRM.countDarkModules (qr : QRM) : Nat :=
  (qr.grid.filter (fun m => m.deref = Color.Dark)).length

/-- `compute_balance_penalty`. -/
def computeBalancePenalty (qr : QRM) : Nat :=
  if qr.countDarkModules * 200 / (qr.width * qr.width) < 100 then
    100 - qr.countDarkModules * 200 / (qr.width * qr.width)
  else
    qr.countDarkModules * 200 / (qr.width * qr.width) - 100

/-- Body of `compute_total_penalty` in the `Normal` arm. -/
def penNormal (qr : QRM) : Nat :=
  computeAdjacentPenalty qr.width qr.colorAt
    + computeBlockPenalty qr.width qr.colorAt
    + computeFinderPatternPenalty qr.width qr.colorAt true
    + computeFinderPatternPenalty qr.width qr.colorAt false
    + computeBalancePenalty qr

/-- `compute_total_penalty`: `todo!()` (a panic, hence `none`) for Micro
symbols. -/
def computeTotalPenalty (qr : QRM) : Option Nat :=
  match qr.version with
  | Version.Micro _ => none
  | Version.Normal _ => some (penNormal qr)

/-- Modelled from the spec: `QR::apply_mask` (its source file is not in the
snapshot) flips exactly the `Data` modules at coordinates where the mask
predicate holds; all other modules are untouched. -/
def applyMask (qr : QRM) (m : Nat) : QRM :=
  { qr with grid := (List.range (qr.width * qr.width)).map (fun i =>
      match qr.grid.getD i Module.Empty with
      | Module.Data clr =>
        if maskFun m (i / qr.width) (i % qr.width) then Module.Data clr.not
        else Module.Data clr
      | mod => mod) }

/-- `Iterator::min_by_key`: first element minimising the key. -/
def minByKey {α : Type} (key : α → Nat) : List α → Option α
  | [] => none
  | x :: xs => some (xs.foldl (fun best y => if key y < key best then y else best) x)

/-- `apply_best_mask`: evaluate all eight masks on clones, keep the first
minimiser, apply it; the Micro arm of `compute_total_penalty` panics. -/
def applyBestMask (qr : QRM) : Option (Nat × QRM) :=
  match qr.version with
  | Version.Micro _ => none
  | Version.Normal _ =>
    match minByKey (fun m => penNormal (applyMask qr m)) (List.range 8) with
    | none => none
    | some m => some (m, applyMask qr m)

/-! ## First-minimum characterisation of `min_by_key` -/

theorem minByKey_first {α : Type} (key : α → Nat) :
    ∀ (xs : List α) (x : α), ∃ r i, minByKey key (x :: xs) = some r
      ∧ (x :: xs).get? i = some r
      ∧ (∀ j z, j < i → (x :: xs).get? j = some z → key r < key z)
      ∧ (∀ z ∈ x :: xs, key r ≤ key z) := by
  intro xs
  induction xs with
  | nil =>
    intro x
    refine ⟨x, 0, rfl, rfl, ?_, ?_⟩
    · intro j z hj
      omega
    · intro z hz
      rw [List.mem_singleton.mp hz]
  | cons y ys ih =>
    intro x
    by_cases h : key y < key x
    · obtain ⟨r, i, hr, hget, hpre, hall⟩ := ih y
      refine ⟨r, i + 1, ?_, hget, ?_, ?_⟩
      · simpa [minByKey, h] using hr
      · intro j z hj hz
        cases j with
        | zero =>
          have hle := hall y (List.mem_cons_self y ys)
          cases hz
          omega
        | succ j => exact hpre j z (by omega) hz
      · intro z hz
        rcases List.mem_cons.mp hz with h1 | h1
        · subst h1
          have := hall y (List.mem_cons_self y ys)
          omega
        · exact hall z h1
    · obtain ⟨r, i, hr, hget, hpre, hall⟩ := ih x
      have hfold : minByKey key (x :: y :: ys) = minByKey key (x :: ys) := by
        simp [minByKey, h]
      cases i with
      | zero =>
        refine ⟨r, 0, ?_, hget, ?_, ?_⟩
        · rw [hfold, hr]
        · intro j z hj
          omega
        · intro z hz
          rcases List.mem_cons.mp hz with h1 | h1
          · rw [h1]
            exact hall x (List.mem_cons_self x ys)
          rcases List.mem_cons.mp h1 with h2 | h2
          · rw [h2]
            have hx := hall x (List.mem_cons_self x ys)
            omega
          · exact hall z (List.mem_cons_of_mem x h2)
      | succ i =>
        refine ⟨r, i + 2, ?_, hget, ?_, ?_⟩
        · rw [hfold, hr]
        · intro j z hj hz
          cases j with
          | zero =>
            have hzx : z = x := by simpa using hz.symm
            rw [hzx]
            exact hpre 0 x (by omega) rfl
          | succ j =>
            cases j with
            | zero =>
              have hrx : key r < key x := hpre 0 x (by omega) rfl
              have hzy : z = y := by simpa using hz.symm
              rw [hzy]
              omega
            | succ j => exact hpre (j + 1) z (by omega) hz
        · intro z hz
          rcases List.mem_cons.mp hz with h1 | h1
          · rw [h1]
            exact hall x (List.mem_cons_self x ys)
          rcases List.mem_cons.mp h1 with h2 | h2
          · rw [h2]
            have hx := hall x (List.mem_cons_self x ys)
            have hrx : key r < key x := hpre 0 x (by omega) rfl
            omega
          · exact hall z (List.mem_cons_of_mem x h2)


theorem get?_range8 : ∀ j < 8, ([0, 1, 2, 3, 4, 5, 6, 7] : List Nat).get? j = some j := by
  decide

/-- **C5.** For a Normal-version matrix, `apply_best_mask` returns a pattern
`m < 8` whose applied-matrix total penalty is minimal among all eight
patterns, with ties broken towards the numerically smallest index, and the
matrix it returns alongside is the input with exactly that mask applied
(on Micro symbols `compute_total_penalty` is `todo!()`, so the whole call
panics, modelled by `none`). -/
theorem apply_best_mask_C5 (qr : QRM) (v : Nat) (hver : qr.version = Version.Normal v) :
    ∃ m qr2, applyBestMask qr = some (m, qr2) ∧ m < 8 ∧ qr2 = applyMask qr m
      ∧ (∀ m2, m2 < 8 →
          computeTotalPenalty (applyMask qr m2) = some (penNormal (applyMask qr m2)))
      ∧ (∀ m2, m2 < 8 → penNormal (applyMask qr m) ≤ penNormal (applyMask qr m2))
      ∧ (∀ m2, m2 < 8 → penNormal (applyMask qr m2) = penNormal (applyMask qr m)
          → m ≤ m2) := by
  obtain ⟨r, i, hmin, hget, hpre, hall⟩ :=
    minByKey_first (fun m => penNormal (applyMask qr m)) [1, 2, 3, 4, 5, 6, 7] 0
  have hrange : (List.range 8 : List Nat) = 0 :: [1, 2, 3, 4, 5, 6, 7] := by decide
  have hlt : i < 8 := by
    have := List.get?_eq_some.mp hget
    simpa using this.1
  have hri : r = i := by
    have := get?_range8 i hlt
    rw [this] at hget
    exact (Option.some_inj.mp hget).symm
  have hr8 : r < 8 := by omega
  refine ⟨r, applyMask qr r, ?_, hr8, rfl, ?_, ?_, ?_⟩
  · unfold applyBestMask
    rw [hver, hrange, hmin]
  · intro m2 hm2
    have hv2 : (applyMask qr m2).version = Version.Normal v := hver
    unfold computeTotalPenalty
    rw [hv2]
  · intro m2 hm2
    exact hall m2 (by rw [← hrange]; exact List.mem_range.mpr hm2)
  · intro m2 hm2 heq
    by_contra hcon
    have hm2r : m2 < i := by omega
    have hstep := hpre m2 m2 hm2r (get?_range8 m2 (by omega))
    omega


theorem apply_best_mask_C5_witness :
    (QRM.mk (Version.Normal 1) 21 ECLevel.L (List.replicate 441 Module.Empty)).version
        = Version.Normal 1
      ∧ ∃ m qr2, applyBestMask
          (QRM.mk (Version.Normal 1) 21 ECLevel.L (List.replicate 441 Module.Empty))
          = some (m, qr2) :=
  ⟨rfl, by
    obtain ⟨m, qr2, h, -⟩ := apply_best_mask_C5
      (QRM.mk (Version.Normal 1) 21 ECLevel.L (List.replicate 441 Module.Empty)) 1 rfl
    exact ⟨m, qr2, h⟩⟩

/-! ## Run-length structure of the adjacency scanner (for C2) -/

/-- Penalty of a single line of colors, scanned left to right from state
`st`. -/
def linePen (st : Color × Nat) : List Color → Nat
  | [] => 0
  | c :: cs => stepPen st c + linePen (scanStep st c) cs

theorem linePen_cons (st : Color × Nat) (x : Color) (xs : List Color) :
    linePen st (x :: xs) = stepPen st x + linePen (scanStep st x) xs := rfl

/-- Lengths of the maximal runs of equal colors. -/
def runsAux : Color → Nat → List Color → List Nat
  | _, n, [] => [n]
  | last, n, c :: cs => if c = last then runsAux last (n + 1) cs else n :: runsAux c 1 cs

def runLengths : List Color → List Nat
  | [] => []
  | c :: cs => runsAux c 1 cs

/-- What one maximal run of length `L` actually contributes: the scanner
adds `k - 2` at every prefix length `5 ≤ k ≤ L`. -/
def runContribution (l : Nat) : Nat :=
  if 5 ≤ l then (l - 2) * (l - 1) / 2 - 3 else 0

/-- What the spec says one maximal run of length `L` contributes. -/
def specRunContribution (l : Nat) : Nat :=
  if 5 ≤ l then l - 2 else 0

/-- Spec reading of the adjacency penalty: `run_length - 2` once per maximal
run of length at least 5, over all rows and columns. -/
def specAdjacentPenalty (w : Nat) (g : Nat → Nat → Color) : Nat :=
  ((List.range w).map (fun r =>
    ((runLengths ((List.range w).map (g r))).map specRunContribution).sum)).sum
    + ((List.range w).map (fun c =>
      ((runLengths ((List.range w).map (fun r => g r c))).map specRunContribution).sum)).sum

/-- Penalty of the cumulative scanner over all rows and columns, expressed
per maximal run. -/
def runAdjacentPenalty (w : Nat) (g : Nat → Nat → Color) : Nat :=
  ((List.range w).map (fun r =>
    ((runLengths ((List.range w).map (g r))).map runContribution).sum)).sum
    + ((List.range w).map (fun c =>
      ((runLengths ((List.range w).map (fun r => g r c))).map runContribution).sum)).sum


/-- Per-step penalty as a function of the new run length. -/
def pen5 (k : Nat) : Nat := if 5 ≤ k then k - 2 else 0

/-- Scanner penalty of steps `n+1 .. n+m` inside one run. -/
def sumPen5 (n m : Nat) : Nat := ((List.range m).map (fun t => pen5 (n + 1 + t))).sum

theorem stepPen_same (a : Color) (n : Nat) : stepPen (a, n) a = pen5 (n + 1) := by
  unfold stepPen scanStep pen5
  simp

theorem scanStep_same (a : Color) (n : Nat) : scanStep (a, n) a = (a, n + 1) := by
  unfold scanStep
  simp

theorem stepPen_ne (a c : Color) (n : Nat) (h : a ≠ c) : stepPen (a, n) c = 0 := by
  unfold stepPen scanStep
  simp [h]

theorem scanStep_ne (a c : Color) (n : Nat) (h : a ≠ c) : scanStep (a, n) c = (c, 1) := by
  unfold scanStep
  simp [h]

theorem sumPen5_top (n m : Nat) : sumPen5 n (m + 1) = sumPen5 n m + pen5 (n + 1 + m) := by
  unfold sumPen5
  rw [List.range_succ, List.map_append, List.sum_append]
  rfl

/-- The scanner's penalty over a line, decomposed over the maximal runs:
being `n` deep inside a run, the rest contributes `runsAux`-wise. -/
theorem linePen_runsAux : ∀ (cs : List Color) (a : Color) (n : Nat),
    linePen (a, n) cs + sumPen5 0 n = ((runsAux a n cs).map (sumPen5 0)).sum := by
  intro cs
  induction cs with
  | nil =>
    intro a n
    simp [linePen, runsAux]
  | cons c cs ih =>
    intro a n
    by_cases h : c = a
    · subst h
      have hr : runsAux c n (c :: cs) = runsAux c (n + 1) cs := by
        show (if c = c then runsAux c (n + 1) cs else n :: runsAux c 1 cs) = _
        rw [if_pos rfl]
      rw [hr]
      show stepPen (c, n) c + linePen (scanStep (c, n) c) cs + sumPen5 0 n
        = ((runsAux c (n + 1) cs).map (sumPen5 0)).sum
      rw [stepPen_same, scanStep_same, ← ih c (n + 1)]
      have : sumPen5 0 (n + 1) = sumPen5 0 n + pen5 (0 + 1 + n) := sumPen5_top 0 n
      have h2 : pen5 (0 + 1 + n) = pen5 (n + 1) := by
        congr 1
        omega
      omega
    · show stepPen (a, n) c + linePen (scanStep (a, n) c) cs + sumPen5 0 n
        = ((runsAux a n (c :: cs)).map (sumPen5 0)).sum
      rw [stepPen_ne a c n (fun hh => h hh.symm), scanStep_ne a c n (fun hh => h hh.symm)]
      show 0 + linePen (c, 1) cs + sumPen5 0 n
        = (((if c = a then runsAux a (n + 1) cs else n :: runsAux c 1 cs)).map
            (sumPen5 0)).sum
      rw [if_neg h, List.map_cons, List.sum_cons, ← ih c 1]
      have h1 : sumPen5 0 1 = 0 := by decide
      omega

theorem linePen_runs (cs : List Color) (last : Color) :
    linePen (last, 0) cs = ((runLengths cs).map (sumPen5 0)).sum := by
  cases cs with
  | nil => rfl
  | cons c cs =>
    show stepPen (last, 0) c + linePen (scanStep (last, 0) c) cs
      = ((runsAux c 1 cs).map (sumPen5 0)).sum
    have hstep : stepPen (last, 0) c = 0 := by
      unfold stepPen scanStep
      by_cases h : last = c <;> simp [h]
    have hscan : scanStep (last, 0) c = (c, 1) := by
      unfold scanStep
      by_cases h : last = c
      · subst h
        simp
      · simp [h]
    rw [hstep, hscan, ← linePen_runsAux cs c 1]
    have h1 : sumPen5 0 1 = 0 := by decide
    omega

theorem sumPen5_eq_runContribution : ∀ l, sumPen5 0 l = runContribution l := by
  intro l
  induction l with
  | zero => decide
  | succ l ih =>
    have hs : sumPen5 0 (l + 1) = sumPen5 0 l + pen5 (0 + 1 + l) := sumPen5_top 0 l
    by_cases h5 : 5 ≤ l + 1
    · by_cases h6 : 5 ≤ l
      · rw [hs, ih]
        unfold runContribution pen5
        rw [if_pos h6, if_pos h5, if_pos (by omega : 5 ≤ 0 + 1 + l)]
        obtain ⟨m, rfl⟩ : ∃ m, l = m + 5 := ⟨l - 5, by omega⟩
        rw [show m + 5 - 2 = m + 3 by omega, show m + 5 - 1 = m + 4 by omega,
          show 0 + 1 + (m + 5) - 2 = m + 4 by omega,
          show m + 5 + 1 - 2 = m + 4 by omega, show m + 5 + 1 - 1 = m + 5 by omega]
        have hev : (m + 4) * (m + 5) = (m + 3) * (m + 4) + (m + 4) * 2 := by ring
        rw [hev, Nat.add_mul_div_right _ _ (by omega : 0 < 2)]
        have hge : 3 ≤ (m + 3) * (m + 4) / 2 := by
          have : 6 ≤ (m + 3) * (m + 4) := by nlinarith
          omega
        omega
      · have hl : l = 4 := by omega
        subst hl
        decide
    · rw [hs, ih]
      unfold runContribution pen5
      rw [if_neg (by omega : ¬ 5 ≤ l), if_neg (by omega : ¬ 5 ≤ 0 + 1 + l),
        if_neg h5]


theorem sum_map_add {α : Type} (l : List α) (f g : α → Nat) :
    (l.map (fun x => f x + g x)).sum = (l.map f).sum + (l.map g).sum := by
  induction l with
  | nil => rfl
  | cons x xs ih =>
    simp only [List.map_cons, List.sum_cons, ih]
    omega

theorem adjCells_len (g : Nat → Nat → Color) (r : Nat) :
    ∀ (cs : List Nat) (pen : Nat) (rst : Color × Nat) (cols : List (Color × Nat)),
      (adjCells g r cs (pen, rst, cols)).2.2.length = cols.length := by
  intro cs
  induction cs with
  | nil => intro pen rst cols; rfl
  | cons c cs ih =>
    intro pen rst cols
    show (adjCells g r cs _).2.2.length = _
    rw [ih]
    simp

theorem adjCells_pen (g : Nat → Nat → Color) (r : Nat) :
    ∀ (cs : List Nat) (pen : Nat) (rst : Color × Nat) (cols : List (Color × Nat)),
      cs.Nodup →
      (adjCells g r cs (pen, rst, cols)).1
        = pen + linePen rst (cs.map (g r))
          + (cs.map (fun c => stepPen (cols.getD c (Color.Dark, 0)) (g r c))).sum := by
  intro cs
  induction cs with
  | nil =>
    intro pen rst cols _
    simp [adjCells, linePen]
  | cons c cs ih =>
    intro pen rst cols hnd
    obtain ⟨hc, hnd'⟩ := List.nodup_cons.mp hnd
    show (adjCells g r cs _).1 = _
    rw [ih _ _ _ hnd']
    have hcong : cs.map (fun c2 =>
        stepPen ((cols.set c (scanStep (cols.getD c (Color.Dark, 0)) (g r c))).getD c2
          (Color.Dark, 0)) (g r c2))
        = cs.map (fun c2 => stepPen (cols.getD c2 (Color.Dark, 0)) (g r c2)) := by
      refine List.map_congr_left ?_
      intro c2 hc2
      have hne : c ≠ c2 := fun hh => hc (hh ▸ hc2)
      rw [List.getD_eq_getElem?_getD, List.getElem?_set_ne hne,
        ← List.getD_eq_getElem?_getD]
    rw [hcong]
    simp only [List.map_cons, List.sum_cons, linePen_cons]
    omega

theorem adjCells_colstate (g : Nat → Nat → Color) (r : Nat) :
    ∀ (cs : List Nat) (pen : Nat) (rst : Color × Nat) (cols : List (Color × Nat)),
      cs.Nodup → (∀ c ∈ cs, c < cols.length) →
      ∀ x, (adjCells g r cs (pen, rst, cols)).2.2.getD x (Color.Dark, 0)
        = if x ∈ cs then scanStep (cols.getD x (Color.Dark, 0)) (g r x)
          else cols.getD x (Color.Dark, 0) := by
  intro cs
  induction cs with
  | nil =>
    intro pen rst cols _ _ x
    simp [adjCells]
  | cons c cs ih =>
    intro pen rst cols hnd hlt x
    obtain ⟨hc, hnd'⟩ := List.nodup_cons.mp hnd
    show (adjCells g r cs _).2.2.getD x (Color.Dark, 0) = _
    rw [ih _ _ _ hnd' (by intro c2 hc2; rw [List.length_set]; exact hlt c2 (List.mem_cons_of_mem c hc2)) x]
    by_cases hx : x ∈ cs
    · rw [if_pos hx, if_pos (List.mem_cons_of_mem c hx)]
      have hne : c ≠ x := fun hh => hc (hh ▸ hx)
      rw [List.getD_eq_getElem?_getD, List.getElem?_set_ne hne,
        ← List.getD_eq_getElem?_getD]
    · rw [if_neg hx]
      by_cases hxc : x = c
      · subst hxc
        rw [if_pos (List.mem_cons_self x cs), List.getD_eq_getElem?_getD,
          List.getElem?_set_self (hlt x (List.mem_cons_self x cs))]
        rfl
      · rw [if_neg (by simp [hxc, hx]), List.getD_eq_getElem?_getD,
          List.getElem?_set_ne (fun hh => hxc hh.symm), ← List.getD_eq_getElem?_getD]

theorem adjRows_pen (g : Nat → Nat → Color) (w : Nat) :
    ∀ (rs : List Nat) (pen : Nat) (cols : List (Color × Nat)), cols.length = w →
      (adjRows g w rs (pen, cols)).1
        = pen
          + (rs.map (fun r => linePen (Color.Dark, 0) ((List.range w).map (g r)))).sum
          + ((List.range w).map (fun c =>
              linePen (cols.getD c (Color.Dark, 0)) (rs.map (fun r => g r c)))).sum := by
  intro rs
  induction rs with
  | nil =>
    intro pen cols hlen
    simp [adjRows, linePen]
  | cons r rs ih =>
    intro pen cols hlen
    show (adjRows g w rs (_, _)).1 = _
    rw [ih _ _ (by rw [adjCells_len]; exact hlen)]
    rw [adjCells_pen g r (List.range w) pen (Color.Dark, 0) cols (List.nodup_range w)]
    have hcols : (List.range w).map (fun c =>
        linePen ((adjCells g r (List.range w) (pen, (Color.Dark, 0), cols)).2.2.getD c
          (Color.Dark, 0)) (rs.map (fun r2 => g r2 c)))
        = (List.range w).map (fun c =>
          linePen (scanStep (cols.getD c (Color.Dark, 0)) (g r c))
            (rs.map (fun r2 => g r2 c))) := by
      refine List.map_congr_left ?_
      intro c hcr
      rw [adjCells_colstate g r (List.range w) pen (Color.Dark, 0) cols
        (List.nodup_range w) (by intro c2 hc2; rw [hlen]; exact List.mem_range.mp hc2) c]
      rw [if_pos hcr]
    rw [hcols]
    have hsplit : (List.range w).map (fun c =>
        linePen (cols.getD c (Color.Dark, 0)) ((r :: rs).map (fun r2 => g r2 c)))
        = (List.range w).map (fun c =>
          stepPen (cols.getD c (Color.Dark, 0)) (g r c)
            + linePen (scanStep (cols.getD c (Color.Dark, 0)) (g r c))
                (rs.map (fun r2 => g r2 c))) := by
      refine List.map_congr_left ?_
      intro c _
      rfl
    rw [List.map_cons, List.sum_cons, hsplit, sum_map_add]
    omega

theorem computeAdjacentPenalty_split (w : Nat) (g : Nat → Nat → Color) :
    computeAdjacentPenalty w g
      = ((List.range w).map (fun r =>
          linePen (Color.Dark, 0) ((List.range w).map (g r)))).sum
        + ((List.range w).map (fun c =>
          linePen (Color.Dark, 0) ((List.range w).map (fun r => g r c)))).sum := by
  unfold computeAdjacentPenalty
  rw [adjRows_pen g w (List.range w) 0 (List.replicate w (Color.Dark, 0))
    (List.length_replicate w _)]
  have hrep : (List.range w).map (fun c =>
      linePen ((List.replicate w (Color.Dark, 0)).getD c (Color.Dark, 0))
        ((List.range w).map (fun r => g r c)))
      = (List.range w).map (fun c =>
        linePen (Color.Dark, 0) ((List.range w).map (fun r => g r c))) := by
    refine List.map_congr_left ?_
    intro c _
    congr 1
    rw [List.getD_eq_getElem?_getD, List.getElem?_replicate]
    by_cases hc : c < w
    · rw [if_pos hc]
      rfl
    · rw [if_neg hc]
      rfl
  rw [hrep]
  omega


/-- **C2** (amended). The adjacency penalty is cumulative: a maximal run of
`L ≥ 5` equal modules in a row or column contributes
`(L-2)(L-1)/2 - 3 = Σ_{k=5..L} (k-2)`, not `L - 2` as the spec reads.
This theorem gives the exact per-run decomposition of
`compute_adjacent_penalty`. -/
theorem adjacent_penalty_C2 (w : Nat) (g : Nat → Nat → Color) :
    computeAdjacentPenalty w g = runAdjacentPenalty w g := by
  rw [computeAdjacentPenalty_split]
  unfold runAdjacentPenalty
  congr 1
  · refine congrArg List.sum (List.map_congr_left ?_)
    intro r _
    rw [linePen_runs _ Color.Dark]
    exact congrArg List.sum
      (List.map_congr_left (fun l _ => sumPen5_eq_runContribution l))
  · refine congrArg List.sum (List.map_congr_left ?_)
    intro c _
    rw [linePen_runs _ Color.Dark]
    exact congrArg List.sum
      (List.map_congr_left (fun l _ => sumPen5_eq_runContribution l))

set_option maxRecDepth 10000 in
/-- **C2** counterexample: on the all-dark 21-wide matrix the code's
adjacency penalty is 7854, while the spec's once-per-run reading gives
798. -/
theorem adjacent_penalty_C2_counterexample :
    computeAdjacentPenalty 21 (fun _ _ => Color.Dark) = 7854
      ∧ specAdjacentPenalty 21 (fun _ _ => Color.Dark) = 798
      ∧ computeAdjacentPenalty 21 (fun _ _ => Color.Dark)
          ≠ specAdjacentPenalty 21 (fun _ _ => Color.Dark) := by
  refine ⟨by decide, by decide, by decide⟩


/-! ## `draw_mask_pattern` (`src/render.rs`) and format info (`src/types.rs`) -/

/-- `FORMAT_INFOS_QR` from `src/types.rs`. -/
def FORMAT_INFOS_QR : List Nat :=
  [0x5412, 0x5125, 0x5e7c, 0x5b4b, 0x45f9, 0x40ce, 0x4f97, 0x4aa0,
   0x77c4, 0x72f3, 0x7daa, 0x789d, 0x662f, 0x6318, 0x6c41, 0x6976,
   0x1689, 0x13be, 0x1ce7, 0x19d0, 0x0762, 0x0255, 0x0d0c, 0x083b,
   0x355f, 0x3068, 0x3f31, 0x3a06, 0x24b4, 0x2183, 0x2eda, 0x2bed]

def eclIndex : ECLevel → Nat
  | ECLevel.L => 0
  | ECLevel.M => 1
  | ECLevel.Q => 2
  | ECLevel.H => 3

/-- `get_format_info` (`src/types.rs`), Normal arm:
`FORMAT_INFOS_QR[((ec_level ^ 1) << 3) | mask]`. -/
def getFormatInfo (ecl : ECLevel) (mask : Nat) : Nat :=
  FORMAT_INFOS_QR.getD (((eclIndex ecl ^^^ 1) <<< 3) ||| mask) 0

/-- `FORMAT_INFO_COORDS_QR_MAIN` (`src/render.rs`). -/
def mainCoords : List (Int × Int) :=
  [(0, 8), (1, 8), (2, 8), (3, 8), (4, 8), (5, 8), (7, 8), (8, 8), (8, 7),
   (8, 5), (8, 4), (8, 3), (8, 2), (8, 1), (8, 0)]

/-- `FORMAT_INFO_COORDS_QR_SIDE` (`src/render.rs`). -/
def sideCoords : List (Int × Int) :=
  [(8, -1), (8, -2), (8, -3), (8, -4), (8, -5), (8, -6), (8, -7),
   (-8, 8), (-7, 8), (-6, 8), (-5, 8), (-4, 8), (-3, 8), (-2, 8), (-1, 8)]

/-- `QR::draw_number`: walk the coordinates with a sliding one-bit mask,
setting the off/on module per bit. -/
def drawNumAux (number : Nat) (offC onC : Module) :
    List (Int × Int) → Nat → QRM → QRM
  | [], _, qr => qr
  | (r, c) :: rest, mask, qr =>
    drawNumAux number offC onC rest (mask >>> 1)
      (if number &&& mask = 0 then qr.set r c offC else qr.set r c onC)

def drawNumber (number bitLen : Nat) (offC onC : Module)
    (coords : List (Int × Int)) (qr : QRM) : QRM :=
  drawNumAux number offC onC coords (1 <<< (bitLen - 1)) qr

/-- `QR::draw_format_info`, Normal arm: both copies of the format info plus
the always-dark module at `(8, -8)`. -/
def drawFormatInfo (formatInfo : Nat) (qr : QRM) : QRM :=
  ((drawNumber formatInfo 15 (Module.Format Color.Light) (Module.Format Color.Dark)
      mainCoords qr
    |> drawNumber formatInfo 15 (Module.Format Color.Light) (Module.Format Color.Dark)
      sideCoords)).set 8 (-8) (Module.Format Color.Dark)

/-- One iteration of the masking double loop in `draw_mask_pattern`. -/
def flipCell (p : Nat) (qr : QRM) (rc : Nat × Nat) : QRM :=
  if maskFun p rc.1 rc.2 then
    match qr.get rc.1 rc.2 with
    | Module.Data clr => qr.set rc.1 rc.2 (Module.Data clr.not)
    | _ => qr
  else qr

/-- Row-major cell coordinates of the `0..w` double loop. -/
def cellList (w : Nat) : List (Nat × Nat) :=
  (List.range w).flatMap (fun r => (List.range w).map (fun c => (r, c)))

def flipPhase (p : Nat) (qr : QRM) : QRM :=
  (cellList qr.width).foldl (flipCell p) qr

/-- `QR::draw_mask_pattern`: flip masked `Data` modules, then redraw the
format information (`get_format_info` is `todo!()` for Micro, hence
`none`). -/
def drawMaskPattern (qr : QRM) (p : Nat) : Option QRM :=
  match qr.version with
  | Version.Micro _ => none
  | Version.Normal _ =>
    some (drawFormatInfo (getFormatInfo qr.ecLevel p) (flipPhase p qr))

/-- What masking does to a single module per the mask predicate. -/
def flipSpec (p : Nat) (r c : Nat) (m : Module) : Module :=
  match m with
  | Module.Data clr => if maskFun p r c then Module.Data clr.not else Module.Data clr
  | m => m

/-- Canonical (non-negative) form of a wrap-around coordinate pair. -/
def canonCoord (w : Nat) (z : Int × Int) : Nat × Nat :=
  ((if z.1 < 0 then z.1 + w else z.1).toNat, (if z.2 < 0 then z.2 + w else z.2).toNat)

/-- All 31 coordinates written by `draw_format_info`. -/
def allFmtCoords : List (Int × Int) :=
  mainCoords ++ sideCoords ++ [((8 : Int), (-8 : Int))]

/-- The 31 format-information cells, in canonical coordinates. -/
def fmtCells (w : Nat) : List (Nat × Nat) :=
  allFmtCoords.map (canonCoord w)


set_option maxRecDepth 40000 in
set_option maxHeartbeats 2000000 in
/-- **C9** counterexample: on a version-1 matrix whose grid is all `Empty`
(no `Data` module anywhere), `draw_mask_pattern` still changes the module
at `(0, 8)` — the format-information redraw mutates non-`Data` cells. -/
theorem draw_mask_pattern_C9_counterexample :
    (QRM.mk (Version.Normal 1) 21 ECLevel.L (List.replicate 441 Module.Empty)).get 0 8
        = Module.Empty
      ∧ ∃ qr2, drawMaskPattern
          (QRM.mk (Version.Normal 1) 21 ECLevel.L (List.replicate 441 Module.Empty)) 0
            = some qr2
          ∧ qr2.get 0 8 ≠ Module.Empty := by
  refine ⟨by decide, ⟨_, rfl, by decide⟩⟩


/-! ## Pointwise characterisation of the grid operations -/

theorem rowcol_inj (w r c r2 c2 : Nat) (hc : c < w) (hc2 : c2 < w)
    (h : r * w + c = r2 * w + c2) : r = r2 ∧ c = c2 := by
  have hw : 0 < w := by omega
  have h1 : (r * w + c) / w = r := by
    rw [Nat.mul_comm, Nat.mul_add_div hw, Nat.div_eq_of_lt hc]
    omega
  have h2 : (r2 * w + c2) / w = r2 := by
    rw [Nat.mul_comm, Nat.mul_add_div hw, Nat.div_eq_of_lt hc2]
    omega
  have hr : r = r2 := by rw [← h1, ← h2, h]
  subst hr
  exact ⟨rfl, by omega⟩

theorem coordToIndex_canonNat (w r c : Nat) :
    coordToIndex w r c = r * w + c := by
  unfold coordToIndex
  rw [if_neg (by omega : ¬ ((r : Int) < 0)), if_neg (by omega : ¬ ((c : Int) < 0))]
  rw [show ((r : Int)) * w + c = ((r * w + c : Nat) : Int) from by push_cast; ring,
    Int.toNat_natCast]

/-- In-range wrap-around coordinates: `-w <= x < w` (the `debug_assert`
bounds of `coord_to_index`). -/
def inRange (w : Nat) (z : Int × Int) : Prop :=
  -(w : Int) ≤ z.1 ∧ z.1 < w ∧ -(w : Int) ≤ z.2 ∧ z.2 < w

theorem canonCoord_lt (w : Nat) (z : Int × Int) (hz : inRange w z) :
    (canonCoord w z).1 < w ∧ (canonCoord w z).2 < w := by
  obtain ⟨h1, h2, h3, h4⟩ := hz
  unfold canonCoord
  constructor
  · by_cases hr : z.1 < 0
    · rw [if_pos hr]
      omega
    · rw [if_neg hr]
      omega
  · by_cases hc : z.2 < 0
    · rw [if_pos hc]
      omega
    · rw [if_neg hc]
      omega

theorem toNat_linear (a b : Int) (w : Nat) (ha : 0 ≤ a) (hb : 0 ≤ b) :
    (a * w + b).toNat = a.toNat * w + b.toNat := by
  obtain ⟨p, hp⟩ : ∃ p : Nat, a = (p : Int) := ⟨a.toNat, by omega⟩
  obtain ⟨q, hq⟩ : ∃ q : Nat, b = (q : Int) := ⟨b.toNat, by omega⟩
  subst hp
  subst hq
  rw [show ((p : Int)) * w + q = ((p * w + q : Nat) : Int) from by push_cast; ring]
  rw [Int.toNat_natCast, Int.toNat_natCast, Int.toNat_natCast]

theorem coordToIndex_canon (w : Nat) (z : Int × Int) (hz : inRange w z) :
    coordToIndex w z.1 z.2 = (canonCoord w z).1 * w + (canonCoord w z).2 := by
  obtain ⟨h1, h2, h3, h4⟩ := hz
  unfold coordToIndex canonCoord
  have ha : (0 : Int) ≤ if z.1 < 0 then z.1 + w else z.1 := by
    by_cases hzz : z.1 < 0
    · rw [if_pos hzz]
      omega
    · rw [if_neg hzz]
      omega
  have hb : (0 : Int) ≤ if z.2 < 0 then z.2 + w else z.2 := by
    by_cases hzz : z.2 < 0
    · rw [if_pos hzz]
      omega
    · rw [if_neg hzz]
      omega
  exact toNat_linear _ _ w ha hb

theorem QRM.get_set (qr : QRM) (z1 z2 : Int) (m : Module)
    (hgrid : qr.grid.length = qr.width * qr.width) (hz : inRange qr.width (z1, z2))
    (r2 c2 : Nat) (hr2 : r2 < qr.width) (hc2 : c2 < qr.width) :
    (qr.set z1 z2 m).get r2 c2
      = if canonCoord qr.width (z1, z2) = (r2, c2) then m else qr.get r2 c2 := by
  unfold QRM.set QRM.get
  simp only []
  rw [show coordToIndex qr.width z1 z2 = coordToIndex qr.width (z1, z2).1 (z1, z2).2
      from rfl,
    coordToIndex_canon qr.width (z1, z2) hz, coordToIndex_canonNat]
  obtain ⟨hlt1, hlt2⟩ := canonCoord_lt qr.width (z1, z2) hz
  by_cases heq : canonCoord qr.width (z1, z2) = (r2, c2)
  · rw [if_pos heq]
    rw [heq]
    rw [List.getD_eq_getElem?_getD, List.getElem?_set_self ?_]
    · rfl
    · rw [hgrid]
      calc r2 * qr.width + c2 < r2 * qr.width + qr.width := by omega
        _ = (r2 + 1) * qr.width := by ring
        _ ≤ qr.width * qr.width := by
            have := Nat.mul_le_mul_right qr.width (show r2 + 1 ≤ qr.width by omega)
            omega
  · rw [if_neg heq]
    have hne : (canonCoord qr.width (z1, z2)).1 * qr.width
        + (canonCoord qr.width (z1, z2)).2 ≠ r2 * qr.width + c2 := by
      intro hcon
      obtain ⟨ha, hb⟩ := rowcol_inj qr.width _ _ _ _ hlt2 hc2 hcon
      exact heq (by rw [Prod.ext_iff]; exact ⟨ha, hb⟩)
    rw [List.getD_eq_getElem?_getD, List.getElem?_set_ne hne, ← List.getD_eq_getElem?_getD]

theorem QRM.set_fields (qr : QRM) (r c : Int) (m : Module) :
    (qr.set r c m).width = qr.width ∧ (qr.set r c m).version = qr.version
      ∧ (qr.set r c m).ecLevel = qr.ecLevel
      ∧ (qr.set r c m).grid.length = qr.grid.length := by
  refine ⟨rfl, rfl, rfl, ?_⟩
  unfold QRM.set
  simp


theorem drawNumAux_fields (number : Nat) (offC onC : Module) :
    ∀ (coords : List (Int × Int)) (mask : Nat) (qr : QRM),
      (drawNumAux number offC onC coords mask qr).width = qr.width
        ∧ (drawNumAux number offC onC coords mask qr).version = qr.version
        ∧ (drawNumAux number offC onC coords mask qr).ecLevel = qr.ecLevel
        ∧ (drawNumAux number offC onC coords mask qr).grid.length = qr.grid.length := by
  intro coords
  induction coords with
  | nil => intro mask qr; exact ⟨rfl, rfl, rfl, rfl⟩
  | cons z rest ih =>
    intro mask qr
    obtain ⟨z1, z2⟩ := z
    have hstep : drawNumAux number offC onC ((z1, z2) :: rest) mask qr
        = drawNumAux number offC onC rest (mask >>> 1)
            (if number &&& mask = 0 then qr.set z1 z2 offC else qr.set z1 z2 onC) := rfl
    rw [hstep]
    obtain ⟨i1, i2, i3, i4⟩ := ih (mask >>> 1)
      (if number &&& mask = 0 then qr.set z1 z2 offC else qr.set z1 z2 onC)
    by_cases hb : number &&& mask = 0
    · rw [if_pos hb] at i1 i2 i3 i4 ⊢
      exact ⟨i1, i2, i3, by rw [i4]; exact (QRM.set_fields qr z1 z2 offC).2.2.2⟩
    · rw [if_neg hb] at i1 i2 i3 i4 ⊢
      exact ⟨i1, i2, i3, by rw [i4]; exact (QRM.set_fields qr z1 z2 onC).2.2.2⟩

theorem drawNumAux_untouched (number : Nat) (offC onC : Module) :
    ∀ (coords : List (Int × Int)) (mask : Nat) (qr : QRM),
      qr.grid.length = qr.width * qr.width → (∀ z ∈ coords, inRange qr.width z) →
      ∀ r2 c2, r2 < qr.width → c2 < qr.width →
        (∀ z ∈ coords, canonCoord qr.width z ≠ (r2, c2)) →
        (drawNumAux number offC onC coords mask qr).get r2 c2 = qr.get r2 c2 := by
  intro coords
  induction coords with
  | nil => intro mask qr _ _ r2 c2 _ _ _; rfl
  | cons z rest ih =>
    intro mask qr hgrid hin r2 c2 hr2 hc2 hne
    obtain ⟨z1, z2⟩ := z
    have hstep : drawNumAux number offC onC ((z1, z2) :: rest) mask qr
        = drawNumAux number offC onC rest (mask >>> 1)
            (if number &&& mask = 0 then qr.set z1 z2 offC else qr.set z1 z2 onC) := rfl
    rw [hstep]
    have hz : inRange qr.width (z1, z2) := hin _ (List.mem_cons_self _ _)
    have hzq : canonCoord qr.width (z1, z2) ≠ (r2, c2) := hne _ (List.mem_cons_self _ _)
    by_cases hb : number &&& mask = 0
    · rw [if_pos hb,
        ih (mask >>> 1) (qr.set z1 z2 offC)
          (by rw [(QRM.set_fields qr z1 z2 offC).2.2.2]; exact hgrid)
          (fun z hzr => hin z (List.mem_cons_of_mem _ hzr)) r2 c2 hr2 hc2
          (fun z hzr => hne z (List.mem_cons_of_mem _ hzr)),
        QRM.get_set qr z1 z2 offC hgrid hz r2 c2 hr2 hc2, if_neg hzq]
    · rw [if_neg hb,
        ih (mask >>> 1) (qr.set z1 z2 onC)
          (by rw [(QRM.set_fields qr z1 z2 onC).2.2.2]; exact hgrid)
          (fun z hzr => hin z (List.mem_cons_of_mem _ hzr)) r2 c2 hr2 hc2
          (fun z hzr => hne z (List.mem_cons_of_mem _ hzr)),
        QRM.get_set qr z1 z2 onC hgrid hz r2 c2 hr2 hc2, if_neg hzq]

theorem drawNumAux_format (number : Nat) :
    ∀ (coords : List (Int × Int)) (mask : Nat) (qr : QRM)
      (offClr onClr : Color),
      qr.grid.length = qr.width * qr.width → (∀ z ∈ coords, inRange qr.width z) →
      ∀ r2 c2, r2 < qr.width → c2 < qr.width →
        (∃ z ∈ coords, canonCoord qr.width z = (r2, c2)) →
        ∃ clr, (drawNumAux number (Module.Format offClr) (Module.Format onClr)
          coords mask qr).get r2 c2 = Module.Format clr := by
  intro coords
  induction coords with
  | nil =>
    intro mask qr _ _ _ _ r2 c2 _ _ hex
    obtain ⟨z, hz, _⟩ := hex
    exact absurd hz (List.not_mem_nil z)
  | cons z rest ih =>
    intro mask qr offClr onClr hgrid hin r2 c2 hr2 hc2 hex
    obtain ⟨z1, z2⟩ := z
    have hstep : drawNumAux number (Module.Format offClr) (Module.Format onClr)
          ((z1, z2) :: rest) mask qr
        = drawNumAux number (Module.Format offClr) (Module.Format onClr) rest
            (mask >>> 1)
            (if number &&& mask = 0 then qr.set z1 z2 (Module.Format offClr)
             else qr.set z1 z2 (Module.Format onClr)) := rfl
    rw [hstep]
    have hz : inRange qr.width (z1, z2) := hin _ (List.mem_cons_self _ _)
    by_cases hrest : ∃ z ∈ rest, canonCoord qr.width z = (r2, c2)
    · by_cases hb : number &&& mask = 0
      · rw [if_pos hb]
        exact ih (mask >>> 1) (qr.set z1 z2 (Module.Format offClr)) offClr onClr
          (by rw [(QRM.set_fields qr z1 z2 _).2.2.2]; exact hgrid)
          (fun z hzr => hin z (List.mem_cons_of_mem _ hzr)) r2 c2 hr2 hc2 hrest
      · rw [if_neg hb]
        exact ih (mask >>> 1) (qr.set z1 z2 (Module.Format onClr)) offClr onClr
          (by rw [(QRM.set_fields qr z1 z2 _).2.2.2]; exact hgrid)
          (fun z hzr => hin z (List.mem_cons_of_mem _ hzr)) r2 c2 hr2 hc2 hrest
    · have hzq : canonCoord qr.width (z1, z2) = (r2, c2) := by
        obtain ⟨z, hzmem, hzeq⟩ := hex
        rcases List.mem_cons.mp hzmem with h | h
        · rw [← h]
          exact hzeq
        · exact absurd ⟨z, h, hzeq⟩ hrest
      by_cases hb : number &&& mask = 0
      · rw [if_pos hb]
        refine ⟨offClr, ?_⟩
        rw [drawNumAux_untouched number _ _ rest (mask >>> 1)
            (qr.set z1 z2 (Module.Format offClr))
            (by rw [(QRM.set_fields qr z1 z2 _).2.2.2]; exact hgrid)
            (fun z hzr => hin z (List.mem_cons_of_mem _ hzr)) r2 c2 hr2 hc2
            (fun z hzr hcon => hrest ⟨z, hzr, hcon⟩),
          QRM.get_set qr z1 z2 _ hgrid hz r2 c2 hr2 hc2, if_pos hzq]
      · rw [if_neg hb]
        refine ⟨onClr, ?_⟩
        rw [drawNumAux_untouched number _ _ rest (mask >>> 1)
            (qr.set z1 z2 (Module.Format onClr))
            (by rw [(QRM.set_fields qr z1 z2 _).2.2.2]; exact hgrid)
            (fun z hzr => hin z (List.mem_cons_of_mem _ hzr)) r2 c2 hr2 hc2
            (fun z hzr hcon => hrest ⟨z, hzr, hcon⟩),
          QRM.get_set qr z1 z2 _ hgrid hz r2 c2 hr2 hc2, if_pos hzq]


theorem canonCoord_natCast (w a b : Nat) :
    canonCoord w ((a : Int), (b : Int)) = (a, b) := by
  unfold canonCoord
  rw [if_neg (by omega : ¬ ((a : Int) < 0)), if_neg (by omega : ¬ ((b : Int) < 0)),
    Int.toNat_natCast, Int.toNat_natCast]

theorem flipCell_fields (p : Nat) (qr : QRM) (rc : Nat × Nat) :
    (flipCell p qr rc).width = qr.width ∧ (flipCell p qr rc).version = qr.version
      ∧ (flipCell p qr rc).ecLevel = qr.ecLevel
      ∧ (flipCell p qr rc).grid.length = qr.grid.length := by
  unfold flipCell
  by_cases hm : maskFun p rc.1 rc.2
  · rw [if_pos hm]
    cases hget : qr.get rc.1 rc.2 <;>
      first
      | exact ⟨rfl, rfl, rfl, rfl⟩
      | exact QRM.set_fields qr _ _ _
  · rw [if_neg hm]
    exact ⟨rfl, rfl, rfl, rfl⟩

theorem flipSpec_nonData (p : Nat) (r c : Nat) (m : Module)
    (hm : ∀ clr, m ≠ Module.Data clr) : flipSpec p r c m = m := by
  cases m with
  | Data clr => exact absurd rfl (hm clr)
  | Empty => rfl
  | Func clr => rfl
  | Version clr => rfl
  | Format clr => rfl
  | Palette clr => rfl

theorem flipCell_get (p : Nat) (qr : QRM) (z : Nat × Nat)
    (hgrid : qr.grid.length = qr.width * qr.width)
    (hz1 : z.1 < qr.width) (hz2 : z.2 < qr.width)
    (r c : Nat) (hr : r < qr.width) (hc : c < qr.width) :
    (flipCell p qr z).get r c
      = if z = (r, c) then flipSpec p r c (qr.get r c) else qr.get r c := by
  obtain ⟨z1, z2⟩ := z
  simp only [] at hz1 hz2
  have hzin : inRange qr.width ((z1 : Int), (z2 : Int)) := by
    refine ⟨by omega, by omega, by omega, by omega⟩
  unfold flipCell
  simp only []
  by_cases hm : maskFun p z1 z2
  · rw [if_pos hm]
    cases hget : qr.get (z1 : Int) (z2 : Int) with
    | Data clr =>
      rw [QRM.get_set qr z1 z2 (Module.Data clr.not) hgrid hzin r c hr hc,
        canonCoord_natCast]
      by_cases heq : (z1, z2) = (r, c)
      · rw [if_pos heq, if_pos heq]
        have he1 : z1 = r := congrArg Prod.fst heq
        have he2 : z2 = c := congrArg Prod.snd heq
        rw [show qr.get (r : Int) (c : Int) = Module.Data clr from by
            rw [← he1, ← he2]; exact hget]
        show Module.Data clr.not
          = if maskFun p r c = true then Module.Data clr.not else Module.Data clr
        rw [if_pos (by rw [← he1, ← he2]; exact hm)]
      · rw [if_neg heq, if_neg heq]
    | Empty =>
      by_cases heq : (z1, z2) = (r, c)
      · rw [if_pos heq]
        have he1 : z1 = r := congrArg Prod.fst heq
        have he2 : z2 = c := congrArg Prod.snd heq
        rw [show qr.get (r : Int) (c : Int) = Module.Empty from by
            rw [← he1, ← he2]; exact hget]
        rfl
      · rw [if_neg heq]
    | Func clr =>
      by_cases heq : (z1, z2) = (r, c)
      · rw [if_pos heq]
        have he1 : z1 = r := congrArg Prod.fst heq
        have he2 : z2 = c := congrArg Prod.snd heq
        rw [show qr.get (r : Int) (c : Int) = Module.Func clr from by
            rw [← he1, ← he2]; exact hget]
        rfl
      · rw [if_neg heq]
    | Version clr =>
      by_cases heq : (z1, z2) = (r, c)
      · rw [if_pos heq]
        have he1 : z1 = r := congrArg Prod.fst heq
        have he2 : z2 = c := congrArg Prod.snd heq
        rw [show qr.get (r : Int) (c : Int) = Module.Version clr from by
            rw [← he1, ← he2]; exact hget]
        rfl
      · rw [if_neg heq]
    | Format clr =>
      by_cases heq : (z1, z2) = (r, c)
      · rw [if_pos heq]
        have he1 : z1 = r := congrArg Prod.fst heq
        have he2 : z2 = c := congrArg Prod.snd heq
        rw [show qr.get (r : Int) (c : Int) = Module.Format clr from by
            rw [← he1, ← he2]; exact hget]
        rfl
      · rw [if_neg heq]
    | Palette clr =>
      by_cases heq : (z1, z2) = (r, c)
      · rw [if_pos heq]
        have he1 : z1 = r := congrArg Prod.fst heq
        have he2 : z2 = c := congrArg Prod.snd heq
        rw [show qr.get (r : Int) (c : Int) = Module.Palette clr from by
            rw [← he1, ← he2]; exact hget]
        rfl
      · rw [if_neg heq]
  · rw [if_neg hm]
    by_cases heq : (z1, z2) = (r, c)
    · rw [if_pos heq]
      have he1 : z1 = r := congrArg Prod.fst heq
      have he2 : z2 = c := congrArg Prod.snd heq
      cases hget : qr.get (r : Int) (c : Int) with
      | Data clr =>
        show Module.Data clr
          = if maskFun p r c = true then Module.Data clr.not else Module.Data clr
        rw [if_neg (by rw [← he1, ← he2]; exact hm)]
      | Empty => rfl
      | Func clr => rfl
      | Version clr => rfl
      | Format clr => rfl
      | Palette clr => rfl
    · rw [if_neg heq]


theorem foldl_flip_fields (p : Nat) :
    ∀ (L : List (Nat × Nat)) (qr : QRM),
      (L.foldl (flipCell p) qr).width = qr.width
        ∧ (L.foldl (flipCell p) qr).version = qr.version
        ∧ (L.foldl (flipCell p) qr).ecLevel = qr.ecLevel
        ∧ (L.foldl (flipCell p) qr).grid.length = qr.grid.length := by
  intro L
  induction L with
  | nil => intro qr; exact ⟨rfl, rfl, rfl, rfl⟩
  | cons z L ih =>
    intro qr
    rw [List.foldl_cons]
    obtain ⟨i1, i2, i3, i4⟩ := ih (flipCell p qr z)
    obtain ⟨f1, f2, f3, f4⟩ := flipCell_fields p qr z
    exact ⟨by rw [i1, f1], by rw [i2, f2], by rw [i3, f3], by rw [i4, f4]⟩

theorem foldl_flip_get (p : Nat) :
    ∀ (L : List (Nat × Nat)) (qr : QRM),
      qr.grid.length = qr.width * qr.width →
      (∀ z ∈ L, z.1 < qr.width ∧ z.2 < qr.width) → L.Nodup →
      ∀ r c : Nat, r < qr.width → c < qr.width →
        (L.foldl (flipCell p) qr).get r c
          = if (r, c) ∈ L then flipSpec p r c (qr.get r c) else qr.get r c := by
  intro L
  induction L with
  | nil =>
    intro qr _ _ _ r c _ _
    rw [List.foldl_nil, if_neg (List.not_mem_nil (r, c))]
  | cons z L ih =>
    intro qr hgrid hin hnd r c hr hc
    obtain ⟨hznotin, hnd'⟩ := List.nodup_cons.mp hnd
    obtain ⟨hz1, hz2⟩ := hin z (List.mem_cons_self z L)
    obtain ⟨f1, f2, f3, f4⟩ := flipCell_fields p qr z
    rw [List.foldl_cons]
    rw [ih (flipCell p qr z)
      (by rw [f4, f1]; exact hgrid)
      (by intro z2 hz2m
          rw [f1]
          exact hin z2 (List.mem_cons_of_mem z hz2m))
      hnd' r c (by rw [f1]; exact hr) (by rw [f1]; exact hc)]
    rw [flipCell_get p qr z hgrid hz1 hz2 r c hr hc]
    by_cases hmem : (r, c) ∈ L
    · rw [if_pos hmem, if_pos (List.mem_cons_of_mem z hmem)]
      have hzne : z ≠ (r, c) := fun hh => hznotin (hh ▸ hmem)
      rw [if_neg hzne]
    · rw [if_neg hmem]
      by_cases hzeq : z = (r, c)
      · rw [if_pos hzeq, if_pos (by rw [hzeq]; exact List.mem_cons_self (r, c) L)]
      · rw [if_neg hzeq,
          if_neg (by intro hh
                     rcases List.mem_cons.mp hh with h1 | h1
                     · exact hzeq h1.symm
                     · exact hmem h1)]

theorem mem_cellList (w : Nat) (r c : Nat) :
    (r, c) ∈ cellList w ↔ r < w ∧ c < w := by
  unfold cellList
  rw [List.mem_flatMap]
  constructor
  · rintro ⟨r2, hr2, hmem⟩
    obtain ⟨c2, hc2, heq⟩ := List.mem_map.mp hmem
    have h1 : r2 = r := congrArg Prod.fst heq
    have h2 : c2 = c := congrArg Prod.snd heq
    subst h1
    subst h2
    exact ⟨List.mem_range.mp hr2, List.mem_range.mp hc2⟩
  · rintro ⟨h1, h2⟩
    exact ⟨r, List.mem_range.mpr h1,
      List.mem_map.mpr ⟨c, List.mem_range.mpr h2, rfl⟩⟩

theorem nodup_rowBlock (w : Nat) :
    ∀ (rows : List Nat), rows.Nodup →
      (rows.flatMap (fun r => (List.range w).map (fun c => (r, c)))).Nodup := by
  intro rows
  induction rows with
  | nil => intro _; exact List.nodup_nil
  | cons r rows ih =>
    intro hnd
    obtain ⟨hrnot, hnd'⟩ := List.nodup_cons.mp hnd
    rw [List.flatMap_cons]
    refine List.Nodup.append ?_ (ih hnd') ?_
    · exact List.Nodup.map (fun a b hab => by
        have := congrArg Prod.snd hab
        simpa using this) (List.nodup_range w)
    · intro z hz1 hz2
      obtain ⟨c1, _, he1⟩ := List.mem_map.mp hz1
      obtain ⟨r2, hr2, hmem2⟩ := List.mem_flatMap.mp hz2
      obtain ⟨c2, _, he2⟩ := List.mem_map.mp hmem2
      have : r = r2 := by
        have q1 := congrArg Prod.fst he1
        have q2 := congrArg Prod.fst he2
        simp at q1 q2
        omega
      exact hrnot (this ▸ hr2)

theorem nodup_cellList (w : Nat) : (cellList w).Nodup :=
  nodup_rowBlock w (List.range w) (List.nodup_range w)

theorem flipPhase_fields (p : Nat) (qr : QRM) :
    (flipPhase p qr).width = qr.width ∧ (flipPhase p qr).version = qr.version
      ∧ (flipPhase p qr).ecLevel = qr.ecLevel
      ∧ (flipPhase p qr).grid.length = qr.grid.length :=
  foldl_flip_fields p (cellList qr.width) qr

theorem flipPhase_get (p : Nat) (qr : QRM)
    (hgrid : qr.grid.length = qr.width * qr.width)
    (r c : Nat) (hr : r < qr.width) (hc : c < qr.width) :
    (flipPhase p qr).get r c = flipSpec p r c (qr.get r c) := by
  unfold flipPhase
  rw [foldl_flip_get p (cellList qr.width) qr hgrid
    (fun z hz => by
      obtain ⟨zz1, zz2⟩ := z
      exact (mem_cellList qr.width zz1 zz2).mp hz)
    (nodup_cellList qr.width) r c hr hc,
    if_pos ((mem_cellList qr.width r c).mpr ⟨hr, hc⟩)]


theorem allFmtCoords_bounded :
    ∀ z ∈ allFmtCoords, (-8 : Int) ≤ z.1 ∧ z.1 ≤ 8 ∧ (-8 : Int) ≤ z.2 ∧ z.2 ≤ 8 := by
  decide

set_option maxHeartbeats 1000000 in
/-- **C9** (amended). `draw_mask_pattern` flips exactly the masked `Data`
modules **outside** the 31 format-information coordinates; those 31 cells
are unconditionally overwritten with `Format` modules, whatever their
previous tag (the spec's claim that only `Data` cells are mutated fails
there). Micro symbols hit `todo!()`. -/
theorem draw_mask_pattern_C9 (qr : QRM) (v p : Nat)
    (hver : qr.version = Version.Normal v) (hv : 1 ≤ v)
    (hw : qr.width = v * 4 + 17)
    (hgrid : qr.grid.length = qr.width * qr.width) :
    ∃ qr2, drawMaskPattern qr p = some qr2
      ∧ ∀ r c : Nat, r < qr.width → c < qr.width →
          ((r, c) ∈ fmtCells qr.width → ∃ clr, qr2.get r c = Module.Format clr)
          ∧ ((r, c) ∉ fmtCells qr.width
              → qr2.get r c = flipSpec p r c (qr.get r c)) := by
  have h17 : 17 ≤ qr.width := by omega
  have hinR : ∀ z ∈ allFmtCoords, inRange qr.width z := by
    intro z hz
    obtain ⟨b1, b2, b3, b4⟩ := allFmtCoords_bounded z hz
    exact ⟨by omega, by omega, by omega, by omega⟩
  refine ⟨drawFormatInfo (getFormatInfo qr.ecLevel p) (flipPhase p qr), ?_, ?_⟩
  · unfold drawMaskPattern
    rw [hver]
  · intro r c hr hc
    obtain ⟨w1, w2, w3, w4⟩ := flipPhase_fields p qr
    have hg1 : (flipPhase p qr).grid.length = (flipPhase p qr).width * (flipPhase p qr).width := by
      rw [w4, w1]
      exact hgrid
    obtain ⟨m1, m2, m3, m4⟩ := drawNumAux_fields (getFormatInfo qr.ecLevel p)
      (Module.Format Color.Light) (Module.Format Color.Dark) mainCoords
      (1 <<< 14) (flipPhase p qr)
    have hg2 : (drawNumAux (getFormatInfo qr.ecLevel p) (Module.Format Color.Light)
        (Module.Format Color.Dark) mainCoords (1 <<< 14) (flipPhase p qr)).grid.length
        = (drawNumAux (getFormatInfo qr.ecLevel p) (Module.Format Color.Light)
          (Module.Format Color.Dark) mainCoords (1 <<< 14) (flipPhase p qr)).width
          * (drawNumAux (getFormatInfo qr.ecLevel p) (Module.Format Color.Light)
            (Module.Format Color.Dark) mainCoords (1 <<< 14) (flipPhase p qr)).width := by
      rw [m4, m1]
      exact hg1
    obtain ⟨s1, s2, s3, s4⟩ := drawNumAux_fields (getFormatInfo qr.ecLevel p)
      (Module.Format Color.Light) (Module.Format Color.Dark) sideCoords
      (1 <<< 14) (drawNumAux (getFormatInfo qr.ecLevel p) (Module.Format Color.Light)
        (Module.Format Color.Dark) mainCoords (1 <<< 14) (flipPhase p qr))
    have hg3 : (drawNumAux (getFormatInfo qr.ecLevel p) (Module.Format Color.Light)
        (Module.Format Color.Dark) sideCoords (1 <<< 14)
        (drawNumAux (getFormatInfo qr.ecLevel p) (Module.Format Color.Light)
          (Module.Format Color.Dark) mainCoords (1 <<< 14) (flipPhase p qr))).grid.length
        = (drawNumAux (getFormatInfo qr.ecLevel p) (Module.Format Color.Light)
            (Module.Format Color.Dark) sideCoords (1 <<< 14)
            (drawNumAux (getFormatInfo qr.ecLevel p) (Module.Format Color.Light)
              (Module.Format Color.Dark) mainCoords (1 <<< 14) (flipPhase p qr))).width
          * (drawNumAux (getFormatInfo qr.ecLevel p) (Module.Format Color.Light)
              (Module.Format Color.Dark) sideCoords (1 <<< 14)
              (drawNumAux (getFormatInfo qr.ecLevel p) (Module.Format Color.Light)
                (Module.Format Color.Dark) mainCoords (1 <<< 14)
                (flipPhase p qr))).width := by
      rw [s4, s1]
      exact hg2
    have hWmain : (drawNumAux (getFormatInfo qr.ecLevel p) (Module.Format Color.Light)
        (Module.Format Color.Dark) mainCoords (1 <<< 14) (flipPhase p qr)).width
        = qr.width := by rw [m1, w1]
    have hWside : (drawNumAux (getFormatInfo qr.ecLevel p) (Module.Format Color.Light)
        (Module.Format Color.Dark) sideCoords (1 <<< 14)
        (drawNumAux (getFormatInfo qr.ecLevel p) (Module.Format Color.Light)
          (Module.Format Color.Dark) mainCoords (1 <<< 14) (flipPhase p qr))).width
        = qr.width := by rw [s1, hWmain]
    have hDF : drawFormatInfo (getFormatInfo qr.ecLevel p) (flipPhase p qr)
        = (drawNumAux (getFormatInfo qr.ecLevel p) (Module.Format Color.Light)
            (Module.Format Color.Dark) sideCoords (1 <<< 14)
            (drawNumAux (getFormatInfo qr.ecLevel p) (Module.Format Color.Light)
              (Module.Format Color.Dark) mainCoords (1 <<< 14)
              (flipPhase p qr))).set 8 (-8) (Module.Format Color.Dark) := rfl
    rw [hDF]
    have hmainIn : ∀ z ∈ mainCoords, inRange (flipPhase p qr).width z := by
      intro z hz
      rw [w1]
      exact hinR z (by unfold allFmtCoords; exact List.mem_append_left _ (List.mem_append_left _ hz))
    have hsideIn : ∀ z ∈ sideCoords, inRange (drawNumAux (getFormatInfo qr.ecLevel p)
        (Module.Format Color.Light) (Module.Format Color.Dark) mainCoords
        (1 <<< 14) (flipPhase p qr)).width z := by
      intro z hz
      rw [hWmain]
      exact hinR z (by unfold allFmtCoords; exact List.mem_append_left _ (List.mem_append_right _ hz))
    have h8In : inRange (drawNumAux (getFormatInfo qr.ecLevel p)
        (Module.Format Color.Light) (Module.Format Color.Dark) sideCoords (1 <<< 14)
        (drawNumAux (getFormatInfo qr.ecLevel p) (Module.Format Color.Light)
          (Module.Format Color.Dark) mainCoords (1 <<< 14) (flipPhase p qr))).width
        ((8 : Int), (-8 : Int)) := by
      rw [hWside]
      exact hinR _ (by unfold allFmtCoords; exact List.mem_append_right _ (List.mem_cons_self _ _))
    have hsetget := QRM.get_set (drawNumAux (getFormatInfo qr.ecLevel p)
        (Module.Format Color.Light) (Module.Format Color.Dark) sideCoords (1 <<< 14)
        (drawNumAux (getFormatInfo qr.ecLevel p) (Module.Format Color.Light)
          (Module.Format Color.Dark) mainCoords (1 <<< 14) (flipPhase p qr)))
      8 (-8) (Module.Format Color.Dark) hg3 h8In r c (by rw [hWside]; exact hr)
      (by rw [hWside]; exact hc)
    constructor
    · intro hfmt
      obtain ⟨z, hzmem, hzeq⟩ := List.mem_map.mp hfmt
      by_cases h8 : canonCoord qr.width ((8 : Int), (-8 : Int)) = (r, c)
      · refine ⟨Color.Dark, ?_⟩
        rw [hsetget, if_pos (by rw [hWside]; exact h8)]
      · rw [hsetget, if_neg (by rw [hWside]; exact h8)]
        by_cases hside : ∃ z2 ∈ sideCoords, canonCoord qr.width z2 = (r, c)
        · refine drawNumAux_format (getFormatInfo qr.ecLevel p) sideCoords (1 <<< 14)
            _ Color.Light Color.Dark hg2 hsideIn r c (by rw [hWmain]; exact hr)
            (by rw [hWmain]; exact hc) ?_
          obtain ⟨z2, hz2m, hz2e⟩ := hside
          exact ⟨z2, hz2m, by rw [hWmain]; exact hz2e⟩
        · have hmain : ∃ z2 ∈ mainCoords, canonCoord qr.width z2 = (r, c) := by
            unfold allFmtCoords at hzmem
            rcases List.mem_append.mp hzmem with h1 | h1
            · rcases List.mem_append.mp h1 with h2 | h2
              · exact ⟨z, h2, hzeq⟩
              · exact absurd ⟨z, h2, hzeq⟩ hside
            · rcases List.mem_cons.mp h1 with h2 | h2
              · exact absurd (h2 ▸ hzeq) h8
              · exact absurd h2 (List.not_mem_nil z)
          rw [drawNumAux_untouched (getFormatInfo qr.ecLevel p)
            (Module.Format Color.Light) (Module.Format Color.Dark) sideCoords
            (1 <<< 14) _ hg2 hsideIn r c (by rw [hWmain]; exact hr)
            (by rw [hWmain]; exact hc)
            (by intro z2 hz2 hcon
                rw [hWmain] at hcon
                exact hside ⟨z2, hz2, hcon⟩)]
          refine drawNumAux_format (getFormatInfo qr.ecLevel p) mainCoords (1 <<< 14)
            _ Color.Light Color.Dark hg1 hmainIn r c (by rw [w1]; exact hr)
            (by rw [w1]; exact hc) ?_
          obtain ⟨z2, hz2m, hz2e⟩ := hmain
          exact ⟨z2, hz2m, by rw [w1]; exact hz2e⟩
    · intro hnot
      have hnone : ∀ z ∈ allFmtCoords, canonCoord qr.width z ≠ (r, c) := by
        intro z hz hcon
        exact hnot (List.mem_map.mpr ⟨z, hz, hcon⟩)
      rw [hsetget, if_neg (by
        rw [hWside]
        exact hnone _ (by unfold allFmtCoords; exact List.mem_append_right _ (List.mem_cons_self _ _)))]
      rw [drawNumAux_untouched (getFormatInfo qr.ecLevel p)
        (Module.Format Color.Light) (Module.Format Color.Dark) sideCoords
        (1 <<< 14) _ hg2 hsideIn r c (by rw [hWmain]; exact hr)
        (by rw [hWmain]; exact hc)
        (by intro z2 hz2 hcon
            rw [hWmain] at hcon
            exact hnone z2 (by unfold allFmtCoords; exact List.mem_append_left _ (List.mem_append_right _ hz2)) hcon)]
      rw [drawNumAux_untouched (getFormatInfo qr.ecLevel p)
        (Module.Format Color.Light) (Module.Format Color.Dark) mainCoords
        (1 <<< 14) _ hg1 hmainIn r c (by rw [w1]; exact hr)
        (by rw [w1]; exact hc)
        (by intro z2 hz2 hcon
            rw [w1] at hcon
            exact hnone z2 (by unfold allFmtCoords; exact List.mem_append_left _ (List.mem_append_left _ hz2)) hcon)]
      exact flipPhase_get p qr hgrid r c hr hc

theorem draw_mask_pattern_C9_witness :
    ((QRM.mk (Version.Normal 1) 21 ECLevel.L
        (List.replicate 441 Module.Empty)).version = Version.Normal 1
      ∧ 1 ≤ 1
      ∧ (QRM.mk (Version.Normal 1) 21 ECLevel.L
          (List.replicate 441 Module.Empty)).width = 1 * 4 + 17)
      ∧ ∃ qr2, drawMaskPattern (QRM.mk (Version.Normal 1) 21 ECLevel.L
          (List.replicate 441 Module.Empty)) 3 = some qr2 :=
  ⟨⟨rfl, le_refl 1, rfl⟩, by
    obtain ⟨qr2, h, -⟩ := draw_mask_pattern_C9
      (QRM.mk (Version.Normal 1) 21 ECLevel.L (List.replicate 441 Module.Empty))
      1 3 rfl (le_refl 1) rfl (by rw [List.length_replicate]; rfl)
    exact ⟨qr2, h⟩⟩

end QR5

namespace QR10

/-! ## `interleave` (`src/builder.rs`) and `deinterleave` (`src/reader/symbol.rs`) -/

/-- `slice::chunks` via explicit fuel (size-`k` chunks, last one may be
short; `k = 0` never reaches the callers thanks to the panics modelled
below). -/
def chunksF {α : Type} : Nat → Nat → List α → List (List α)
  | 0, _, _ => []
  | _, _, [] => []
  | fuel + 1, k, l => l.take k :: chunksF fuel k (l.drop k)

def chunks {α : Type} (k : Nat) (l : List α) : List (List α) := chunksF l.length k l

/-- `blocks.iter().map(|b| b.len()).max()` (with `0` for the empty case the
caller's `expect` rules out). -/
def maxBlockSize (blocks : List (List Nat)) : Nat :=
  (blocks.map List.length).foldl max 0

/-- One column of the interleaving: every block's `i`-th byte, in block
order, skipping blocks that are too short. -/
def round (i : Nat) (bs : List (List Nat)) : List Nat :=
  bs.filterMap (fun b => b.get? i)

/-- `interleave`: for `i in 0..max_block_size`, push `b[i]` of every block
long enough; `None` models the `expect` panic on an empty block list. -/
def interleave (blocks : List (List Nat)) : Option (List Nat) :=
  if blocks = [] then none
  else some ((List.range (maxBlockSize blocks)).flatMap (fun i => round i blocks))

/-- Modelled from the spec: `Block::with_encoded(bytes, data_len)` keeps the
encoded bytes together with the length of their data prefix. -/
structure Block where
  bytes : List Nat
  dataLen : Nat
deriving DecidableEq

/-- `ch.iter().enumerate().for_each(|(i, v)| dilvd[i].push(*v))`. -/
def pushRound : List (List Nat) → List Nat → List (List Nat)
  | ds, [] => ds
  | [], _ => []
  | d :: ds, v :: vs => (d ++ [v]) :: pushRound ds vs

/-- Same, pushing into `dilvd[b1c + i]`. -/
def pushRoundAt (off : Nat) (ds : List (List Nat)) (ch : List Nat) : List (List Nat) :=
  ds.take off ++ pushRound (ds.drop off) ch

/-- Data rounds of `deinterleave`: `data[..spl].chunks(total_blks)`. -/
def dilvdPhase1 (data : List Nat) (b1s b1c b2s b2c : Nat) : List (List Nat) :=
  (chunks (b1c + b2c) (data.take (b1s * (b1c + b2c)))).foldl pushRound
    (List.replicate (b1c + b2c) [])

/-- Tail bytes of the long blocks: `data[spl..data_sz].chunks(b2c)` pushed
at offset `b1c` (only when `b2c > 0`). -/
def dilvdPhase2 (data : List Nat) (b1s b1c b2s b2c : Nat) : List (List Nat) :=
  if 0 < b2c then
    (chunks b2c ((data.take (b1s * b1c + b2s * b2c)).drop (b1s * (b1c + b2c)))).foldl
      (pushRoundAt b1c) (dilvdPhase1 data b1s b1c b2s b2c)
  else dilvdPhase1 data b1s b1c b2s b2c

/-- ECC rounds: `data[data_sz..].chunks(total_blks)`. -/
def dilvdPhase3 (data : List Nat) (b1s b1c b2s b2c : Nat) : List (List Nat) :=
  (chunks (b1c + b2c) (data.drop (b1s * b1c + b2s * b2c))).foldl pushRound
    (dilvdPhase2 data b1s b1c b2s b2c)

/-- `deinterleave`: `none` models the panics (`chunks(0)`, slice bounds,
`b.len() - ec_len` underflow). -/
def deinterleave (data : List Nat) (blkInfo : Nat × Nat × Nat × Nat) (ecLen : Nat) :
    Option (List Block) :=
  match blkInfo with
  | (b1s, b1c, b2s, b2c) =>
    if b1c + b2c = 0 then none
    else if data.length < b1s * (b1c + b2c) then none
    else if 0 < b2c ∧ b1s * b1c + b2s * b2c < b1s * (b1c + b2c) then none
    else if data.length < b1s * b1c + b2s * b2c then none
    else if (dilvdPhase3 data b1s b1c b2s b2c).all (fun b => ecLen ≤ b.length) then
      some ((dilvdPhase3 data b1s b1c b2s b2c).map
        (fun b => Block.mk b (b.length - ecLen)))
    else none


theorem interleave_deinterleave_C10_counterexample :
    interleave [[10], []] = some [10]
      ∧ interleave [[20], [30]] = some [20, 30]
      ∧ deinterleave [10, 20, 30] (1, 1, 0, 1) 1 = none := by
  refine ⟨by decide, by decide, by decide⟩

/-! ## Round and chunk structure -/

theorem round_length (i : Nat) :
    ∀ (bs : List (List Nat)), (∀ b ∈ bs, i < b.length) →
      (round i bs).length = bs.length := by
  intro bs
  induction bs with
  | nil => intro _; rfl
  | cons b bs ih =>
    intro h
    have hb : i < b.length := h b (List.mem_cons_self b bs)
    have hsome : b.get? i = some b[i] := List.get?_eq_get hb
    show (List.filterMap _ (b :: bs)).length = _
    rw [List.filterMap_cons, hsome]
    show (_ :: round i bs).length = _
    rw [List.length_cons, ih (fun b2 hb2 => h b2 (List.mem_cons_of_mem b hb2))]
    rfl

theorem round_congr_take (i s : Nat) (hi : i < s) :
    ∀ (bs : List (List Nat)),
      round i (bs.map (fun b => b.take s)) = round i bs := by
  intro bs
  induction bs with
  | nil => rfl
  | cons b bs ih =>
    show List.filterMap _ (b.take s :: _) = List.filterMap _ (b :: bs)
    rw [List.filterMap_cons, List.filterMap_cons]
    have : (b.take s).get? i = b.get? i := by
      rw [List.get?_eq_getElem?, List.get?_eq_getElem?, List.getElem?_take_of_lt hi]
    rw [this]
    cases b.get? i with
    | none => exact ih
    | some v =>
      show v :: round i (bs.map (fun b => b.take s)) = v :: round i bs
      rw [ih]

theorem round_succ (i : Nat) :
    ∀ (bs : List (List Nat)),
      round (i + 1) bs = round i (bs.map (fun b => b.drop 1)) := by
  intro bs
  induction bs with
  | nil => rfl
  | cons b bs ih =>
    show List.filterMap _ (b :: bs) = List.filterMap _ (b.drop 1 :: _)
    rw [List.filterMap_cons, List.filterMap_cons]
    have : b.get? (i + 1) = (b.drop 1).get? i := by
      rw [List.get?_eq_getElem?, List.get?_eq_getElem?, List.getElem?_drop]
      congr 1
      omega
    rw [this]
    cases (b.drop 1).get? i with
    | none => exact ih
    | some v =>
      show v :: round (i + 1) bs = v :: round i (bs.map (fun b => b.drop 1))
      rw [ih]

theorem round_zero_cons (x : Nat) (b : List Nat) (bs : List (List Nat)) :
    round 0 ((x :: b) :: bs) = x :: round 0 bs := by
  show List.filterMap _ ((x :: b) :: bs) = _
  rw [List.filterMap_cons]
  rfl

theorem chunksF_fuel {α : Type} :
    ∀ (fuel fuel' k : Nat) (l : List α), 0 < k → l.length ≤ fuel → l.length ≤ fuel' →
      chunksF fuel k l = chunksF fuel' k l := by
  intro fuel
  induction fuel with
  | zero =>
    intro fuel' k l hk h1 h2
    have : l = [] := List.eq_nil_of_length_eq_zero (by omega)
    subst this
    cases fuel' <;> rfl
  | succ fuel ih =>
    intro fuel' k l hk h1 h2
    cases l with
    | nil => cases fuel' <;> rfl
    | cons x xs =>
      cases fuel' with
      | zero => simp at h2
      | succ fuel2 =>
        show (x :: xs).take k :: chunksF fuel k ((x :: xs).drop k)
          = (x :: xs).take k :: chunksF fuel2 k ((x :: xs).drop k)
        rw [ih fuel2 k ((x :: xs).drop k) hk
          (by rw [List.length_drop]; simp at h1 ⊢; omega)
          (by rw [List.length_drop]; simp at h2 ⊢; omega)]

theorem chunks_append_exact {α : Type} (k : Nat) (a rest : List α)
    (ha : a.length = k) (hk : 0 < k) :
    chunks k (a ++ rest) = a :: chunks k rest := by
  unfold chunks
  cases a with
  | nil =>
    simp at ha
    omega
  | cons x a2 =>
    have hlen : ((x :: a2) ++ rest).length = k + rest.length := by
      rw [List.length_append, ha]
    rw [hlen]
    cases hkk : k + rest.length with
    | zero => omega
    | succ n =>
      show ((x :: a2) ++ rest).take k :: chunksF n k (((x :: a2) ++ rest).drop k) = _
      rw [show ((x :: a2) ++ rest).take k = x :: a2 from by rw [← ha, List.take_left],
        show ((x :: a2) ++ rest).drop k = rest from by rw [← ha, List.drop_left]]
      rw [chunksF_fuel n rest.length k rest hk (by omega) (le_refl _)]

theorem chunks_single {α : Type} (k : Nat) (a : List α) (ha : a.length = k)
    (hk : 0 < k) : chunks k a = [a] := by
  have := chunks_append_exact k a [] ha hk
  rw [List.append_nil] at this
  rw [this]
  rfl

theorem pushRound_length :
    ∀ (ds : List (List Nat)) (ch : List Nat), (pushRound ds ch).length = ds.length := by
  intro ds
  induction ds with
  | nil => intro ch; cases ch <;> rfl
  | cons d ds ih =>
    intro ch
    cases ch with
    | nil => rfl
    | cons v vs =>
      show ((d ++ [v]) :: pushRound ds vs).length = _
      rw [List.length_cons, ih vs, List.length_cons]


theorem flatMap_comp_map {α β γ : Type} (l : List α) (f : α → β) (g : β → List γ) :
    (l.map f).flatMap g = l.flatMap (fun x => g (f x)) := by
  induction l with
  | nil => rfl
  | cons x xs ih => simp only [List.map_cons, List.flatMap_cons, ih]

theorem zipApp_nil_right :
    ∀ (ds : List (List Nat)) (bs : List (List Nat)),
      (∀ b ∈ bs, b.length = 0) → ds.length = bs.length →
      List.zipWith (fun d b => d ++ b) ds bs = ds := by
  intro ds
  induction ds with
  | nil => intro bs _ _; rfl
  | cons d ds ih =>
    intro bs hb hlen
    cases bs with
    | nil => simp at hlen
    | cons b bs2 =>
      have hb0 : b = [] := List.eq_nil_of_length_eq_zero (hb b (List.mem_cons_self b bs2))
      rw [List.zipWith_cons_cons, hb0, List.append_nil,
        ih bs2 (fun b2 hb2 => hb b2 (List.mem_cons_of_mem b hb2)) (by simpa using hlen)]

theorem pushRound_round0 :
    ∀ (ds bs : List (List Nat)), ds.length = bs.length → (∀ b ∈ bs, 1 ≤ b.length) →
      List.zipWith (fun d b => d ++ b) (pushRound ds (round 0 bs))
          (bs.map (fun b => b.drop 1))
        = List.zipWith (fun d b => d ++ b) ds bs := by
  intro ds
  induction ds with
  | nil =>
    intro bs hlen _
    have hbs : bs = [] := List.eq_nil_of_length_eq_zero (by simpa using hlen.symm)
    subst hbs
    rfl
  | cons d ds ih =>
    intro bs hlen hb
    cases bs with
    | nil => simp at hlen
    | cons b bs2 =>
      cases b with
      | nil =>
        have := hb [] (List.mem_cons_self [] bs2)
        simp at this
      | cons x b2 =>
        rw [round_zero_cons]
        show List.zipWith _ ((d ++ [x]) :: pushRound ds (round 0 bs2))
            ((x :: b2).drop 1 :: bs2.map (fun b => b.drop 1))
          = List.zipWith _ (d :: ds) ((x :: b2) :: bs2)
        rw [List.zipWith_cons_cons, List.zipWith_cons_cons,
          ih bs2 (by simpa using hlen)
            (fun b2 hb2 => hb b2 (List.mem_cons_of_mem _ hb2))]
        show ((d ++ [x]) ++ b2) :: _ = (d ++ (x :: b2)) :: _
        rw [List.append_assoc]
        rfl

theorem rounds_flatMap_succ (s : Nat) (bs : List (List Nat)) :
    (List.range (s + 1)).flatMap (fun i => round i bs)
      = round 0 bs
        ++ (List.range s).flatMap (fun i => round i (bs.map (fun b => b.drop 1))) := by
  rw [List.range_succ_eq_map, List.flatMap_cons, flatMap_comp_map]
  congr 1
  exact List.flatMap_congr (fun i _ => round_succ i bs)

theorem core_rounds :
    ∀ (s : Nat) (bs ds : List (List Nat)),
      (∀ b ∈ bs, b.length = s) → ds.length = bs.length → 0 < bs.length →
      (chunks bs.length ((List.range s).flatMap (fun i => round i bs))).foldl
          pushRound ds
        = List.zipWith (fun d b => d ++ b) ds bs := by
  intro s
  induction s with
  | zero =>
    intro bs ds hb hlen hpos
    show (chunks bs.length []).foldl pushRound ds = _
    rw [show chunks bs.length ([] : List Nat) = [] from by
        unfold chunks
        rfl,
      List.foldl_nil, zipApp_nil_right ds bs hb hlen]
  | succ s ih =>
    intro bs ds hb hlen hpos
    rw [rounds_flatMap_succ s bs,
      chunks_append_exact bs.length (round 0 bs) _
        (round_length 0 bs (fun b hbm => by have := hb b hbm; omega)) hpos,
      List.foldl_cons]
    have hml : (bs.map (fun b => List.drop 1 b)).length = bs.length := List.length_map _ _
    rw [← hml]
    rw [ih (bs.map (fun b => b.drop 1)) (pushRound ds (round 0 bs))
        (by intro b2 hb2
            obtain ⟨b0, hb0m, hb0e⟩ := List.mem_map.mp hb2
            rw [← hb0e, List.length_drop, hb b0 hb0m]
            omega)
        (by rw [pushRound_length, hlen, List.length_map])
        (by rw [List.length_map]; exact hpos)]
    exact pushRound_round0 ds bs hlen (fun b hbm => by have := hb b hbm; omega)


/-! ## Shapes of the interleaved stream -/

theorem foldl_max_le : ∀ (l : List Nat) (a m : Nat), (∀ x ∈ l, x ≤ m) → a ≤ m →
    l.foldl max a ≤ m := by
  intro l
  induction l with
  | nil => intro a m _ ha; exact ha
  | cons x xs ih =>
    intro a m hx ha
    exact ih (max a x) m (fun y hy => hx y (List.mem_cons_of_mem x hy))
      (by have := hx x (List.mem_cons_self x xs); omega)

theorem foldl_max_init : ∀ (l : List Nat) (a : Nat), a ≤ l.foldl max a := by
  intro l
  induction l with
  | nil => intro a; exact le_refl a
  | cons x xs ih =>
    intro a
    calc a ≤ max a x := le_max_left a x
      _ ≤ xs.foldl max (max a x) := ih (max a x)

theorem le_foldl_max : ∀ (l : List Nat) (a x : Nat), x ∈ l → x ≤ l.foldl max a := by
  intro l
  induction l with
  | nil => intro a x hx; exact absurd hx (List.not_mem_nil x)
  | cons y ys ih =>
    intro a x hx
    rcases List.mem_cons.mp hx with h | h
    · subst h
      calc x ≤ max a x := le_max_right a x
        _ ≤ ys.foldl max (max a x) := foldl_max_init ys (max a x)
    · exact ih (max a y) x h

theorem maxBlockSize_uniform (bs : List (List Nat)) (s : Nat) (hne : bs ≠ [])
    (hb : ∀ b ∈ bs, b.length = s) : maxBlockSize bs = s := by
  unfold maxBlockSize
  refine Nat.le_antisymm ?_ ?_
  · refine foldl_max_le (bs.map List.length) 0 s ?_ (by omega)
    intro x hx
    obtain ⟨b, hbm, hbe⟩ := List.mem_map.mp hx
    rw [← hbe, hb b hbm]
  · obtain ⟨b, hbm⟩ := List.exists_mem_of_ne_nil bs hne
    have := le_foldl_max (bs.map List.length) 0 b.length
      (List.mem_map.mpr ⟨b, hbm, rfl⟩)
    rw [hb b hbm] at this
    exact this

theorem maxBlockSize_mixed (d1 d2 : List (List Nat)) (s : Nat) (hne : d2 ≠ [])
    (h1 : ∀ b ∈ d1, b.length = s) (h2 : ∀ b ∈ d2, b.length = s + 1) :
    maxBlockSize (d1 ++ d2) = s + 1 := by
  unfold maxBlockSize
  refine Nat.le_antisymm ?_ ?_
  · refine foldl_max_le ((d1 ++ d2).map List.length) 0 (s + 1) ?_ (by omega)
    intro x hx
    obtain ⟨b, hbm, hbe⟩ := List.mem_map.mp hx
    rcases List.mem_append.mp hbm with h | h
    · rw [← hbe, h1 b h]
      omega
    · rw [← hbe, h2 b h]
  · obtain ⟨b, hbm⟩ := List.exists_mem_of_ne_nil d2 hne
    have := le_foldl_max ((d1 ++ d2).map List.length) 0 b.length
      (List.mem_map.mpr ⟨b, List.mem_append_right d1 hbm, rfl⟩)
    rw [h2 b hbm] at this
    exact this

theorem round_append (i : Nat) (xs ys : List (List Nat)) :
    round i (xs ++ ys) = round i xs ++ round i ys := by
  unfold round
  rw [List.filterMap_append]

theorem round_short (i : Nat) :
    ∀ (bs : List (List Nat)), (∀ b ∈ bs, b.length ≤ i) → round i bs = [] := by
  intro bs
  induction bs with
  | nil => intro _; rfl
  | cons b bs ih =>
    intro h
    show List.filterMap _ (b :: bs) = []
    rw [List.filterMap_cons]
    have : b.get? i = none := by
      rw [List.get?_eq_getElem?, List.getElem?_eq_none]
      exact h b (List.mem_cons_self b bs)
    rw [this]
    exact ih (fun b2 hb2 => h b2 (List.mem_cons_of_mem b hb2))

theorem round_getD (i : Nat) :
    ∀ (bs : List (List Nat)), (∀ b ∈ bs, i < b.length) →
      round i bs = bs.map (fun b => b.getD i 0) := by
  intro bs
  induction bs with
  | nil => intro _; rfl
  | cons b bs ih =>
    intro h
    show List.filterMap _ (b :: bs) = _
    rw [List.filterMap_cons]
    have hb : i < b.length := h b (List.mem_cons_self b bs)
    rw [List.get?_eq_get hb]
    show b.get ⟨i, hb⟩ :: round i bs = b.getD i 0 :: _
    rw [ih (fun b2 hb2 => h b2 (List.mem_cons_of_mem b hb2)),
      List.getD_eq_getElem?_getD, List.getElem?_eq_getElem hb]
    rfl

theorem rounds_length :
    ∀ (s : Nat) (bs : List (List Nat)), (∀ b ∈ bs, s ≤ b.length) →
      ((List.range s).flatMap (fun i => round i bs)).length = s * bs.length := by
  intro s
  induction s with
  | zero => intro bs _; simp
  | succ s ih =>
    intro bs h
    rw [List.range_succ, List.flatMap_append, List.length_append,
      ih bs (fun b hb => by have := h b hb; omega)]
    show s * bs.length + (round s bs ++ []).length = _
    rw [List.append_nil, round_length s bs (fun b hb => by have := h b hb; omega)]
    ring

theorem zipApp_replicate_nil :
    ∀ (bs : List (List Nat)),
      List.zipWith (fun d b => d ++ b) (List.replicate bs.length []) bs = bs := by
  intro bs
  induction bs with
  | nil => rfl
  | cons b bs ih =>
    show List.zipWith _ ([] :: List.replicate bs.length []) (b :: bs) = _
    rw [List.zipWith_cons_cons, ih]
    rfl

theorem take_getD_eq :
    ∀ (s : Nat) (b : List Nat), b.length = s + 1 → b.take s ++ [b.getD s 0] = b := by
  intro s
  induction s with
  | zero =>
    intro b hb
    cases b with
    | nil => simp at hb
    | cons x b2 =>
      have : b2 = [] := List.eq_nil_of_length_eq_zero (by simpa using hb)
      subst this
      rfl
  | succ s ih =>
    intro b hb
    cases b with
    | nil => simp at hb
    | cons x b2 =>
      show x :: (b2.take s ++ [b2.getD s 0]) = x :: b2
      rw [ih b2 (by simpa using hb)]

theorem pushRound_take_getD (s : Nat) :
    ∀ (bs : List (List Nat)), (∀ b ∈ bs, b.length = s + 1) →
      pushRound (bs.map (fun b => b.take s)) (bs.map (fun b => b.getD s 0)) = bs := by
  intro bs
  induction bs with
  | nil => intro _; rfl
  | cons b bs ih =>
    intro h
    show pushRound (b.take s :: _) (b.getD s 0 :: _) = _
    show (b.take s ++ [b.getD s 0]) :: pushRound _ _ = b :: bs
    rw [take_getD_eq s b (h b (List.mem_cons_self b bs)),
      ih (fun b2 hb2 => h b2 (List.mem_cons_of_mem b hb2))]

theorem zip_block_map (ec : Nat) :
    ∀ (ds es : List (List Nat)), ds.length = es.length → (∀ e ∈ es, e.length = ec) →
      ((List.zipWith (fun d b => d ++ b) ds es).all (fun b => decide (ec ≤ b.length))
          = true)
        ∧ (List.zipWith (fun d b => d ++ b) ds es).map
            (fun b => Block.mk b (b.length - ec))
          = List.zipWith (fun d e => Block.mk (d ++ e) d.length) ds es := by
  intro ds
  induction ds with
  | nil => intro es _ _; exact ⟨rfl, rfl⟩
  | cons d ds ih =>
    intro es hlen he
    cases es with
    | nil => simp at hlen
    | cons e es2 =>
      obtain ⟨ha, hm⟩ := ih es2 (by simpa using hlen)
        (fun e2 he2 => he e2 (List.mem_cons_of_mem e he2))
      have hel : e.length = ec := he e (List.mem_cons_self e es2)
      constructor
      · rw [List.zipWith_cons_cons, List.all_cons, ha]
        simp [List.length_append, hel]
      · rw [List.zipWith_cons_cons, List.map_cons, hm, List.zipWith_cons_cons]
        congr 1
        rw [List.length_append, hel]
        congr 1
        omega


set_option maxHeartbeats 1000000 in
/-- **C10** (amended). For a block layout `(s1, c1, s2, c2)` with
`c2 = 0 ∨ s2 = s1 + 1`, deinterleaving the interleaved data stream followed
by the interleaved ECC stream reconstructs every block with its ECC
appended. (The original claim also admits `s2 = 0` with `c2 > 0`, where
`deinterleave` panics on the `data[spl..data_sz]` slice or misassigns
bytes — see the counterexample.) -/
theorem interleave_deinterleave_C10
    (s1 c1 s2 c2 ecLen : Nat) (D1 D2 E : List (List Nat))
    (hD1 : D1.length = c1) (hD2 : D2.length = c2) (hE : E.length = c1 + c2)
    (hl1 : ∀ b ∈ D1, b.length = s1) (hl2 : ∀ b ∈ D2, b.length = s2)
    (hlE : ∀ b ∈ E, b.length = ecLen)
    (hne : 0 < c1 + c2) (hs2 : c2 = 0 ∨ s2 = s1 + 1) :
    ∃ di ei, interleave (D1 ++ D2) = some di ∧ interleave E = some ei
      ∧ deinterleave (di ++ ei) (s1, c1, s2, c2) ecLen
        = some (List.zipWith (fun d e => Block.mk (d ++ e) d.length) (D1 ++ D2) E) := by
  have hDne : D1 ++ D2 ≠ [] := by
    intro h
    have := congrArg List.length h
    rw [List.length_append, hD1, hD2] at this
    simp at this
    omega
  have hEne : E ≠ [] := by
    intro h
    rw [h] at hE
    simp at hE
    omega
  have hiE : interleave E = some ((List.range ecLen).flatMap (fun i => round i E)) := by
    unfold interleave
    rw [if_neg hEne, maxBlockSize_uniform E ecLen hEne hlE]
  have hElen : ((List.range ecLen).flatMap (fun i => round i E)).length
      = ecLen * (c1 + c2) := by
    rw [rounds_length ecLen E (fun b hb => le_of_eq (hlE b hb).symm), hE]
  by_cases hc20 : c2 = 0
  · -- second group empty
    subst hc20
    have hD2nil : D2 = [] := List.eq_nil_of_length_eq_zero hD2
    subst hD2nil
    rw [List.append_nil] at hDne ⊢
    have hc1 : 0 < c1 := by omega
    have hbody : interleave D1
        = some ((List.range s1).flatMap (fun i => round i D1)) := by
      unfold interleave
      rw [if_neg hDne, maxBlockSize_uniform D1 s1 hDne hl1]
    have hAlen : ((List.range s1).flatMap (fun i => round i D1)).length
        = s1 * (c1 + 0) := by
      rw [rounds_length s1 D1 (fun b hb => le_of_eq (hl1 b hb).symm), hD1]
      ring
    refine ⟨_, _, hbody, hiE, ?_⟩
    simp only [deinterleave]
    rw [if_neg (by omega : ¬ (c1 + 0 = 0))]
    rw [if_neg (by
      rw [List.length_append, hAlen, hElen]
      push_neg
      omega)]
    rw [if_neg (by
      push_neg
      intro h
      omega)]
    rw [if_neg (by
      rw [List.length_append, hAlen, hElen]
      push_neg
      have : s1 * c1 + s2 * 0 = s1 * (c1 + 0) := by ring
      omega)]
    have hphase1 : dilvdPhase1
        ((List.range s1).flatMap (fun i => round i D1)
          ++ (List.range ecLen).flatMap (fun i => round i E)) s1 c1 s2 0
        = D1 := by
      unfold dilvdPhase1
      rw [List.take_left' (by rw [hAlen])]
      rw [show c1 + 0 = D1.length from by omega]
      rw [core_rounds s1 D1 (List.replicate D1.length []) hl1
        (List.length_replicate _ _) (by omega)]
      exact zipApp_replicate_nil D1
    have hphase2 : dilvdPhase2
        ((List.range s1).flatMap (fun i => round i D1)
          ++ (List.range ecLen).flatMap (fun i => round i E)) s1 c1 s2 0
        = D1 := by
      unfold dilvdPhase2
      rw [if_neg (by omega)]
      exact hphase1
    have hphase3 : dilvdPhase3
        ((List.range s1).flatMap (fun i => round i D1)
          ++ (List.range ecLen).flatMap (fun i => round i E)) s1 c1 s2 0
        = List.zipWith (fun d b => d ++ b) D1 E := by
      unfold dilvdPhase3
      rw [hphase2]
      rw [List.drop_left' (by rw [hAlen]; ring)]
      rw [show c1 + 0 = E.length from by omega]
      rw [core_rounds ecLen E D1 hlE (by omega) (by omega)]
    rw [hphase3]
    obtain ⟨hall, hmap⟩ := zip_block_map ecLen D1 E (by omega) hlE
    rw [if_pos hall, hmap]
  · -- second group one byte longer
    have hs21 : s2 = s1 + 1 := by
      rcases hs2 with h | h
      · exact absurd h hc20
      · exact h
    subst hs21
    have hc2 : 0 < c2 := by omega
    have hD2ne : D2 ≠ [] := by
      intro h
      rw [h] at hD2
      simp at hD2
      omega
    have hBSlen : ∀ b ∈ (D1 ++ D2).map (fun b => b.take s1), b.length = s1 := by
      intro b hb
      obtain ⟨b0, hb0m, hb0e⟩ := List.mem_map.mp hb
      rcases List.mem_append.mp hb0m with h | h
      · rw [← hb0e, List.length_take, hl1 b0 h]
        omega
      · rw [← hb0e, List.length_take, hl2 b0 h]
        omega
    have hbody : interleave (D1 ++ D2)
        = some (((List.range s1).flatMap
              (fun i => round i ((D1 ++ D2).map (fun b => b.take s1))))
            ++ round s1 (D1 ++ D2)) := by
      unfold interleave
      rw [if_neg hDne, maxBlockSize_mixed D1 D2 s1 hD2ne hl1 hl2,
        List.range_succ, List.flatMap_append, List.flatMap_cons, List.flatMap_nil,
        List.append_nil]
      rw [List.flatMap_congr (fun i hi =>
        (round_congr_take i s1 (List.mem_range.mp hi) (D1 ++ D2)).symm)]
    have hB : round s1 (D1 ++ D2) = D2.map (fun b => b.getD s1 0) := by
      rw [round_append, round_short s1 D1 (fun b hb => by rw [hl1 b hb]),
        round_getD s1 D2 (fun b hb => by rw [hl2 b hb]; omega)]
      rfl
    have hAlen : ((List.range s1).flatMap
        (fun i => round i ((D1 ++ D2).map (fun b => b.take s1)))).length
        = s1 * (c1 + c2) := by
      rw [rounds_length s1 _ (fun b hb => le_of_eq (hBSlen b hb).symm)]
      rw [List.length_map, List.length_append, hD1, hD2]
    have hBlen : (round s1 (D1 ++ D2)).length = c2 := by
      rw [hB, List.length_map, hD2]
    refine ⟨_, _, hbody, hiE, ?_⟩
    simp only [deinterleave]
    rw [if_neg (by omega : ¬ (c1 + c2 = 0))]
    have hdlen : (((List.range s1).flatMap
          (fun i => round i ((D1 ++ D2).map (fun b => b.take s1)))
        ++ round s1 (D1 ++ D2))
        ++ (List.range ecLen).flatMap (fun i => round i E)).length
        = s1 * (c1 + c2) + c2 + ecLen * (c1 + c2) := by
      rw [List.length_append, List.length_append, hAlen, hBlen, hElen]
    have hds : s1 * c1 + (s1 + 1) * c2 = s1 * (c1 + c2) + c2 := by ring
    rw [if_neg (by rw [hdlen]; push_neg; omega)]
    rw [if_neg (by push_neg; intro h; omega)]
    rw [if_neg (by rw [hdlen]; push_neg; omega)]
    have hassoc : (((List.range s1).flatMap
          (fun i => round i ((D1 ++ D2).map (fun b => b.take s1)))
        ++ round s1 (D1 ++ D2))
        ++ (List.range ecLen).flatMap (fun i => round i E))
        = ((List.range s1).flatMap
            (fun i => round i ((D1 ++ D2).map (fun b => b.take s1))))
          ++ (round s1 (D1 ++ D2)
            ++ (List.range ecLen).flatMap (fun i => round i E)) := by
      rw [List.append_assoc]
    have hphase1 : dilvdPhase1
        ((((List.range s1).flatMap
            (fun i => round i ((D1 ++ D2).map (fun b => b.take s1)))
          ++ round s1 (D1 ++ D2))
          ++ (List.range ecLen).flatMap (fun i => round i E))) s1 c1 (s1 + 1) c2
        = (D1 ++ D2).map (fun b => b.take s1) := by
      unfold dilvdPhase1
      rw [hassoc, List.take_left' (by rw [hAlen])]
      rw [show c1 + c2 = ((D1 ++ D2).map (fun b => b.take s1)).length from by
        rw [List.length_map, List.length_append, hD1, hD2]]
      rw [core_rounds s1 _ _ hBSlen (List.length_replicate _ _)
        (by rw [List.length_map, List.length_append, hD1, hD2]; omega)]
      exact zipApp_replicate_nil _
    have hphase2 : dilvdPhase2
        ((((List.range s1).flatMap
            (fun i => round i ((D1 ++ D2).map (fun b => b.take s1)))
          ++ round s1 (D1 ++ D2))
          ++ (List.range ecLen).flatMap (fun i => round i E))) s1 c1 (s1 + 1) c2
        = D1 ++ D2 := by
      unfold dilvdPhase2
      rw [if_pos hc2, hphase1]
      rw [show s1 * c1 + (s1 + 1) * c2 = (((List.range s1).flatMap
            (fun i => round i ((D1 ++ D2).map (fun b => b.take s1)))
          ++ round s1 (D1 ++ D2))).length from by
        rw [List.length_append, hAlen, hBlen]; ring]
      rw [List.take_left, List.drop_left' (by rw [hAlen])]
      rw [chunks_single c2 _ hBlen hc2]
      rw [List.foldl_cons, List.foldl_nil]
      unfold pushRoundAt
      rw [List.map_append]
      rw [List.take_left' (by rw [List.length_map, hD1]),
        List.drop_left' (by rw [List.length_map, hD1])]
      rw [hB, pushRound_take_getD s1 D2 (fun b hb => by rw [hl2 b hb])]
      congr 1
      have : D1.map (fun b => b.take s1) = D1.map id := by
        refine List.map_congr_left ?_
        intro b hb
        exact List.take_of_length_le (by rw [hl1 b hb])
      rw [this, List.map_id]
    have hphase3 : dilvdPhase3
        ((((List.range s1).flatMap
            (fun i => round i ((D1 ++ D2).map (fun b => b.take s1)))
          ++ round s1 (D1 ++ D2))
          ++ (List.range ecLen).flatMap (fun i => round i E))) s1 c1 (s1 + 1) c2
        = List.zipWith (fun d b => d ++ b) (D1 ++ D2) E := by
      unfold dilvdPhase3
      rw [hphase2]
      rw [show s1 * c1 + (s1 + 1) * c2 = (((List.range s1).flatMap
            (fun i => round i ((D1 ++ D2).map (fun b => b.take s1)))
          ++ round s1 (D1 ++ D2))).length from by
        rw [List.length_append, hAlen, hBlen]; ring]
      rw [List.drop_left]
      rw [show c1 + c2 = E.length from by omega]
      rw [core_rounds ecLen E (D1 ++ D2) hlE
        (by rw [List.length_append, hD1, hD2]; omega) (by omega)]
    rw [hphase3]
    obtain ⟨hall, hmap⟩ := zip_block_map ecLen (D1 ++ D2) E
      (by rw [List.length_append, hD1, hD2]; omega) hlE
    rw [if_pos hall, hmap]

theorem interleave_deinterleave_C10_witness :
    ((([[1, 2]] : List (List Nat)).length = 1 ∧ ([[3, 4, 5]] : List (List Nat)).length = 1
        ∧ ([[6], [7]] : List (List Nat)).length = 1 + 1)
      ∧ (0 < 1 + 1) ∧ ((1 : Nat) = 0 ∨ 3 = 2 + 1))
      ∧ ∃ di ei, interleave ([[1, 2]] ++ [[3, 4, 5]]) = some di
        ∧ interleave [[6], [7]] = some ei
        ∧ deinterleave (di ++ ei) (2, 1, 3, 1) 1
          = some (List.zipWith (fun d e => Block.mk (d ++ e) d.length)
              ([[1, 2]] ++ [[3, 4, 5]]) [[6], [7]]) :=
  ⟨⟨⟨rfl, rfl, rfl⟩, by omega, by omega⟩,
    interleave_deinterleave_C10 2 1 3 1 1 [[1, 2]] [[3, 4, 5]] [[6], [7]]
      rfl rfl rfl (by decide) (by decide) (by decide) (by omega) (by omega)⟩

end QR10

namespace QRF

/-! ## `group_finders` (`src/reader/finder.rs`)

Finders are abstracted by their index `0..n`; the homography reading
`f1.h.unmap(&f2.center)` is an abstract parameter `unmap` returning exact
rationals in place of `f64`. Everything downstream of `unmap` is translated
from the source. -/

inductive Orientation where
  | Horizontal
  | Vertical
  | NoOrient
deriving DecidableEq

/-- `f64::abs`, computably on the rational model. -/
def qabs (x : ℚ) : ℚ := if x < 0 then -x else x

theorem qabs_eq_abs (x : ℚ) : qabs x = |x| := by
  unfold qabs
  by_cases h : x < 0
  · rw [if_pos h, abs_of_neg h]
  · rw [if_neg h, abs_of_nonneg (not_lt.mp h)]

/-- `get_relative_position`: classify finder `j` as seen from datum `i`
and return the axis distance (`3.5` is the finder-pattern centre, `0.2`
the tolerance slope). -/
def getRelativePosition (unmap : Nat → Nat → ℚ × ℚ) (i j : Nat) : Orientation × ℚ :=
  if qabs ((unmap i j).2 - 7/2) < 1/5 * qabs ((unmap i j).1 - 7/2) then
    (Orientation.Horizontal, qabs ((unmap i j).1 - 7/2))
  else if qabs ((unmap i j).1 - 7/2) < 1/5 * qabs ((unmap i j).2 - 7/2) then
    (Orientation.Vertical, qabs ((unmap i j).2 - 7/2))
  else (Orientation.NoOrient, 0)

/-- State of the best-pair scan: `(best_score, ih, iv)`. -/
def GFState : Type := ℚ × Option Nat × Option Nat

/-- Innermost loop body (over `i3`). -/
def innerStep (rel : Nat → Nat → Orientation × ℚ) (i1 i2 : Nat)
    (st : GFState) (i3 : Nat) : GFState :=
  if i3 = i2 ∨ i3 = i1 then st
  else
    match (rel i1 i2).1, (rel i1 i3).1 with
    | Orientation.Horizontal, Orientation.Vertical =>
      if qabs (1 - (rel i1 i2).2 / (rel i1 i3).2) < st.1 then
        (qabs (1 - (rel i1 i2).2 / (rel i1 i3).2), some i2, some i3)
      else st
    | Orientation.Vertical, Orientation.Horizontal =>
      if qabs (1 - (rel i1 i2).2 / (rel i1 i3).2) < st.1 then
        (qabs (1 - (rel i1 i2).2 / (rel i1 i3).2), some i3, some i2)
      else st
    | _, _ => st

/-- Middle loop body (over `i2`): skip the datum itself and unoriented
neighbours, then scan all `i3`. -/
def midStep (rel : Nat → Nat → Orientation × ℚ) (i1 n : Nat)
    (st : GFState) (i2 : Nat) : GFState :=
  if i2 = i1 then st
  else if (rel i1 i2).1 = Orientation.NoOrient then st
  else (List.range n).foldl (innerStep rel i1 i2) st

/-- The `(ih, iv, best_score)` scan of `group_finders` for datum `i1`
(`best_score` starts at `2.5`). -/
def bestPair (rel : Nat → Nat → Orientation × ℚ) (n i1 : Nat) : GFState :=
  (List.range n).foldl (midStep rel i1 n) (5/2, none, none)

/-- `group_finders`: one candidate group `[iv, i1, ih]` per datum that found
both neighbours, sorted ascending by score. -/
def groupFinders (unmap : Nat → Nat → ℚ × ℚ) (n : Nat) : List (List Nat × ℚ) :=
  ((List.range n).filterMap (fun i1 =>
    match bestPair (getRelativePosition unmap) n i1 with
    | (score, some ih, some iv) => some ([iv, i1, ih], score)
    | _ => none)).mergeSort (fun a b => decide (a.2 ≤ b.2))



/-- Reference strict-improvement minimum scan. -/
def argminScan (items : List (ℚ × Nat × Nat)) (st : ℚ × Option (Nat × Nat)) :
    ℚ × Option (Nat × Nat) :=
  items.foldl (fun st it => if it.1 < st.1 then (it.1, some it.2) else st) st

/-- View of an `argminScan` state as a `bestPair` state. -/
def stView (st : ℚ × Option (Nat × Nat)) : GFState :=
  (st.1, st.2.map Prod.fst, st.2.map Prod.snd)


theorem foldl_flatMap {α β σ : Type} (l : List α) (g : α → List β)
    (f : σ → β → σ) (st : σ) :
    (l.flatMap g).foldl f st = l.foldl (fun st x => (g x).foldl f st) st := by
  induction l generalizing st with
  | nil => rfl
  | cons x xs ih =>
    rw [List.flatMap_cons, List.foldl_append, List.foldl_cons, ih]

theorem argminScan_step (it : ℚ × Nat × Nat) (st : ℚ × Option (Nat × Nat)) :
    argminScan [it] st = if it.1 < st.1 then (it.1, some it.2) else st := rfl

theorem stView_fst (st : ℚ × Option (Nat × Nat)) : (stView st).1 = st.1 := rfl

theorem argminScan_append (a b : List (ℚ × Nat × Nat)) (st : ℚ × Option (Nat × Nat)) :
    argminScan (a ++ b) st = argminScan b (argminScan a st) := by
  unfold argminScan
  rw [List.foldl_append]

/-- One `i3` iteration seen through `stView`. -/
def innerItems (rel : Nat → Nat → Orientation × ℚ) (i1 i2 i3 : Nat) :
    List (ℚ × Nat × Nat) :=
  if i3 = i2 ∨ i3 = i1 then []
  else
    match (rel i1 i2).1, (rel i1 i3).1 with
    | Orientation.Horizontal, Orientation.Vertical =>
      [(qabs (1 - (rel i1 i2).2 / (rel i1 i3).2), i2, i3)]
    | Orientation.Vertical, Orientation.Horizontal =>
      [(qabs (1 - (rel i1 i2).2 / (rel i1 i3).2), i3, i2)]
    | _, _ => []

theorem innerStep_view (rel : Nat → Nat → Orientation × ℚ) (i1 i2 i3 : Nat)
    (st : ℚ × Option (Nat × Nat)) :
    innerStep rel i1 i2 (stView st) i3
      = stView (argminScan (innerItems rel i1 i2 i3) st) := by
  unfold innerStep innerItems
  by_cases hg : i3 = i2 ∨ i3 = i1
  · rw [if_pos hg, if_pos hg]
    rfl
  · rw [if_neg hg, if_neg hg]
    rcases h2 : (rel i1 i2).1 <;> rcases h3 : (rel i1 i3).1 <;>
      first
      | rfl
      | (rw [stView_fst]
         show (if qabs (1 - (rel i1 i2).2 / (rel i1 i3).2) < st.1
               then (qabs (1 - (rel i1 i2).2 / (rel i1 i3).2), some i2, some i3)
               else stView st)
             = stView (if qabs (1 - (rel i1 i2).2 / (rel i1 i3).2) < st.1
               then (qabs (1 - (rel i1 i2).2 / (rel i1 i3).2), some (i2, i3)) else st)
         by_cases hlt : qabs (1 - (rel i1 i2).2 / (rel i1 i3).2) < st.1
         · rw [if_pos hlt, if_pos hlt]
           rfl
         · rw [if_neg hlt, if_neg hlt])
      | (rw [stView_fst]
         show (if qabs (1 - (rel i1 i2).2 / (rel i1 i3).2) < st.1
               then (qabs (1 - (rel i1 i2).2 / (rel i1 i3).2), some i3, some i2)
               else stView st)
             = stView (if qabs (1 - (rel i1 i2).2 / (rel i1 i3).2) < st.1
               then (qabs (1 - (rel i1 i2).2 / (rel i1 i3).2), some (i3, i2)) else st)
         by_cases hlt : qabs (1 - (rel i1 i2).2 / (rel i1 i3).2) < st.1
         · rw [if_pos hlt, if_pos hlt]
           rfl
         · rw [if_neg hlt, if_neg hlt])

theorem inner_bridge (rel : Nat → Nat → Orientation × ℚ) (i1 i2 : Nat) :
    ∀ (i3s : List Nat) (st : ℚ × Option (Nat × Nat)),
      i3s.foldl (innerStep rel i1 i2) (stView st)
        = stView (argminScan (i3s.flatMap (innerItems rel i1 i2)) st) := by
  intro i3s
  induction i3s with
  | nil => intro st; rfl
  | cons i3 i3s ih =>
    intro st
    rw [List.foldl_cons, List.flatMap_cons, argminScan_append,
      innerStep_view rel i1 i2 i3 st, ih (argminScan (innerItems rel i1 i2 i3) st)]


/-- Candidates contributed by neighbour `i2` of datum `i1`. -/
def midItems (rel : Nat → Nat → Orientation × ℚ) (n i1 i2 : Nat) :
    List (ℚ × Nat × Nat) :=
  if i2 = i1 then []
  else if (rel i1 i2).1 = Orientation.NoOrient then []
  else (List.range n).flatMap (innerItems rel i1 i2)

/-- All candidate scores of datum `i1`, with the `(ih, iv)` pair they would
record, in scan order. -/
def candList (rel : Nat → Nat → Orientation × ℚ) (n i1 : Nat) :
    List (ℚ × Nat × Nat) :=
  (List.range n).flatMap (midItems rel n i1)

theorem foldl_stView (step : GFState → Nat → GFState)
    (items : Nat → List (ℚ × Nat × Nat))
    (hstep : ∀ st i, step (stView st) i = stView (argminScan (items i) st)) :
    ∀ (l : List Nat) (st : ℚ × Option (Nat × Nat)),
      l.foldl step (stView st) = stView (argminScan (l.flatMap items) st) := by
  intro l
  induction l with
  | nil => intro st; rfl
  | cons x xs ih =>
    intro st
    rw [List.foldl_cons, List.flatMap_cons, argminScan_append, hstep st x, ih]

theorem midStep_view (rel : Nat → Nat → Orientation × ℚ) (i1 n : Nat)
    (st : ℚ × Option (Nat × Nat)) (i2 : Nat) :
    midStep rel i1 n (stView st) i2 = stView (argminScan (midItems rel n i1 i2) st) := by
  unfold midStep midItems
  by_cases h1 : i2 = i1
  · rw [if_pos h1, if_pos h1]
    rfl
  · rw [if_neg h1, if_neg h1]
    by_cases h2 : (rel i1 i2).1 = Orientation.NoOrient
    · rw [if_pos h2, if_pos h2]
      rfl
    · rw [if_neg h2, if_neg h2]
      exact foldl_stView (innerStep rel i1 i2) (innerItems rel i1 i2)
        (fun st2 i3 => innerStep_view rel i1 i2 i3 st2) (List.range n) st

theorem bestPair_eq (rel : Nat → Nat → Orientation × ℚ) (n i1 : Nat) :
    bestPair rel n i1 = stView (argminScan (candList rel n i1) (5/2, none)) := by
  show (List.range n).foldl (midStep rel i1 n) (stView (5/2, none)) = _
  exact foldl_stView (midStep rel i1 n) (midItems rel n i1)
    (fun st i2 => midStep_view rel i1 n st i2) (List.range n) (5/2, none)

theorem argminScan_spec :
    ∀ (items : List (ℚ × Nat × Nat)) (b0 : ℚ) (p0 : Option (Nat × Nat)),
      (argminScan items (b0, p0) = (b0, p0) ∧ ∀ it ∈ items, b0 ≤ it.1)
        ∨ (∃ it ∈ items, argminScan items (b0, p0) = (it.1, some it.2)
            ∧ it.1 < b0 ∧ ∀ it2 ∈ items, it.1 ≤ it2.1) := by
  intro items
  induction items with
  | nil =>
    intro b0 p0
    left
    exact ⟨rfl, by intro it hit; exact absurd hit (List.not_mem_nil it)⟩
  | cons it items ih =>
    intro b0 p0
    have hstep : argminScan (it :: items) (b0, p0)
        = argminScan items (if it.1 < b0 then (it.1, some it.2) else (b0, p0)) := rfl
    by_cases hlt : it.1 < b0
    · rw [hstep, if_pos hlt] at *
      rcases ih it.1 (some it.2) with ⟨heq, hall⟩ | ⟨it2, hmem, heq, hlt2, hall⟩
      · right
        refine ⟨it, List.mem_cons_self it items, heq, hlt, ?_⟩
        intro it2 hit2
        rcases List.mem_cons.mp hit2 with h | h
        · rw [h]
        · exact hall it2 h
      · right
        refine ⟨it2, List.mem_cons_of_mem it hmem, heq, lt_trans hlt2 hlt, ?_⟩
        intro it3 hit3
        rcases List.mem_cons.mp hit3 with h | h
        · rw [h]
          exact le_of_lt hlt2
        · exact hall it3 h
    · rw [hstep, if_neg hlt] at *
      rcases ih b0 p0 with ⟨heq, hall⟩ | ⟨it2, hmem, heq, hlt2, hall⟩
      · left
        refine ⟨heq, ?_⟩
        intro it2 hit2
        rcases List.mem_cons.mp hit2 with h | h
        · rw [h]
          exact not_lt.mp hlt
        · exact hall it2 h
      · right
        refine ⟨it2, List.mem_cons_of_mem it hmem, heq, hlt2, ?_⟩
        intro it3 hit3
        rcases List.mem_cons.mp hit3 with h | h
        · rw [h]
          exact le_trans (le_of_lt hlt2) (not_lt.mp hlt)
        · exact hall it3 h


theorem mem_candList (rel : Nat → Nat → Orientation × ℚ) (n i1 : Nat)
    (s : ℚ) (h v : Nat) :
    (s, h, v) ∈ candList rel n i1 ↔
      ∃ dh dv, rel i1 h = (Orientation.Horizontal, dh)
        ∧ rel i1 v = (Orientation.Vertical, dv)
        ∧ h < n ∧ v < n ∧ h ≠ i1 ∧ v ≠ i1 ∧ h ≠ v
        ∧ (s = |1 - dh / dv| ∨ s = |1 - dv / dh|) := by
  unfold candList
  rw [List.mem_flatMap]
  constructor
  · rintro ⟨i2, hi2, hmem⟩
    unfold midItems at hmem
    by_cases h1 : i2 = i1
    · rw [if_pos h1] at hmem
      exact absurd hmem (List.not_mem_nil _)
    rw [if_neg h1] at hmem
    by_cases h2 : (rel i1 i2).1 = Orientation.NoOrient
    · rw [if_pos h2] at hmem
      exact absurd hmem (List.not_mem_nil _)
    rw [if_neg h2, List.mem_flatMap] at hmem
    obtain ⟨i3, hi3, hmem2⟩ := hmem
    unfold innerItems at hmem2
    by_cases hg : i3 = i2 ∨ i3 = i1
    · rw [if_pos hg] at hmem2
      exact absurd hmem2 (List.not_mem_nil _)
    rw [if_neg hg] at hmem2
    rcases ho2 : (rel i1 i2).1 <;> rcases ho3 : (rel i1 i3).1 <;>
      rw [ho2, ho3] at hmem2 <;>
      try exact absurd hmem2 (List.not_mem_nil _)
    · -- Horizontal, Vertical
      have he : (s, h, v) = (qabs (1 - (rel i1 i2).2 / (rel i1 i3).2), i2, i3) :=
        List.mem_singleton.mp hmem2
      have hs : s = qabs (1 - (rel i1 i2).2 / (rel i1 i3).2) := congrArg Prod.fst he
      have hh : h = i2 := congrArg (fun z => z.2.1) he
      have hv : v = i3 := congrArg (fun z => z.2.2) he
      subst hh
      subst hv
      refine ⟨(rel i1 h).2, (rel i1 v).2, ?_, ?_, List.mem_range.mp hi2,
        List.mem_range.mp hi3, h1, fun hc => hg (Or.inr hc),
        fun hc => hg (Or.inl hc.symm), Or.inl (by rw [hs, qabs_eq_abs])⟩
      · rw [← ho2]
      · rw [← ho3]
    · -- Vertical, Horizontal
      have he : (s, h, v) = (qabs (1 - (rel i1 i2).2 / (rel i1 i3).2), i3, i2) :=
        List.mem_singleton.mp hmem2
      have hs : s = qabs (1 - (rel i1 i2).2 / (rel i1 i3).2) := congrArg Prod.fst he
      have hh : h = i3 := congrArg (fun z => z.2.1) he
      have hv : v = i2 := congrArg (fun z => z.2.2) he
      subst hh
      subst hv
      refine ⟨(rel i1 h).2, (rel i1 v).2, ?_, ?_, List.mem_range.mp hi3,
        List.mem_range.mp hi2, fun hc => hg (Or.inr hc), h1,
        fun hc => hg (Or.inl hc), Or.inr (by rw [hs, qabs_eq_abs])⟩
      · rw [← ho3]
      · rw [← ho2]
  · rintro ⟨dh, dv, hrh, hrv, hhn, hvn, hhi, hvi, hhv, hs | hs⟩
    · refine ⟨h, List.mem_range.mpr hhn, ?_⟩
      unfold midItems
      rw [if_neg hhi, if_neg (by rw [hrh]; exact fun hc => nomatch hc)]
      rw [List.mem_flatMap]
      refine ⟨v, List.mem_range.mpr hvn, ?_⟩
      unfold innerItems
      rw [if_neg (by push_neg; exact ⟨fun hc => hhv hc.symm, hvi⟩)]
      rw [hrh, hrv]
      show (s, h, v) ∈ [(qabs (1 - dh / dv), h, v)]
      rw [List.mem_singleton, qabs_eq_abs, hs]
    · refine ⟨v, List.mem_range.mpr hvn, ?_⟩
      unfold midItems
      rw [if_neg hvi, if_neg (by rw [hrv]; exact fun hc => nomatch hc)]
      rw [List.mem_flatMap]
      refine ⟨h, List.mem_range.mpr hhn, ?_⟩
      unfold innerItems
      rw [if_neg (by push_neg; exact ⟨hhv, hhi⟩)]
      rw [hrh, hrv]
      show (s, h, v) ∈ [(qabs (1 - dv / dh), h, v)]
      rw [List.mem_singleton, qabs_eq_abs, hs]


set_option maxHeartbeats 800000 in
/-- **C3** (amended). `group_finders` emits at most **one** group per datum
(not all valid triples): the candidate pair minimising the scanned score,
kept only when it beats the initial threshold `2.5`. Each scanned candidate
for a datum is a pair (one `Horizontal` neighbour `h`, one `Vertical`
neighbour `v`) with score `|1 - d_h/d_v|` **or** `|1 - d_v/d_h|` depending
on which of the two scan orders produced it; the emitted group is
`[v, datum, h]` and the final list is sorted ascending by score. -/
theorem group_finders_C3 (unmap : Nat → Nat → ℚ × ℚ) (n : Nat) :
    List.Pairwise (fun a b => a.2 ≤ b.2) (groupFinders unmap n)
      ∧ (groupFinders unmap n).Perm ((List.range n).filterMap (fun i1 =>
          match bestPair (getRelativePosition unmap) n i1 with
          | (score, some ih, some iv) => some ([iv, i1, ih], score)
          | _ => none))
      ∧ (∀ i1 score ih iv,
          bestPair (getRelativePosition unmap) n i1 = (score, some ih, some iv) →
            (score, ih, iv) ∈ candList (getRelativePosition unmap) n i1
            ∧ score < 5/2
            ∧ ∀ cand ∈ candList (getRelativePosition unmap) n i1, score ≤ cand.1)
      ∧ ∀ i1 s h v, (s, h, v) ∈ candList (getRelativePosition unmap) n i1 ↔
          ∃ dh dv, getRelativePosition unmap i1 h = (Orientation.Horizontal, dh)
            ∧ getRelativePosition unmap i1 v = (Orientation.Vertical, dv)
            ∧ h < n ∧ v < n ∧ h ≠ i1 ∧ v ≠ i1 ∧ h ≠ v
            ∧ (s = |1 - dh / dv| ∨ s = |1 - dv / dh|) := by
  refine ⟨?_, ?_, ?_, ?_⟩
  · have hs := @List.sorted_mergeSort (List Nat × ℚ)
      (fun a b => decide (a.2 ≤ b.2))
      (fun a b c hab hbc =>
        decide_eq_true (le_trans (of_decide_eq_true hab) (of_decide_eq_true hbc)))
      (fun a b => by
        show (decide (a.2 ≤ b.2) || decide (b.2 ≤ a.2)) = true
        rcases le_total a.2 b.2 with h | h
        · rw [decide_eq_true h]
          rfl
        · rw [decide_eq_true h, Bool.or_true])
      ((List.range n).filterMap (fun i1 =>
        match bestPair (getRelativePosition unmap) n i1 with
        | (score, some ih, some iv) => some ([iv, i1, ih], score)
        | _ => none))
    exact hs.imp (fun h => of_decide_eq_true h)
  · exact List.mergeSort_perm _ _
  · intro i1 score ih iv hbp
    rw [bestPair_eq] at hbp
    rcases argminScan_spec (candList (getRelativePosition unmap) n i1) (5/2) none
      with ⟨heq, _⟩ | ⟨it, hmem, heq, hlt, hall⟩
    · rw [heq] at hbp
      exact absurd (congrArg (fun z => z.2.1) hbp) (by simp [stView])
    · rw [heq] at hbp
      have h1 : it.1 = score := congrArg Prod.fst hbp
      have h2 : it.2.1 = ih := by
        have := congrArg (fun z => z.2.1) hbp
        simpa [stView] using this
      have h3 : it.2.2 = iv := by
        have := congrArg (fun z => z.2.2) hbp
        simpa [stView] using this
      have hit : it = (score, ih, iv) := by
        rw [Prod.ext_iff, Prod.ext_iff]
        exact ⟨h1, h2, h3⟩
      rw [← hit]
      refine ⟨hmem, by rw [h1] at hlt; exact hlt, ?_⟩
      intro cand hcand
      rw [← h1]
      exact hall cand hcand
  · intro i1 s h v
    exact mem_candList (getRelativePosition unmap) n i1 s h v

/-- The layout used in the counterexample: finder 1 lies horizontally at
distance 2 from datum 0, finder 2 vertically at distance 1; all other
readings are centred (no orientation). -/
def cexUnmap : Nat → Nat → ℚ × ℚ
  | 0, 1 => (11/2, 7/2)
  | 0, 2 => (7/2, 9/2)
  | _, _ => (7/2, 7/2)

/-- **C3** counterexample: with a horizontal neighbour at distance 2 and a
vertical one at distance 1, the emitted score is `1/2 = |1 - d_v/d_h|`
(the minimum over both scan orders), not the claimed
`|1 - d_h/d_v| = 1`. -/
theorem group_finders_C3_counterexample :
    getRelativePosition cexUnmap 0 1 = (Orientation.Horizontal, 2)
      ∧ getRelativePosition cexUnmap 0 2 = (Orientation.Vertical, 1)
      ∧ groupFinders cexUnmap 3 = [([2, 0, 1], 1/2)]
      ∧ ((1 : ℚ)/2) ≠ |1 - 2 / 1| := by
  have h01 : getRelativePosition cexUnmap 0 1 = (Orientation.Horizontal, 2) := by
    unfold getRelativePosition cexUnmap qabs
    norm_num
  have h02 : getRelativePosition cexUnmap 0 2 = (Orientation.Vertical, 1) := by
    unfold getRelativePosition cexUnmap qabs
    norm_num
  have h10 : getRelativePosition cexUnmap 1 0 = (Orientation.NoOrient, 0) := by
    unfold getRelativePosition cexUnmap qabs
    norm_num
  have h12 : getRelativePosition cexUnmap 1 2 = (Orientation.NoOrient, 0) := by
    unfold getRelativePosition cexUnmap qabs
    norm_num
  have h20 : getRelativePosition cexUnmap 2 0 = (Orientation.NoOrient, 0) := by
    unfold getRelativePosition cexUnmap qabs
    norm_num
  have h21 : getRelativePosition cexUnmap 2 1 = (Orientation.NoOrient, 0) := by
    unfold getRelativePosition cexUnmap qabs
    norm_num
  have hVN : ¬ (Orientation.Vertical = Orientation.NoOrient) :=
    fun h => Orientation.noConfusion h
  have hHN : ¬ (Orientation.Horizontal = Orientation.NoOrient) :=
    fun h => Orientation.noConfusion h
  have hqm1 : qabs (-1 : ℚ) = 1 := by unfold qabs; norm_num
  have hqh : qabs ((1 : ℚ) / 2) = 1 / 2 := by unfold qabs; norm_num
  refine ⟨h01, h02, ?_, by norm_num [abs_sub_comm, abs_of_nonneg]⟩
  have hr3 : List.range 3 = [0, 1, 2] := rfl
  have hbp0 : bestPair (getRelativePosition cexUnmap) 3 0 = ((1 : ℚ)/2, some 1, some 2) := by
    unfold bestPair
    rw [hr3]
    simp only [List.foldl_cons, List.foldl_nil, midStep, hr3, h01, h02]
    norm_num [innerStep, h01, h02]
    simp only [if_neg hVN, if_neg hHN, hqm1, hqh]
    norm_num
  have hbp1 : bestPair (getRelativePosition cexUnmap) 3 1 = ((5 : ℚ)/2, none, none) := by
    unfold bestPair
    rw [hr3]
    simp only [List.foldl_cons, List.foldl_nil, midStep, hr3, h10, h12]
    norm_num
  have hbp2 : bestPair (getRelativePosition cexUnmap) 3 2 = ((5 : ℚ)/2, none, none) := by
    unfold bestPair
    rw [hr3]
    simp only [List.foldl_cons, List.foldl_nil, midStep, hr3, h20, h21]
    norm_num
  unfold groupFinders
  rw [hr3]
  simp only [List.filterMap_cons, List.filterMap_nil, hbp0, hbp1, hbp2]
  rw [List.mergeSort_singleton]

theorem group_finders_C3_witness :
    List.Pairwise (fun (a b : List Nat × ℚ) => a.2 ≤ b.2) (groupFinders cexUnmap 3) :=
  (group_finders_C3 cexUnmap 3).1

end QRF
